import Mathlib

/-!
# Move-search engine of the Tetris overlay (`heuristic_engine.cpp`)

A shallow embedding of `HeuristicEngine` and the properties of its search,
line clearing and board metrics.

Modelling conventions.

* A `cv::Mat` of `uint8_t` is a list of rows (top row first), each row a list of
  cell values.  A cell is occupied when its value is non-zero, which is how every
  read in the source tests it.
* C++ `int` values are `Int` (all values stay far below 2^31); loop counters that
  are never negative are `Nat`.
* A `float` is an IEEE 754 binary32 value (`F32`): a rational, an infinity or NaN.
  Every arithmetic result is rounded to the nearest binary32 value, ties to even
  (`roundFloat`), and overflows to an infinity; comparisons with NaN are false.  The
  sign of a zero is not represented: no comparison can observe it.
* The constants `WEIGHT_LINES`, `WEIGHT_HEIGHT`, `WEIGHT_HOLES`, `WEIGHT_BUMPINESS` are
  used by `evaluatePosition` but defined nowhere in the sources, so they are a
  parameter (`Weights`): the values of four finite `float` constants.
* `Prediction bestPred;` leaves `rotation` and `column` default-initialised, that
  is, indeterminate.  The two indeterminate values are explicit arguments of
  `evaluate`.
-/

namespace TetrisOverlay

/-! ## Matrices -/

/-- A matrix of `uint8_t` cells: rows from top to bottom. -/
abbrev Mat := List (List Nat)

/-- Number of rows (`cv::Mat::rows`). -/
def matRows (m : Mat) : Nat := m.length

/-- Number of columns (`cv::Mat::cols`). -/
def matCols (m : Mat) : Nat := (m.headD []).length

/-- Read of cell `(y, x)` (`m.at<uint8_t>(y, x)`). -/
def cellAt (m : Mat) (y x : Nat) : Nat := (m.getD y []).getD x 0

/-- Write of cell `(y, x)` (`m.at<uint8_t>(y, x) = v`). -/
def setCell (m : Mat) (y x v : Nat) : Mat := m.set y ((m.getD y []).set x v)

/-- The board shape: 20 rows of 10 cells. -/
def IsBoard (b : Mat) : Prop := b.length = 20 ∧ ∀ r ∈ b, r.length = 10

instance (b : Mat) : Decidable (IsBoard b) := by
  unfold IsBoard; infer_instance

/-- A row of ten empty cells. -/
def zeroRow : List Nat := List.replicate 10 0

/-- The empty board. -/
def emptyBoard : Mat := List.replicate 20 zeroRow

/-! ## Piece catalog (`getPieceShapes`) -/

/-- Rotation variants of a piece identifier; the empty list for any other string. -/
def getPieceShapes (pieceType : String) : List Mat :=
  if pieceType = "I" then
    [[[1, 1, 1, 1]], [[1], [1], [1], [1]]]
  else if pieceType = "O" then
    [[[1, 1], [1, 1]]]
  else if pieceType = "T" then
    [[[0, 1, 0], [1, 1, 1]], [[1, 0], [1, 1], [1, 0]],
     [[1, 1, 1], [0, 1, 0]], [[0, 1], [1, 1], [0, 1]]]
  else if pieceType = "S" then
    [[[0, 1, 1], [1, 1, 0]], [[1, 0], [1, 1], [0, 1]]]
  else if pieceType = "Z" then
    [[[1, 1, 0], [0, 1, 1]], [[0, 1], [1, 1], [1, 0]]]
  else if pieceType = "J" then
    [[[1, 0, 0], [1, 1, 1]], [[1, 1], [1, 0], [1, 0]],
     [[1, 1, 1], [0, 0, 1]], [[0, 1], [0, 1], [1, 1]]]
  else if pieceType = "L" then
    [[[0, 0, 1], [1, 1, 1]], [[1, 1], [0, 1], [0, 1]],
     [[1, 1, 1], [1, 0, 0]], [[0, 1], [1, 1], [1, 0]]]
  else
    []

/-! ## Placement -/

/-- Collision test of `canPlace`: every filled piece cell lies in columns `0..9`, above
row 20, and, when its row is on the board, on an empty board cell. -/
def canPlace (board piece : Mat) (col row : Int) : Bool :=
  (List.range (matRows piece)).all fun y =>
    (List.range (matCols piece)).all fun x =>
      if cellAt piece y x ≠ 0 then
        let boardY : Int := row + y
        let boardX : Int := col + x
        if boardX < 0 ∨ boardX ≥ 10 ∨ boardY ≥ 20 then false
        else if boardY ≥ 0 ∧ cellAt board boardY.toNat boardX.toNat ≠ 0 then false
        else true
      else true

/-- Copy of the board with the piece cells written as 1 (`placePiece`). -/
def placePiece (board piece : Mat) (col row : Int) : Mat :=
  (List.range (matRows piece)).foldl (fun newBoard y =>
    (List.range (matCols piece)).foldl (fun newBoard x =>
      if cellAt piece y x ≠ 0 then
        let boardY : Int := row + y
        let boardX : Int := col + x
        if boardY ≥ 0 ∧ boardY < 20 ∧ boardX ≥ 0 ∧ boardX < 10 then
          setCell newBoard boardY.toNat boardX.toNat 1
        else newBoard
      else newBoard) newBoard) board

/-- The loop of `dropPiece`: `n` iterations remain, the loop variable is `row`.
Returns `row` at the first `row` with `canPlace (row + 1)` false, and `-1` when the
loop runs to its end. -/
def dropPieceLoop (board piece : Mat) (col : Int) : Nat → Int → Int
  | 0, _ => -1
  | n + 1, row =>
    if !canPlace board piece col (row + 1) then row
    else dropPieceLoop board piece col n (row + 1)

/-- Landing row of `dropPiece`: `row` runs from `-piece.rows` to `19`. -/
def dropPiece (board piece : Mat) (col : Int) : Int :=
  dropPieceLoop board piece col (20 + matRows piece) (-(matRows piece : Int))

/-! ## Line clearing -/

/-- The test `lineFull` of `clearLines`: all ten cells of row `y` are non-zero. -/
def lineFull (board : Mat) (y : Nat) : Bool :=
  (List.range 10).all fun x => cellAt board y x ≠ 0

/-- One pass of the inner copy loop: row `dst` receives the ten cells of row `src`. -/
def copyRow (board : Mat) (dst src : Nat) : Mat :=
  (List.range 10).foldl (fun b x => setCell b dst x (cellAt b src x)) board

/-- The shift loop `for (shiftY = y; shiftY > 0; --shiftY)` of `clearLines`. -/
def shiftDown (board : Mat) : Nat → Mat
  | 0 => board
  | shiftY + 1 => shiftDown (copyRow board (shiftY + 1) shiftY) shiftY

/-- The loop that zeroes the top line. -/
def clearTop (board : Mat) : Mat :=
  (List.range 10).foldl (fun b x => setCell b 0 x 0) board

/-- The outer loop of `clearLines` with loop variable `y`, the board and the count so
far.  Each unit of fuel pays for one evaluation of the loop test; `none` means the
fuel ran out before the loop ended. -/
def clearLinesLoop : Nat → Int → Mat → Int → Option (Mat × Int)
  | 0, _, _, _ => none
  | fuel + 1, y, board, linesCleared =>
    if y ≥ 0 then
      if lineFull board y.toNat then
        -- shift, clear the top line, `linesCleared++`, `y++`, then the loop's `--y`
        clearLinesLoop fuel (y + 1 - 1) (clearTop (shiftDown board y.toNat)) (linesCleared + 1)
      else
        clearLinesLoop fuel (y - 1) board linesCleared
    else some (board, linesCleared)

/-- Loop tests that `clearLines` can need on 20 rows: `y` decreases 20 times, a line is
removed at most 20 times, and one last test leaves the loop. -/
def clearLinesFuel : Nat := 41

/-- Result of `clearLines`: the board after clearing and the number of lines cleared. -/
def clearLines (board : Mat) : Option (Mat × Int) :=
  clearLinesLoop clearLinesFuel 19 board 0

/-! ## Metrics -/

/-- The inner loop shared by `calculateAggregateHeight` and `calculateBumpiness`:
`y` runs from `n - 1` down to 0, and the first occupied cell gives `y + 1`. -/
def columnHeightLoop (board : Mat) (x : Nat) : Nat → Int
  | 0 => 0
  | y + 1 => if cellAt board y x ≠ 0 then (y : Int) + 1 else columnHeightLoop board x y

/-- The value `columnHeight` of column `x` (scan from `y = 19`). -/
def columnHeight (board : Mat) (x : Nat) : Int := columnHeightLoop board x 20

/-- Sum of `columnHeight` over the ten columns (`calculateAggregateHeight`). -/
def calculateAggregateHeight (board : Mat) : Int :=
  (List.range 10).foldl (fun totalHeight x => totalHeight + columnHeight board x) 0

/-- The column scan of `countHoles`: state `(foundBlock, holes)`. -/
def countHolesColumn (board : Mat) (x : Nat) (holes : Int) : Int :=
  ((List.range 20).foldl (fun (st : Bool × Int) y =>
    if cellAt board y x ≠ 0 then (true, st.2)
    else if st.1 ∧ ¬ (cellAt board y x ≠ 0) then (st.1, st.2 + 1)
    else st) (false, holes)).2

/-- Number of holes (`countHoles`). -/
def countHoles (board : Mat) : Int :=
  (List.range 10).foldl (fun holes x => countHolesColumn board x holes) 0

/-- Sum of `|columnHeight - prevHeight|` for `x > 0` (`calculateBumpiness`); the state
is `(bumpiness, prevHeight)`. -/
def calculateBumpiness (board : Mat) : Int :=
  ((List.range 10).foldl (fun (st : Int × Int) x =>
    let h := columnHeight board x
    (if x > 0 then st.1 + |h - st.2| else st.1, h)) (0, 0)).1

/-! ## Scoring and search -/

/-- The largest finite `float`, `std::numeric_limits<float>::max()`. -/
def FLT_MAX : ℚ := 340282346638528859811704183484516925440

/-- Binary exponent of the binade of `x` in binary32: the `e` with
`2^e <= |x| < 2^(e+1)`, and `-126` throughout the subnormal range. -/
def binadeExp (x : ℚ) : Int :=
  if |x| < 2 ^ (-126 : Int) then -126 else Int.log 2 |x|

/-- The integer nearest to `t`, the even one of the two when `t` lies half way. -/
def roundHalfEven (t : ℚ) : Int :=
  if t - ⌊t⌋ < 1 / 2 then ⌊t⌋
  else if 1 / 2 < t - ⌊t⌋ then ⌊t⌋ + 1
  else if ⌊t⌋ % 2 = 0 then ⌊t⌋ else ⌊t⌋ + 1

/-- Rounding to binary32 with an unbounded exponent range upward: the nearest multiple
of the unit in the last place `2^(e-23)` of the binade of `x`, ties to even. -/
def roundFloat (x : ℚ) : ℚ :=
  roundHalfEven (x / 2 ^ (binadeExp x - 23)) * 2 ^ (binadeExp x - 23)

/-- A `float` value: finite, `+inf`, `-inf` or NaN. -/
inductive F32 where
  | fin (q : ℚ)
  | pinf
  | ninf
  | nan
deriving DecidableEq

/-- The `float` nearest to the exact result `x`; a rounded value beyond `FLT_MAX`
overflows to the infinity of its sign. -/
def F32.ofRat (x : ℚ) : F32 :=
  if FLT_MAX < roundFloat x then .pinf
  else if roundFloat x < -FLT_MAX then .ninf
  else .fin (roundFloat x)

/-- Conversion of an `int` to `float`. -/
def F32.ofInt (n : Int) : F32 := F32.ofRat n

/-- Addition of two `float` values. -/
def F32.add : F32 → F32 → F32
  | .fin a, .fin b => F32.ofRat (a + b)
  | .nan, _ => .nan
  | _, .nan => .nan
  | .pinf, .ninf => .nan
  | .ninf, .pinf => .nan
  | .pinf, _ => .pinf
  | _, .pinf => .pinf
  | .ninf, _ => .ninf
  | _, .ninf => .ninf

/-- Multiplication of two `float` values. -/
def F32.mul : F32 → F32 → F32
  | .fin a, .fin b => F32.ofRat (a * b)
  | .nan, _ => .nan
  | _, .nan => .nan
  | .fin a, .pinf => if a = 0 then .nan else if 0 < a then .pinf else .ninf
  | .fin a, .ninf => if a = 0 then .nan else if 0 < a then .ninf else .pinf
  | .pinf, .fin b => if b = 0 then .nan else if 0 < b then .pinf else .ninf
  | .ninf, .fin b => if b = 0 then .nan else if 0 < b then .ninf else .pinf
  | .pinf, .pinf => .pinf
  | .ninf, .ninf => .pinf
  | .pinf, .ninf => .ninf
  | .ninf, .pinf => .ninf

/-- The comparison `a < b` of two `float` values; false when either is NaN. -/
def F32.lt : F32 → F32 → Bool
  | .fin a, .fin b => decide (a < b)
  | .ninf, .fin _ => true
  | .fin _, .pinf => true
  | .ninf, .pinf => true
  | _, _ => false

/-- The comparison `a <= b` of two `float` values; false when either is NaN. -/
def F32.le : F32 → F32 → Bool
  | .fin a, .fin b => decide (a ≤ b)
  | .ninf, .fin _ => true
  | .fin _, .pinf => true
  | .ninf, .pinf => true
  | .ninf, .ninf => true
  | .pinf, .pinf => true
  | _, _ => false

instance : LT F32 := ⟨fun a b => F32.lt a b = true⟩

instance : LE F32 := ⟨fun a b => F32.le a b = true⟩

instance (a b : F32) : Decidable (a < b) := inferInstanceAs (Decidable (F32.lt a b = true))

instance (a b : F32) : Decidable (a ≤ b) := inferInstanceAs (Decidable (F32.le a b = true))

/-- The four weight constants of `evaluatePosition`: the value of each `float`
constant. -/
structure Weights where
  lines : ℚ
  height : ℚ
  holes : ℚ
  bumpiness : ℚ

/-- Weighted sum of the four metrics (`evaluatePosition`): each `score += m * W`
converts the `int` metric to `float`, rounds the product and rounds the sum. -/
def evaluatePosition (w : Weights) (board : Mat) (linesCleared : Int) : F32 :=
  let score : F32 := F32.fin 0
  let score := score.add ((F32.ofInt linesCleared).mul (F32.fin w.lines))
  let aggregateHeight := calculateAggregateHeight board
  let score := score.add ((F32.ofInt aggregateHeight).mul (F32.fin w.height))
  let holes := countHoles board
  let score := score.add ((F32.ofInt holes).mul (F32.fin w.holes))
  let bumpiness := calculateBumpiness board
  let score := score.add ((F32.ofInt bumpiness).mul (F32.fin w.bumpiness))
  score

/-- Result of `evaluate`. -/
structure Prediction where
  rotation : Int
  column : Int
  score : F32
  piece_type : String
deriving DecidableEq

/-- Body of the column loop of `evaluate` for one `(rot, col)`. -/
def evaluateCandidate (w : Weights) (board piece : Mat) (rot : Nat) (bestPred : Prediction)
    (col : Nat) : Option Prediction :=
  let dropRow := dropPiece board piece col
  if dropRow < 0 then some bestPred
  else
    match clearLines (placePiece board piece col dropRow) with
    | none => none
    | some (newBoard, linesCleared) =>
      let score := evaluatePosition w newBoard linesCleared
      if score > bestPred.score then
        some { bestPred with score := score, rotation := rot, column := col }
      else some bestPred

/-- Body of the rotation loop of `evaluate`: the column loop for rotation `rot`. -/
def evaluateRotation (w : Weights) (board : Mat) (rotations : List Mat)
    (bestPred : Prediction) (rot : Nat) : Option Prediction :=
  (List.range 10).foldlM (evaluateCandidate w board (rotations.getD rot []) rot) bestPred

/-- The heuristic search of `evaluate`.  `rotation0` and `column0` are the indeterminate
contents of the two fields that `Prediction bestPred;` leaves unset. -/
def evaluate (w : Weights) (rotation0 column0 : Int) (board : Mat) (curPiece : String) :
    Option Prediction :=
  let bestPred : Prediction :=
    { rotation := rotation0, column := column0, score := F32.fin (-FLT_MAX),
      piece_type := curPiece }
  let rotations := getPieceShapes curPiece
  (List.range rotations.length).foldlM (evaluateRotation w board rotations) bestPred

/-! ## Notions used to state the properties -/

/-- A row is fully occupied when its ten cells are all non-zero. -/
def rowFull (r : List Nat) : Bool := (List.range 10).all fun x => r.getD x 0 ≠ 0

/-- Number of occupied cells among the ten columns of a row. -/
def rowOccupied (r : List Nat) : Nat := ((List.range 10).filter fun x => r.getD x 0 ≠ 0).length

/-- Number of occupied cells of a board: the sum over its rows. -/
def occupiedCells (b : Mat) : Nat := (b.map rowOccupied).sum

/-- Height of column `x` in the words of the specification: 20 minus the row index of
the topmost occupied cell, and 0 for a column with no occupied cell (row 0 = top). -/
def specColumnHeight (b : Mat) (x : Nat) : Int :=
  match (List.range 20).find? (fun y => cellAt b y x ≠ 0) with
  | some y => 20 - (y : Int)
  | none => 0

/-- Aggregate height in the words of the specification: the sum of the column heights. -/
def specAggregateHeight (b : Mat) : Int :=
  ((List.range 10).map (specColumnHeight b)).sum

/-- Bumpiness in the words of the specification: the sum over `x = 0..8` of
`|h(x) - h(x+1)|`. -/
def specBumpiness (b : Mat) : Int :=
  ((List.range 9).map fun x => |specColumnHeight b x - specColumnHeight b (x + 1)|).sum

/-- The board whose only occupied cell is row 19 (the bottom row), column 0. -/
def bottomCellBoard : Mat :=
  List.replicate 19 zeroRow ++ [[1, 0, 0, 0, 0, 0, 0, 0, 0, 0]]

/-- A hole in the words of the specification: cell `(y, x)` is empty and some cell
`(y', x)` with `y' < y` is occupied. -/
def IsHole (b : Mat) (y x : Nat) : Prop := cellAt b y x = 0 ∧ ∃ y', y' < y ∧ cellAt b y' x ≠ 0

instance (b : Mat) (y x : Nat) : Decidable (IsHole b y x) := by
  unfold IsHole; infer_instance

/-- Number of holes among the cells of the 20 rows and 10 columns. -/
def specHoleCount (b : Mat) : Nat :=
  ((Finset.range 20 ×ˢ Finset.range 10).filter fun p => IsHole b p.1 p.2).card

/-- The weights are small enough for every score to stay strictly inside the range of
finite `float` values: no metric exceeds 200, and on a board left by `clearLines` none
exceeds 199, which leaves room for the rounding errors. -/
def WeightsInRange (w : Weights) : Prop :=
  200 * (|w.lines| + |w.height| + |w.holes| + |w.bumpiness|) < FLT_MAX

/-- The value of `evaluatePosition` when no operation overflows: the four rounded
products added up with a rounding after each addition. -/
def roundedScore (w : Weights) (n h o b : Int) : ℚ :=
  roundFloat (roundFloat (roundFloat (roundFloat (0 + roundFloat (n * w.lines))
    + roundFloat (h * w.height)) + roundFloat (o * w.holes)) + roundFloat (b * w.bumpiness))

/-- Variant `rot` of the piece (`rotations[rot]`). -/
def pieceVariant (curPiece : String) (rot : Nat) : Mat := (getPieceShapes curPiece).getD rot []

/-- The `(rot, col)` pair is tried by `evaluate` and not skipped: `dropPiece` returns a
row `>= 0`. -/
def Feasible (board : Mat) (curPiece : String) (rot col : Nat) : Prop :=
  rot < (getPieceShapes curPiece).length ∧ col < 10 ∧
    0 ≤ dropPiece board (pieceVariant curPiece rot) col

instance (board : Mat) (curPiece : String) (rot col : Nat) :
    Decidable (Feasible board curPiece rot col) := by
  unfold Feasible; infer_instance

/-- Score of the simulated board of a placement: `placePiece` at the landing row, then
`clearLines`, then `evaluatePosition`. -/
def simulatedScore (w : Weights) (board piece : Mat) (col : Int) : Option F32 :=
  (clearLines (placePiece board piece col (dropPiece board piece col))).map
    fun r => evaluatePosition w r.1 r.2

/-- Score of the candidate `(rot, col)`, and `none` when the pair is skipped. -/
def candidateScore (w : Weights) (board : Mat) (curPiece : String) (rot col : Nat) :
    Option F32 :=
  if dropPiece board (pieceVariant curPiece rot) col < 0 then none
  else simulatedScore w board (pieceVariant curPiece rot) col

/-- Update of `bestPred` by a candidate with score `f rot col`. -/
def searchStep (f : Nat → Nat → Option F32) (rot : Nat) (bestPred : Prediction) (col : Nat) :
    Prediction :=
  match f rot col with
  | none => bestPred
  | some score =>
    if score > bestPred.score then
      { bestPred with score := score, rotation := rot, column := col }
    else bestPred

/-- The candidates tried before `(rot, col)` in the order of the two loops. -/
def SeenUpTo (rot col : Nat) (r c : Nat) : Prop := c < 10 ∧ (r < rot ∨ (r = rot ∧ c < col))

/-- Loop invariant of the search: `p` is the running best over the candidates `seen`,
starting from `p0`. -/
def SearchInv (f : Nat → Nat → Option F32) (p0 p : Prediction) (seen : Nat → Nat → Prop) :
    Prop :=
  p.piece_type = p0.piece_type ∧
  (∀ r c s, seen r c → f r c = some s → s ≤ p.score) ∧
  ((p = p0 ∧ ∀ r c, seen r c → f r c = none) ∨
   (∃ r c : Nat, seen r c ∧ p.rotation = r ∧ p.column = c ∧ f r c = some p.score ∧
      ∀ r' c', seen r' c' → f r' c' = some p.score → r < r' ∨ (r = r' ∧ c ≤ c')))

/-- Holes of column `x` among the rows `0..n-1`. -/
def columnHoles (b : Mat) (x n : Nat) : Nat :=
  ((Finset.range n).filter fun y => IsHole b y x).card

/-- The board whose bottom row is fully occupied and whose other rows are empty. -/
def fullBottomBoard : Mat := List.replicate 19 zeroRow ++ [List.replicate 10 1]

/-- The board whose top row is fully occupied and whose other rows are empty. -/
def fullTopBoard : Mat := List.replicate 10 1 :: List.replicate 19 zeroRow

/-- Weights with a positive but tiny `W_lines`: lines `2^-30`, the other three -1. -/
def absorbWeights : Weights :=
  { lines := 1 / 2 ^ 30, height := -1, holes := -1, bumpiness := -1 }

/-- Sample weights: lines 0.76, height -0.51, holes -0.36, bumpiness -0.18. -/
def sampleWeights : Weights :=
  { lines := 76 / 100, height := -51 / 100, holes := -36 / 100, bumpiness := -18 / 100 }

/-! ## Rotations and sample boards -/

/-- The grid rotated by 90 degrees clockwise: row `i` of the result is column `i` of the
grid read from the bottom row up. -/
def rotateCW (m : Mat) : Mat :=
  (List.range (matCols m)).map fun i =>
    (List.range (matRows m)).map fun j => cellAt m (matRows m - 1 - j) i

/-- The grid rotated by 0, 90, 180 and 270 degrees. -/
def rotationsOf (m : Mat) : List Mat :=
  [m, rotateCW m, rotateCW (rotateCW m), rotateCW (rotateCW (rotateCW m))]

/-- The list is the set of rotation variants of its first grid: every listed grid is a
rotation of the first, the listed grids are pairwise distinct, and every rotation of
the first grid is listed. -/
def IsRotationSet (shapes : List Mat) : Prop :=
  (∀ g ∈ shapes, g ∈ rotationsOf (shapes.getD 0 [])) ∧ shapes.Nodup ∧
    ∀ g ∈ rotationsOf (shapes.getD 0 []), g ∈ shapes

instance (shapes : List Mat) : Decidable (IsRotationSet shapes) := by
  unfold IsRotationSet; infer_instance

/-- The number of cells equal to 1 in a grid. -/
def filledCells (m : Mat) : Nat := (m.map fun r => r.count 1).sum

/-- The board whose bottom row is occupied in every column except column 5. -/
def gapBottomBoard : Mat := List.replicate 19 zeroRow ++ [[1, 1, 1, 1, 1, 0, 1, 1, 1, 1]]

/-- The board with three occupied cells, in rows 17, 18 and 19 of column 5. -/
def threeCellBoard : Mat :=
  List.replicate 17 zeroRow ++ List.replicate 3 [0, 0, 0, 0, 0, 1, 0, 0, 0, 0]

/-- The board whose row 18 is occupied in every column and whose row 19 is occupied
in every column except column 0: in each column the topmost occupied cell is in row 18. -/
def floatingCellBoard : Mat :=
  List.replicate 18 zeroRow ++ [List.replicate 10 1, [0, 1, 1, 1, 1, 1, 1, 1, 1, 1]]

/-! ## Frame grabber (`dxgi_frame_grabber.cpp`)

The capture API is outside the program.  A call of `grab` is modelled against the
answers the API gives during that call (`GrabEnv`), and it returns the image, the
new object state and the API calls it made, in order.  `desc.Width`, `desc.Height`
and the mapped memory are part of the answers.  Sleeping is not modelled; the pacing
clock `last_ts_` takes the time read after the wait.  Handles are `Option Nat`, with
`none` for `nullptr`; a method call through a handle is only reached in states where
`initialized_` holds, which `initSession` sets together with the three handles. -/

/-- The macro `FAILED(hr)`: an `HRESULT` is a signed 32-bit value, negative on failure. -/
def FAILED (hr : Int) : Bool := decide (hr < 0)

/-- The macro `SUCCEEDED(hr)`. -/
def SUCCEEDED (hr : Int) : Bool := decide (hr ≥ 0)

/-- `DXGI_ERROR_ACCESS_LOST` (0x887A0026) as a signed 32-bit value. -/
def DXGI_ERROR_ACCESS_LOST : Int := 0x887A0026 - 2 ^ 32

/-- `DXGI_ERROR_DEVICE_REMOVED` (0x887A0005) as a signed 32-bit value. -/
def DXGI_ERROR_DEVICE_REMOVED : Int := 0x887A0005 - 2 ^ 32

/-- `DXGI_ERROR_DEVICE_RESET` (0x887A0007) as a signed 32-bit value. -/
def DXGI_ERROR_DEVICE_RESET : Int := 0x887A0007 - 2 ^ 32

/-- `DXGI_ERROR_WAIT_TIMEOUT` (0x887A0027) as a signed 32-bit value. -/
def DXGI_ERROR_WAIT_TIMEOUT : Int := 0x887A0027 - 2 ^ 32

/-- `E_FAIL` (0x80004005) as a signed 32-bit value. -/
def E_FAIL : Int := 0x80004005 - 2 ^ 32

/-- The calls that the grabber makes on the capture API and on the objects it returns. -/
inductive ApiCall where
  | D3D11CreateDevice
  | QueryDxgiDevice
  | GetAdapter
  | ReleaseDxgiDevice
  | EnumOutputs
  | ReleaseAdapter
  | QueryOutput1
  | ReleaseOutput
  | DuplicateOutput
  | ReleaseOutput1
  | GetDuplicationDesc
  | AcquireNextFrame
  | QueryTexture
  | ReleaseDesktopResource
  | ReleaseFrame
  | GetTextureDesc
  | CreateTexture2D
  | CopyResource
  | Map
  | Unmap
  | ReleaseStagingTexture
  | ReleaseAcquiredImage
  | ReleaseDuplication
  | ReleaseContext
  | ReleaseDevice
deriving DecidableEq

/-- The data members of `FrameGrabber`. -/
structure FrameGrabber where
  device_ : Option Nat
  context_ : Option Nat
  duplication_ : Option Nat
  initialized_ : Bool
  pool_ : List Mat
  pool_idx_ : Nat
  last_ts_ : Int
  frame_interval_ : ℚ
deriving DecidableEq

/-- Answers of the environment during one run of `FrameGrabber::initialize`: the
`HRESULT` of each call, the handles created, the desktop size, the two environment
variables after `atoi` (`none` when unset), the clock, and `fresh`: the bytes found in
the buffers that `prep_pool` allocates, one matrix per buffer (`cv::Mat(h, w, CV_8UC4)`
does not set them). -/
structure InitEnv where
  createDevice : Int
  device : Nat
  context : Nat
  queryDxgiDevice : Int
  getAdapter : Int
  enumOutputs : Int
  queryOutput1 : Int
  duplicateOutput : Int
  duplication : Nat
  width : Nat
  height : Nat
  poolSize : Option Int
  targetFps : Option Int
  now : Int
  fresh : List Mat

/-- Answers of the environment during one call of `grab`. -/
structure GrabEnv where
  now : Int
  acquire : Int
  reinit : InitEnv
  acquireRetry : Int
  queryTexture : Int
  descWidth : Nat
  descHeight : Nat
  createStaging : Int
  map : Int
  mapped : Mat

/-- An image of `h` rows of `4 * w` zero bytes: the contents of the buffers of the sample
states. -/
def blankImage (h w : Nat) : Mat := List.replicate h (List.replicate (4 * w) 0)

/-- A `cv::Mat(h, w, CV_8UC4)`: `h` rows of `4 * w` bytes.  The constructor allocates the
buffer and leaves its bytes as they are; byte `(y, x)` is what the environment holds
there (`bytes`). -/
def allocImage (h w : Nat) (bytes : Mat) : Mat :=
  (List.range h).map fun y => (List.range (4 * w)).map fun x => cellAt bytes y x

/-- The pool is cleared and refilled with `pool_sz` buffers, and the index is reset
(`prep_pool`); `fresh` gives the bytes found in each new buffer. -/
def prep_pool (s : FrameGrabber) (poolSize : Option Int) (w h : Nat) (fresh : List Mat) :
    FrameGrabber :=
  let pool_sz : Int := poolSize.getD 3
  { s with
    pool_ := (List.range pool_sz.toNat).map fun i => allocImage h w (fresh.getD i []),
    pool_idx_ := 0 }

/-- The function `FrameGrabber::initialize`: the result, the new state and the calls made. -/
def initSession (s : FrameGrabber) (e : InitEnv) : Bool × FrameGrabber × List ApiCall :=
  if FAILED e.createDevice then (false, s, [.D3D11CreateDevice])
  else
    let s1 := { s with device_ := some e.device, context_ := some e.context }
    if FAILED e.queryDxgiDevice then (false, s1, [.D3D11CreateDevice, .QueryDxgiDevice])
    else if FAILED e.getAdapter then
      (false, s1, [.D3D11CreateDevice, .QueryDxgiDevice, .GetAdapter, .ReleaseDxgiDevice])
    else if FAILED e.enumOutputs then
      (false, s1, [.D3D11CreateDevice, .QueryDxgiDevice, .GetAdapter, .ReleaseDxgiDevice,
        .EnumOutputs, .ReleaseAdapter])
    else if FAILED e.queryOutput1 then
      (false, s1, [.D3D11CreateDevice, .QueryDxgiDevice, .GetAdapter, .ReleaseDxgiDevice,
        .EnumOutputs, .ReleaseAdapter, .QueryOutput1, .ReleaseOutput])
    else if FAILED e.duplicateOutput then
      (false, s1, [.D3D11CreateDevice, .QueryDxgiDevice, .GetAdapter, .ReleaseDxgiDevice,
        .EnumOutputs, .ReleaseAdapter, .QueryOutput1, .ReleaseOutput, .DuplicateOutput,
        .ReleaseOutput1])
    else
      let s2 := { s1 with duplication_ := some e.duplication }
      let s3 := prep_pool s2 e.poolSize e.width e.height e.fresh
      let fps : Int := e.targetFps.getD 60
      (true,
        { s3 with frame_interval_ := 1 / (fps : ℚ), last_ts_ := e.now, initialized_ := true },
        [.D3D11CreateDevice, .QueryDxgiDevice, .GetAdapter, .ReleaseDxgiDevice,
          .EnumOutputs, .ReleaseAdapter, .QueryOutput1, .ReleaseOutput, .DuplicateOutput,
          .ReleaseOutput1, .GetDuplicationDesc])

/-- The `Release` calls of `recover_from_error`: one for each handle that is not null. -/
def releaseCalls (s : FrameGrabber) : List ApiCall :=
  (if s.duplication_.isSome then [ApiCall.ReleaseDuplication] else [])
    ++ (if s.context_.isSome then [ApiCall.ReleaseContext] else [])
    ++ (if s.device_.isSome then [ApiCall.ReleaseDevice] else [])

/-- The state after the three handles are released and set to null. -/
def tornDown (s : FrameGrabber) : FrameGrabber :=
  { s with duplication_ := none, context_ := none, device_ := none, initialized_ := false }

/-- The function `recover_from_error`: for the three device results it releases the
handles and runs `initialize` again; for any other result it does nothing. -/
def recover_from_error (s : FrameGrabber) (hr : Int) (e : InitEnv) :
    Bool × FrameGrabber × List ApiCall :=
  if hr = DXGI_ERROR_ACCESS_LOST ∨ hr = DXGI_ERROR_DEVICE_REMOVED ∨
      hr = DXGI_ERROR_DEVICE_RESET then
    let r := initSession (tornDown s) e
    (r.1, r.2.1, releaseCalls s ++ r.2.2)
  else (false, s, [])

/-- The function `wait_for_next_frame`: after the wait the clock is read into `last_ts_`. -/
def wait_for_next_frame (s : FrameGrabber) (now : Int) : FrameGrabber :=
  { s with last_ts_ := now }

/-- The copy loop of `grab`: for each `y < desc.Height`, `desc.Width * 4` bytes of row `y`
of the mapped memory are copied to the start of row `y` of the buffer.  `none` when a
row does not exist or is shorter than the copy. -/
def copyRows (dst mapped : Mat) (height width : Nat) : Option Mat :=
  (List.range height).foldlM (fun d y =>
    if y < d.length ∧ 4 * width ≤ (d.getD y []).length ∧
        y < mapped.length ∧ 4 * width ≤ (mapped.getD y []).length then
      some (d.set y ((mapped.getD y []).take (4 * width) ++ (d.getD y []).drop (4 * width)))
    else none) dst

/-- The part of `grab` after a frame was acquired, in state `s` with the calls `calls`
made so far.  `none` when `pool_[pool_idx_]` is outside the pool or the copy runs
outside a buffer. -/
def grabAcquired (s : FrameGrabber) (calls : List ApiCall) (e : GrabEnv) :
    Option (Mat × FrameGrabber × List ApiCall) :=
  if FAILED e.queryTexture then
    some ([], s, calls ++ [.QueryTexture, .ReleaseDesktopResource, .ReleaseFrame])
  else if s.pool_idx_ < s.pool_.length then
    let idx := s.pool_idx_
    let dst := s.pool_.getD idx []
    let s1 := { s with pool_idx_ := (s.pool_idx_ + 1) % s.pool_.length }
    if FAILED e.createStaging then
      some ([], s1, calls ++ [.QueryTexture, .ReleaseDesktopResource, .GetTextureDesc,
        .CreateTexture2D, .ReleaseAcquiredImage, .ReleaseFrame])
    else if SUCCEEDED e.map then
      match copyRows dst e.mapped e.descHeight e.descWidth with
      | none => none
      | some dst' =>
        some (dst', { s1 with pool_ := s.pool_.set idx dst' },
          calls ++ [.QueryTexture, .ReleaseDesktopResource, .GetTextureDesc, .CreateTexture2D,
            .CopyResource, .Map, .Unmap, .ReleaseStagingTexture, .ReleaseAcquiredImage,
            .ReleaseFrame])
    else
      some (dst, s1,
        calls ++ [.QueryTexture, .ReleaseDesktopResource, .GetTextureDesc, .CreateTexture2D,
          .CopyResource, .Map, .ReleaseStagingTexture, .ReleaseAcquiredImage, .ReleaseFrame])
  else none

/-- The function `grab`: the returned image (`[]` is the empty `cv::Mat()`), the new state
and the calls made. -/
def grab (s : FrameGrabber) (e : GrabEnv) : Option (Mat × FrameGrabber × List ApiCall) :=
  if !s.initialized_ then some ([], s, [])
  else
    let s0 := wait_for_next_frame s e.now
    if FAILED e.acquire then
      let r := recover_from_error s0 e.acquire e.reinit
      if !r.1 then some ([], r.2.1, [ApiCall.AcquireNextFrame] ++ r.2.2)
      else if FAILED e.acquireRetry then
        some ([], r.2.1, [ApiCall.AcquireNextFrame] ++ r.2.2 ++ [ApiCall.AcquireNextFrame])
      else
        grabAcquired r.2.1 ([ApiCall.AcquireNextFrame] ++ r.2.2 ++ [ApiCall.AcquireNextFrame]) e
    else grabAcquired s0 [ApiCall.AcquireNextFrame] e

/-- The three handles are present and `initialized_` is set. -/
def SessionReady (s : FrameGrabber) : Prop :=
  s.initialized_ = true ∧ s.device_.isSome = true ∧ s.context_.isSome = true ∧
    s.duplication_.isSome = true

/-- The result `hr` is one of the three that `recover_from_error` treats as loss of the
device. -/
def DeviceInvalidated (hr : Int) : Prop :=
  hr = DXGI_ERROR_ACCESS_LOST ∨ hr = DXGI_ERROR_DEVICE_REMOVED ∨ hr = DXGI_ERROR_DEVICE_RESET

instance (hr : Int) : Decidable (DeviceInvalidated hr) := by
  unfold DeviceInvalidated; infer_instance

/-- An answer of `initialize` in which every call succeeds: a 2x1 desktop, both
environment variables unset, and new buffers that hold the byte 205 everywhere. -/
def sampleInitEnv : InitEnv :=
  { createDevice := 0, device := 11, context := 12, queryDxgiDevice := 0, getAdapter := 0,
    enumOutputs := 0, queryOutput1 := 0, duplicateOutput := 0, duplication := 13,
    width := 2, height := 1, poolSize := none, targetFps := none, now := 0,
    fresh := List.replicate 3 [[205, 205, 205, 205, 205, 205, 205, 205]] }

/-- A grabber after a successful `initialize`: three 2x1 buffers, index 0. -/
def sampleGrabber : FrameGrabber :=
  { device_ := some 1, context_ := some 2, duplication_ := some 3, initialized_ := true,
    pool_ := List.replicate 3 (blankImage 1 2), pool_idx_ := 0, last_ts_ := 0,
    frame_interval_ := 1 / 60 }

/-- Answers of a call of `grab` in which every call succeeds and the frame is a 2x1
image with bytes 1..8. -/
def sampleGrabEnv : GrabEnv :=
  { now := 5, acquire := 0, reinit := sampleInitEnv, acquireRetry := 0, queryTexture := 0,
    descWidth := 2, descHeight := 1, createStaging := 0, map := 0,
    mapped := [[1, 2, 3, 4, 5, 6, 7, 8]] }

/-- The state and calls of the re-initialisation that `grab` runs after a device result. -/
def reinitResult (s : FrameGrabber) (e : GrabEnv) : Bool × FrameGrabber × List ApiCall :=
  initSession (tornDown (wait_for_next_frame s e.now)) e.reinit

instance (s : FrameGrabber) : Decidable (SessionReady s) := by
  unfold SessionReady; infer_instance

/-- Answers of a call of `grab` in which only `Map` fails. -/
def mapFailureEnv : GrabEnv := { sampleGrabEnv with map := E_FAIL }

/-- Answers of a call of `grab` whose first acquisition reports lost access and whose
retry times out. -/
def accessLostEnv : GrabEnv :=
  { sampleGrabEnv with acquire := DXGI_ERROR_ACCESS_LOST, acquireRetry := DXGI_ERROR_WAIT_TIMEOUT }

/-- Answers of a call of `grab` whose acquisition times out. -/
def timeoutEnv : GrabEnv := { sampleGrabEnv with acquire := DXGI_ERROR_WAIT_TIMEOUT }

/-! ## Overlay renderer shapes (`overlay_renderer.cpp`) -/

/-- Element `i` of a C array of grids; `none` for an index outside the array. -/
def indexShapes (shapes : List Mat) (i : Int) : Option Mat :=
  if 0 ≤ i then shapes.get? i.toNat else none

/-- The grid that `OverlayRenderer::getPieceShape` returns.  `%` is the remainder of C++
(`Int.tmod`); the empty `cv::Mat()` of the default case is `[]`. -/
def getPieceShape (pieceType : String) (rotation : Int) : Option Mat :=
  if pieceType = "I" then
    some (if rotation.tmod 2 = 0 then [[1, 1, 1, 1]] else [[1], [1], [1], [1]])
  else if pieceType = "O" then
    some [[1, 1], [1, 1]]
  else if pieceType = "T" then
    indexShapes [[[0, 1, 0], [1, 1, 1]], [[1, 0], [1, 1], [1, 0]],
      [[1, 1, 1], [0, 1, 0]], [[0, 1], [1, 1], [0, 1]]] (rotation.tmod 4)
  else if pieceType = "S" then
    some (if rotation.tmod 2 = 0 then [[0, 1, 1], [1, 1, 0]] else [[1, 0], [1, 1], [0, 1]])
  else if pieceType = "Z" then
    some (if rotation.tmod 2 = 0 then [[1, 1, 0], [0, 1, 1]] else [[0, 1], [1, 1], [1, 0]])
  else if pieceType = "J" then
    indexShapes [[[1, 0, 0], [1, 1, 1]], [[1, 1], [1, 0], [1, 0]],
      [[1, 1, 1], [0, 0, 1]], [[0, 1], [0, 1], [1, 1]]] (rotation.tmod 4)
  else if pieceType = "L" then
    indexShapes [[[0, 0, 1], [1, 1, 1]], [[1, 1], [0, 1], [0, 1]],
      [[1, 1, 1], [1, 0, 0]], [[0, 1], [1, 1], [1, 0]]] (rotation.tmod 4)
  else
    some []

/-- The seven piece identifiers. -/
def pieceIdentifiers : List String := ["I", "O", "T", "S", "Z", "J", "L"]

/-! ## Notions for landing rows, placement and the buffer pool -/

/-- The piece is droppable to row `r` in the words of the specification: at `r` every
filled cell of the piece maps to a board cell inside the 20 rows and 10 columns that is
empty, and at `r + 1` the placement is not collision-free. -/
def Droppable (board piece : Mat) (col row : Int) : Prop :=
  (∀ y < matRows piece, ∀ x < matCols piece, cellAt piece y x ≠ 0 →
    0 ≤ row + y ∧ row + y < 20 ∧ 0 ≤ col + x ∧ col + x < 10 ∧
      cellAt board (row + y).toNat (col + x).toNat = 0) ∧
  canPlace board piece col (row + 1) = false

instance (board piece : Mat) (col row : Int) : Decidable (Droppable board piece col row) := by
  unfold Droppable; infer_instance

/-- The board whose only occupied cell is row 0, column 0. -/
def overhangBoard : Mat := [1, 0, 0, 0, 0, 0, 0, 0, 0, 0] :: List.replicate 19 zeroRow

/-- Board cell `(Y, X)` is the image of a filled cell `(y, x)` of the piece placed at
row `row` and column `col`: `Y = row + y` and `X = col + x`. -/
def PieceCovers (piece : Mat) (col row : Int) (Y X : Nat) : Prop :=
  ∃ y < matRows piece, ∃ x < matCols piece,
    cellAt piece y x ≠ 0 ∧ row + y = Y ∧ col + x = X

instance (piece : Mat) (col row : Int) (Y X : Nat) : Decidable (PieceCovers piece col row Y X) := by
  unfold PieceCovers; infer_instance

/-- The occupied cells of a matrix among the 20 rows and 10 columns. -/
def occupiedSet (b : Mat) : Finset (Nat × Nat) :=
  (Finset.range 20 ×ˢ Finset.range 10).filter fun q => cellAt b q.1 q.2 ≠ 0

/-- The filled cells of a grid. -/
def filledSet (piece : Mat) : Finset (Nat × Nat) :=
  (Finset.range (matRows piece) ×ˢ Finset.range (matCols piece)).filter
    fun q => cellAt piece q.1 q.2 ≠ 0

/-- The matrix is an image of `h` rows and `w` pixels of 4 bytes per row. -/
def IsImage (img : Mat) (h w : Nat) : Prop := img.length = h ∧ ∀ r ∈ img, r.length = 4 * w

instance (img : Mat) (h w : Nat) : Decidable (IsImage img h w) := by
  unfold IsImage; infer_instance

/-- The mapped memory has the `h` rows of the frame, each of at least `4 * w` bytes. -/
def MappedCovers (mapped : Mat) (h w : Nat) : Prop :=
  ∀ y < h, y < mapped.length ∧ 4 * w ≤ (mapped.getD y []).length

instance (mapped : Mat) (h w : Nat) : Decidable (MappedCovers mapped h w) := by
  unfold MappedCovers; infer_instance

/-- The pixels of the captured frame: the first `4 * w` bytes of each of the `h` rows of
the mapped memory. -/
def capturedImage (mapped : Mat) (h w : Nat) : Mat :=
  (List.range h).map fun y => (mapped.getD y []).take (4 * w)

/-- A grabber after a successful `initialize` whose index is 1 and whose first buffer
holds an earlier frame. -/
def sampleGrabberAtOne : FrameGrabber :=
  { sampleGrabber with
    pool_ := [[[9, 9, 9, 9, 9, 9, 9, 9]], blankImage 1 2, blankImage 1 2], pool_idx_ := 1 }

/-! ## Calibration file (`calibrate.cpp`)

The file is a character sequence; `none` stands for a file that cannot be opened.
`std::stoi` and `operator<<` for `int` belong to the C++ library and are modelled by
`stoi` and `formatInt`. -/

/-- The rectangle `m_roi` (`cv::Rect`). -/
structure Rect where
  x : Int
  y : Int
  width : Int
  height : Int
deriving DecidableEq

/-- The smallest `int`. -/
def INT_MIN : Int := -2147483648

/-- The largest `int`. -/
def INT_MAX : Int := 2147483647

/-- The four fields are `int` values. -/
def Rect.InRange (r : Rect) : Prop :=
  (INT_MIN ≤ r.x ∧ r.x ≤ INT_MAX) ∧ (INT_MIN ≤ r.y ∧ r.y ≤ INT_MAX) ∧
  (INT_MIN ≤ r.width ∧ r.width ≤ INT_MAX) ∧ (INT_MIN ≤ r.height ∧ r.height ≤ INT_MAX)

instance (r : Rect) : Decidable r.InRange := by
  unfold Rect.InRange; infer_instance

/-- The double quote character. -/
def quoteChar : Char := Char.ofNat 34

/-- The search pattern for a key `k`: the key in double quotes followed by a colon. -/
def keyPattern (k : Char) : List Char := [quoteChar, k, quoteChar, ':']

/-- The decimal digit character of `d < 10`. -/
def digitChar (d : Nat) : Char := Char.ofNat (48 + d)

/-- The decimal digits of a natural number, most significant first; "0" for 0. -/
def natDigits (n : Nat) : List Char :=
  if n = 0 then ['0'] else ((Nat.digits 10 n).reverse.map digitChar)

/-- The text that `operator<<` writes for an `int`: a minus sign for a negative value,
then the decimal digits. -/
def formatInt (v : Int) : List Char :=
  if v < 0 then '-' :: natDigits (-v).toNat else natDigits v.toNat

/-- The text written by `saveToFile`. -/
def saveText (roi : Rect) : List Char :=
  [Char.ofNat 123] ++ keyPattern 'x' ++ formatInt roi.x ++ [','] ++ keyPattern 'y'
    ++ formatInt roi.y ++ [','] ++ keyPattern 'w' ++ formatInt roi.width ++ [',']
    ++ keyPattern 'h' ++ formatInt roi.height ++ [Char.ofNat 125]

/-- The function `saveToFile`: `opened` tells whether the file could be opened.  The
result is the return value (`file.good()` after the write, taken to succeed) and the
text written. -/
def saveToFile (roi : Rect) (opened : Bool) : Bool × Option (List Char) :=
  if !opened then (false, none) else (true, some (saveText roi))

/-- The test `std::isspace` in the "C" locale. -/
def isspace (c : Char) : Bool :=
  c = ' ' || c = Char.ofNat 9 || c = Char.ofNat 10 || c = Char.ofNat 11 || c = Char.ofNat 12
    || c = Char.ofNat 13

/-- The value of a run of decimal digits. -/
def parseDigits (ds : List Char) : Nat := ds.foldl (fun a c => 10 * a + (c.toNat - 48)) 0

/-- The conversion `std::stoi`: leading white space is skipped, an optional sign is read,
then the longest run of decimal digits.  `none` stands for the two exceptions: no digit
(`invalid_argument`) or a value outside `int` (`out_of_range`). -/
def stoi (s : List Char) : Option Int :=
  let s1 := s.dropWhile isspace
  let s2 := if s1.head? = some '-' ∨ s1.head? = some '+' then s1.tail else s1
  let ds := s2.takeWhile Char.isDigit
  if ds = [] then none
  else
    let v : Int := if s1.head? = some '-' then -(parseDigits ds : Int) else (parseDigits ds : Int)
    if v < INT_MIN ∨ INT_MAX < v then none else some v

/-- The text starts with the pattern. -/
def startsWith : List Char → List Char → Bool
  | _, [] => true
  | [], _ :: _ => false
  | c :: cs, p :: ps => c = p && startsWith cs ps

/-- The position of the first occurrence of the pattern (`std::string::find`); `none` is
`npos`. -/
def findSubstr : List Char → List Char → Option Nat
  | [], pat => if pat = [] then some 0 else none
  | c :: cs, pat =>
    if startsWith (c :: cs) pat then some 0 else (findSubstr cs pat).map (· + 1)

/-- The function `loadFromFile` on the contents of the file: the return value and the new
`m_roi`.  An exception of `stoi` is caught and gives `false`; the fields assigned before
it keep their new values. -/
def loadFromFile (m_roi : Rect) (file : Option (List Char)) : Bool × Rect :=
  match file with
  | none => (false, m_roi)
  | some content =>
    match findSubstr content (keyPattern 'x'), findSubstr content (keyPattern 'y'),
        findSubstr content (keyPattern 'w'), findSubstr content (keyPattern 'h') with
    | some xPos, some yPos, some wPos, some hPos =>
      match stoi (content.drop (xPos + 4)) with
      | none => (false, m_roi)
      | some x =>
        match stoi (content.drop (yPos + 4)) with
        | none => (false, { m_roi with x := x })
        | some y =>
          match stoi (content.drop (wPos + 4)) with
          | none => (false, { m_roi with x := x, y := y })
          | some w =>
            match stoi (content.drop (hPos + 4)) with
            | none => (false, { m_roi with x := x, y := y, width := w })
            | some h => (true, { x := x, y := y, width := w, height := h })
    | _, _, _, _ => (false, m_roi)

/-- The pattern occurs in the text. -/
def Contains (content pat : List Char) : Prop := ∃ pre post, content = pre ++ pat ++ post

/-- A rectangle with a zero and a negative field. -/
def sampleRect : Rect := { x := -12, y := 0, width := 300, height := 600 }

/-! ## Matrix lemmas -/

theorem getD_set_list {α : Type} (l : List α) (i j : Nat) (a d : α) (hi : i < l.length) :
    (l.set i a).getD j d = if j = i then a else l.getD j d := by
  simp only [List.getD_eq_getElem?_getD, List.getElem?_set]
  by_cases h : i = j
  · subst h; simp [hi]
  · have h' : ¬ j = i := fun e => h e.symm
    simp [h, h']

theorem isBoard_row_length {b : Mat} (hb : IsBoard b) {y : Nat} (hy : y < 20) :
    (b.getD y []).length = 10 := by
  obtain ⟨h20, h10⟩ := hb
  rw [List.getD_eq_getElem _ _ (by omega)]
  exact h10 _ (List.getElem_mem _)

theorem isBoard_setCell {b : Mat} (hb : IsBoard b) (y x v : Nat) : IsBoard (setCell b y x v) := by
  by_cases hy : y < 20
  · have hrow := isBoard_row_length hb hy
    obtain ⟨h20, h10⟩ := hb
    refine ⟨by simp [setCell, h20], ?_⟩
    intro r hr
    rcases List.mem_or_eq_of_mem_set hr with h | h
    · exact h10 r h
    · subst h; simpa using hrow
  · have : setCell b y x v = b := by
      unfold setCell; exact List.set_eq_of_length_le (by have := hb.1; omega)
    rw [this]; exact hb

theorem cellAt_setCell {b : Mat} (hb : IsBoard b) {y x : Nat} (hy : y < 20) (hx : x < 10)
    (v y' x' : Nat) :
    cellAt (setCell b y x v) y' x' = if y' = y ∧ x' = x then v else cellAt b y' x' := by
  have hrow := isBoard_row_length hb hy
  unfold cellAt setCell
  rw [getD_set_list _ _ _ _ _ (by have := hb.1; omega)]
  by_cases h1 : y' = y
  · subst h1
    rw [if_pos rfl, getD_set_list _ _ _ _ _ (by omega)]
    by_cases h2 : x' = x <;> simp [h2]
  · simp [h1]

theorem board_ext {a b : Mat} (ha : IsBoard a) (hb : IsBoard b)
    (h : ∀ y x, y < 20 → x < 10 → cellAt a y x = cellAt b y x) : a = b := by
  apply List.ext_getElem (by rw [ha.1, hb.1])
  intro y h1 h2
  have hy : y < 20 := by have := ha.1; omega
  have ra := isBoard_row_length ha hy
  have rb := isBoard_row_length hb hy
  rw [List.getD_eq_getElem _ _ h1] at ra
  rw [List.getD_eq_getElem _ _ h2] at rb
  apply List.ext_getElem (by rw [ra, rb])
  intro x h3 h4
  have := h y x hy (by omega)
  unfold cellAt at this
  rw [List.getD_eq_getElem _ _ h1, List.getD_eq_getElem _ _ h2,
    List.getD_eq_getElem _ _ h3, List.getD_eq_getElem _ _ h4] at this
  exact this


/-! ## Removing a line -/

theorem isBoard_foldl_setCell {b : Mat} (hb : IsBoard b) (dst : Nat) (f : Mat → Nat → Nat)
    (xs : List Nat) : IsBoard (xs.foldl (fun b x => setCell b dst x (f b x)) b) := by
  induction xs generalizing b with
  | nil => exact hb
  | cons x xs ih => exact ih (isBoard_setCell hb _ _ _)

theorem cellAt_copy_fold {b : Mat} (hb : IsBoard b) {dst src : Nat} (hd : dst < 20)
    (hne : dst ≠ src) (xs : List Nat) (hxs : ∀ x ∈ xs, x < 10) (y x : Nat) :
    cellAt (xs.foldl (fun b x => setCell b dst x (cellAt b src x)) b) y x
      = if y = dst ∧ x ∈ xs then cellAt b src x else cellAt b y x := by
  induction xs generalizing b with
  | nil => simp
  | cons a xs ih =>
    have ha : a < 10 := hxs a (List.mem_cons_self _ _)
    rw [List.foldl_cons, ih (isBoard_setCell hb _ _ _) (fun x hx => hxs x (List.mem_cons_of_mem _ hx))]
    have hsrc : ∀ x', cellAt (setCell b dst a (cellAt b src a)) src x' = cellAt b src x' := by
      intro x'
      rw [cellAt_setCell hb hd ha]
      simp [Ne.symm hne]
    rw [hsrc, cellAt_setCell hb hd ha]
    by_cases h1 : y = dst
    · by_cases h2 : x ∈ xs
      · simp [h1, h2]
      · by_cases h3 : x = a
        · simp [h1, h3]
        · simp [h1, h2, h3]
    · simp [h1]

theorem isBoard_copyRow {b : Mat} (hb : IsBoard b) (dst src : Nat) :
    IsBoard (copyRow b dst src) :=
  isBoard_foldl_setCell hb dst (fun b x => cellAt b src x) _

theorem cellAt_copyRow {b : Mat} (hb : IsBoard b) {dst src : Nat} (hd : dst < 20)
    (hne : dst ≠ src) (y : Nat) {x : Nat} (hx : x < 10) :
    cellAt (copyRow b dst src) y x = if y = dst then cellAt b src x else cellAt b y x := by
  unfold copyRow
  rw [cellAt_copy_fold hb hd hne _ (fun x hx => List.mem_range.1 hx)]
  simp [List.mem_range, hx]

theorem isBoard_shiftDown {b : Mat} (hb : IsBoard b) (n : Nat) : IsBoard (shiftDown b n) := by
  induction n generalizing b with
  | zero => exact hb
  | succ n ih => exact ih (isBoard_copyRow hb _ _)

theorem cellAt_shiftDown {b : Mat} (hb : IsBoard b) {n : Nat} (hn : n < 20) (y : Nat) {x : Nat}
    (hx : x < 10) :
    cellAt (shiftDown b n) y x = if 1 ≤ y ∧ y ≤ n then cellAt b (y - 1) x else cellAt b y x := by
  induction n generalizing b with
  | zero =>
    have : ¬ (1 ≤ y ∧ y ≤ 0) := by omega
    rw [shiftDown, if_neg this]
  | succ n ih =>
    rw [shiftDown, ih (isBoard_copyRow hb _ _) (by omega)]
    rw [cellAt_copyRow hb hn (by omega) _ hx, cellAt_copyRow hb hn (by omega) _ hx]
    by_cases h1 : 1 ≤ y ∧ y ≤ n
    · have h2 : 1 ≤ y ∧ y ≤ n + 1 := by omega
      have h3 : ¬ (y - 1 = n + 1) := by omega
      simp [h1, h2, h3]
    · by_cases h4 : y = n + 1
      · subst h4; simp
      · have h2 : ¬ (1 ≤ y ∧ y ≤ n + 1) := by omega
        simp [h1, h2, h4]

theorem isBoard_clearTop {b : Mat} (hb : IsBoard b) : IsBoard (clearTop b) :=
  isBoard_foldl_setCell hb 0 (fun _ _ => 0) _

theorem cellAt_zero_fold {b : Mat} (hb : IsBoard b) (xs : List Nat) (hxs : ∀ x ∈ xs, x < 10)
    (y x : Nat) :
    cellAt (xs.foldl (fun b x => setCell b 0 x 0) b) y x
      = if y = 0 ∧ x ∈ xs then 0 else cellAt b y x := by
  induction xs generalizing b with
  | nil => simp
  | cons a xs ih =>
    have ha : a < 10 := hxs a (List.mem_cons_self _ _)
    rw [List.foldl_cons, ih (isBoard_setCell hb _ _ _) (fun x hx => hxs x (List.mem_cons_of_mem _ hx)),
      cellAt_setCell hb (by omega) ha]
    by_cases h1 : y = 0
    · by_cases h2 : x ∈ xs
      · simp [h1, h2]
      · by_cases h3 : x = a
        · simp [h1, h3]
        · simp [h1, h2, h3]
    · simp [h1]

theorem cellAt_clearTop {b : Mat} (hb : IsBoard b) (y : Nat) {x : Nat} (hx : x < 10) :
    cellAt (clearTop b) y x = if y = 0 then 0 else cellAt b y x := by
  unfold clearTop
  rw [cellAt_zero_fold hb _ (fun x hx => List.mem_range.1 hx)]
  simp [List.mem_range, hx]

theorem isBoard_removeRow {b : Mat} (hb : IsBoard b) {y : Nat} (hy : y < 20) :
    IsBoard (zeroRow :: b.eraseIdx y) := by
  obtain ⟨h20, h10⟩ := hb
  refine ⟨by simp [List.length_eraseIdx, h20, hy], ?_⟩
  intro r hr
  rcases List.mem_cons.1 hr with h | h
  · subst h; simp [zeroRow]
  · exact h10 r (List.mem_of_mem_eraseIdx h)

/-- Shifting rows `0..y-1` down by one and zeroing the top line removes row `y` and puts
an empty row on top. -/
theorem clearTop_shiftDown {b : Mat} (hb : IsBoard b) {y : Nat} (hy : y < 20) :
    clearTop (shiftDown b y) = zeroRow :: b.eraseIdx y := by
  apply board_ext (isBoard_clearTop (isBoard_shiftDown hb y)) (isBoard_removeRow hb hy)
  intro y' x hy' hx
  rw [cellAt_clearTop (isBoard_shiftDown hb y) _ hx, cellAt_shiftDown hb hy _ hx]
  cases y' with
  | zero =>
    simp only [cellAt, zeroRow, List.getD_eq_getElem?_getD, List.getElem?_cons_zero,
      List.getElem?_replicate, if_true, Option.getD_some, hx]
  | succ k =>
    simp only [cellAt, List.getD_eq_getElem?_getD, List.getElem?_cons_succ, List.getElem?_eraseIdx]
    by_cases h : k < y
    · have : 1 ≤ k + 1 ∧ k + 1 ≤ y := by omega
      simp [h, this]
    · have : ¬ (1 ≤ k + 1 ∧ k + 1 ≤ y) := by omega
      have h0 : ¬ (k + 1 = 0) := by omega
      rw [if_neg h0, if_neg this, if_neg h]

/-! ## The loop of `clearLines` -/

theorem lineFull_eq_rowFull (b : Mat) (y : Nat) : lineFull b y = rowFull (b.getD y []) := rfl

theorem rowFull_zeroRow : rowFull zeroRow = false := by decide

theorem clearLinesLoop_spec (fuel : Nat) (pre post : Mat) (n : Int)
    (hfuel : pre.countP rowFull + pre.length + 1 ≤ fuel)
    (hb : IsBoard (pre ++ post)) :
    clearLinesLoop fuel ((pre.length : Int) - 1) (pre ++ post) n
      = some (List.replicate (pre.countP rowFull) zeroRow
                ++ (pre.filter (fun r => !rowFull r) ++ post),
              n + (pre.countP rowFull : Nat)) := by
  induction fuel generalizing pre post n with
  | zero => omega
  | succ fuel ih =>
    rcases List.eq_nil_or_concat pre with h | ⟨init, r, h⟩
    · subst h
      simp [clearLinesLoop]
    · rw [List.concat_eq_append] at h
      subst h
      have hlen : (init ++ [r] ++ post).length = 20 := hb.1
      simp only [List.length_append, List.length_singleton] at hlen
      have hy : (((init ++ [r]).length : Int) - 1) = (init.length : Int) := by
        simp
      have hget : (init ++ [r] ++ post).getD init.length [] = r := by
        rw [List.append_assoc, List.getD_eq_getElem?_getD,
          List.getElem?_append_right (le_refl _), Nat.sub_self]
        simp
      rw [hy, clearLinesLoop, if_pos (by omega), Int.toNat_ofNat, lineFull_eq_rowFull, hget]
      by_cases hr : rowFull r = true
      · rw [if_pos hr, clearTop_shiftDown hb (by omega)]
        have herase : (init ++ [r] ++ post).eraseIdx init.length = init ++ post := by
          rw [List.append_assoc, List.eraseIdx_append_of_length_le (le_refl _)]
          simp
        have hb' : IsBoard ((zeroRow :: init) ++ post) := by
          refine ⟨by simp; omega, ?_⟩
          intro x hx
          rcases List.mem_append.1 hx with h1 | h1
          · rcases List.mem_cons.1 h1 with h2 | h2
            · subst h2; rfl
            · exact hb.2 x (by simp [h2])
          · exact hb.2 x (by simp [h1])
        have hc : (init ++ [r]).countP rowFull = init.countP rowFull + 1 := by
          simp [List.countP_append, List.countP_cons, hr]
        have hc' : (zeroRow :: init).countP rowFull = init.countP rowFull := by
          simp [List.countP_cons, rowFull_zeroRow]
        have := ih (zeroRow :: init) post (n + 1)
          (by rw [hc']; rw [hc] at hfuel; simp at hfuel ⊢; omega) hb'
        rw [herase]
        have e1 : (init.length : Int) + 1 - 1 = (((zeroRow :: init).length : Nat) : Int) - 1 := by
          simp
        rw [e1, ← List.cons_append, this, hc, hc']
        have hl : List.replicate (init.countP rowFull) zeroRow
              ++ ((zeroRow :: init).filter (fun r => !rowFull r) ++ post)
            = List.replicate (init.countP rowFull + 1) zeroRow
              ++ ((init ++ [r]).filter (fun r => !rowFull r) ++ post) := by
          rw [List.replicate_succ', List.filter_append, List.filter_cons]
          simp [rowFull_zeroRow, hr]
        have hn : n + 1 + ((init.countP rowFull : Nat) : Int)
            = n + ((init.countP rowFull + 1 : Nat) : Int) := by
          push_cast; ring
        rw [hl, hn]
      · rw [if_neg hr]
        have hr' : rowFull r = false := by simpa using hr
        have hc : (init ++ [r]).countP rowFull = init.countP rowFull := by
          simp [List.countP_append, List.countP_cons, hr']
        have hb' : IsBoard (init ++ (r :: post)) := by
          rw [show init ++ (r :: post) = init ++ [r] ++ post by simp]; exact hb
        have := ih init (r :: post) n (by rw [hc] at hfuel; simp at hfuel; omega) hb'
        rw [show init ++ [r] ++ post = init ++ (r :: post) by simp, this, hc]
        simp [List.filter_append, List.filter_cons, hr']

/-! ## The result of `clearLines` -/

/-- On a board, `clearLines` ends within its fuel; it returns the number of full rows and
leaves that many empty rows above the rows that were not full. -/
theorem clearLines_eq {b : Mat} (hb : IsBoard b) :
    clearLines b = some (List.replicate (b.countP rowFull) zeroRow
        ++ b.filter (fun r => !rowFull r), ((b.countP rowFull : Nat) : Int)) := by
  have hlen := hb.1
  have hc : b.countP rowFull ≤ b.length := List.countP_le_length _
  have h := clearLinesLoop_spec clearLinesFuel b [] 0
    (by unfold clearLinesFuel; omega) (by simpa using hb)
  rw [hlen] at h
  simpa [clearLines] using h

theorem isBoard_cleared {b : Mat} (hb : IsBoard b) :
    IsBoard (List.replicate (b.countP rowFull) zeroRow ++ b.filter (fun r => !rowFull r)) := by
  constructor
  · have h1 : (b.filter (fun r => !rowFull r)).length = b.countP (fun r => !rowFull r) := by
      rw [List.countP_eq_length_filter]
    have h2 := List.length_eq_countP_add_countP rowFull b
    have h3 : b.countP (fun r => !rowFull r) = b.countP (fun a => decide ¬rowFull a = true) := by
      congr 1; funext r; cases rowFull r <;> simp
    rw [List.length_append, List.length_replicate, h1, h3, ← h2, hb.1]
  · intro r hr
    rcases List.mem_append.1 hr with h | h
    · rw [(List.mem_replicate.1 h).2]; rfl
    · exact hb.2 r (List.mem_of_mem_filter h)

theorem rowOccupied_zeroRow : rowOccupied zeroRow = 0 := by decide

theorem rowOccupied_of_full {r : List Nat} (h : rowFull r = true) : rowOccupied r = 10 := by
  unfold rowOccupied
  unfold rowFull at h
  rw [List.filter_eq_self.2 (by simpa using h)]
  simp

theorem occupiedCells_split (b : Mat) :
    occupiedCells b = 10 * b.countP rowFull + occupiedCells (b.filter (fun r => !rowFull r)) := by
  induction b with
  | nil => simp [occupiedCells]
  | cons r b ih =>
    unfold occupiedCells at ih ⊢
    by_cases h : rowFull r = true
    · simp only [List.map_cons, List.sum_cons, List.countP_cons, h, if_true, List.filter_cons,
        Bool.not_true, Bool.false_eq_true, if_false, rowOccupied_of_full h]
      omega
    · have h' : rowFull r = false := by simpa using h
      simp only [List.map_cons, List.sum_cons, List.countP_cons, h', Bool.false_eq_true, if_false,
        List.filter_cons, Bool.not_false, if_true]
      omega

theorem occupiedCells_replicate_zeroRow (k : Nat) (b : Mat) :
    occupiedCells (List.replicate k zeroRow ++ b) = occupiedCells b := by
  unfold occupiedCells
  simp [rowOccupied_zeroRow]

/-! ## The hole count -/

theorem columnHoles_succ (b : Mat) (x n : Nat) :
    columnHoles b x (n + 1) = columnHoles b x n + if IsHole b n x then 1 else 0 := by
  unfold columnHoles
  rw [Finset.range_succ, Finset.filter_insert]
  by_cases h : IsHole b n x
  · rw [if_pos h, if_pos h, Finset.card_insert_of_not_mem (by simp)]
  · rw [if_neg h, if_neg h]; rfl

theorem countHoles_scan (b : Mat) (x : Nat) (holes : Int) (n : Nat) :
    (List.range n).foldl (fun (st : Bool × Int) y =>
      if cellAt b y x ≠ 0 then (true, st.2)
      else if st.1 ∧ ¬ (cellAt b y x ≠ 0) then (st.1, st.2 + 1)
      else st) (false, holes)
    = (decide (∃ y', y' < n ∧ cellAt b y' x ≠ 0), holes + (columnHoles b x n : Int)) := by
  induction n with
  | zero => simp [columnHoles]
  | succ n ih =>
    rw [List.range_succ, List.foldl_append, ih, columnHoles_succ]
    simp only [List.foldl_cons, List.foldl_nil]
    by_cases hc : cellAt b n x ≠ 0
    · have h1 : ∃ y', y' < n + 1 ∧ cellAt b y' x ≠ 0 := ⟨n, by omega, hc⟩
      have h2 : ¬ IsHole b n x := fun h => hc h.1
      rw [if_pos hc, if_neg h2]
      simp [h1]
    · have hz : cellAt b n x = 0 := by simpa using hc
      by_cases hf : ∃ y', y' < n ∧ cellAt b y' x ≠ 0
      · have h1 : ∃ y', y' < n + 1 ∧ cellAt b y' x ≠ 0 := by
          obtain ⟨y', hy, h⟩ := hf; exact ⟨y', by omega, h⟩
        have h2 : IsHole b n x := ⟨hz, hf⟩
        rw [if_neg hc, if_pos h2]
        simp [hf, h1, hc]
        ring
      · have h1 : ¬ ∃ y', y' < n + 1 ∧ cellAt b y' x ≠ 0 := by
          rintro ⟨y', hy, h⟩
          rcases Nat.lt_succ_iff_lt_or_eq.1 hy with h3 | h3
          · exact hf ⟨y', h3, h⟩
          · subst h3; exact hc h
        have h2 : ¬ IsHole b n x := fun h => hf h.2
        rw [if_neg hc, if_neg h2]
        simp [hf, h1]

theorem countHolesColumn_eq (b : Mat) (x : Nat) (holes : Int) :
    countHolesColumn b x holes = holes + (columnHoles b x 20 : Int) := by
  unfold countHolesColumn
  rw [countHoles_scan]

theorem countHoles_fold (b : Mat) (n : Nat) :
    (List.range n).foldl (fun holes x => countHolesColumn b x holes) 0
      = ((∑ x in Finset.range n, columnHoles b x 20 : Nat) : Int) := by
  induction n with
  | zero => simp
  | succ n ih =>
    rw [List.range_succ, List.foldl_append, ih, Finset.sum_range_succ]
    simp [countHolesColumn_eq]

theorem specHoleCount_eq_sum (b : Mat) :
    specHoleCount b = ∑ x in Finset.range 10, columnHoles b x 20 := by
  unfold specHoleCount columnHoles
  rw [Finset.card_filter, Finset.sum_product_right]
  apply Finset.sum_congr rfl
  intro x _
  rw [Finset.card_filter]

/-- The count of `countHoles` is the number of holes of the board. -/
theorem countHoles_eq_card (b : Mat) : countHoles b = (specHoleCount b : Int) := by
  unfold countHoles
  rw [countHoles_fold, specHoleCount_eq_sum]

/-! ## Rounding to `float` -/

theorem roundHalfEven_sub_le (t : ℚ) : |(roundHalfEven t : ℚ) - t| ≤ 1 / 2 := by
  have h0 := Int.floor_le t
  have h1 := Int.lt_floor_add_one t
  unfold roundHalfEven
  rw [abs_le]
  split_ifs <;> push_cast <;> constructor <;> linarith

theorem roundHalfEven_intCast (n : Int) : roundHalfEven (n : ℚ) = n := by
  simp [roundHalfEven]

theorem floor_le_roundHalfEven (t : ℚ) :
    ⌊t⌋ ≤ roundHalfEven t ∧ roundHalfEven t ≤ ⌊t⌋ + 1 := by
  unfold roundHalfEven
  split_ifs <;> constructor <;> omega

theorem roundHalfEven_mono {s t : ℚ} (h : s ≤ t) : roundHalfEven s ≤ roundHalfEven t := by
  have hfl : ⌊s⌋ ≤ ⌊t⌋ := Int.floor_mono h
  rcases lt_or_eq_of_le hfl with hlt | heq
  · have h1 := (floor_le_roundHalfEven s).2
    have h2 := (floor_le_roundHalfEven t).1
    omega
  · unfold roundHalfEven
    rw [heq]
    have hs : s - ⌊t⌋ ≤ t - ⌊t⌋ := by linarith
    split_ifs <;> first | omega | (exfalso; linarith)

theorem two_zpow_pos (e : Int) : (0 : ℚ) < 2 ^ e := zpow_pos (by norm_num) e

theorem binadeExp_spec (x : ℚ) :
    -126 ≤ binadeExp x ∧ |x| < 2 ^ (binadeExp x + 1) ∧
      (binadeExp x = -126 ∨ (2 : ℚ) ^ binadeExp x ≤ |x|) := by
  unfold binadeExp
  split_ifs with h
  · refine ⟨le_refl _, ?_, Or.inl rfl⟩
    refine lt_trans h ?_
    exact zpow_lt_zpow_right₀ (by norm_num) (by norm_num)
  · have hx : (2 : ℚ) ^ (-126 : Int) ≤ |x| := not_lt.1 h
    have hpos : 0 < |x| := lt_of_lt_of_le (two_zpow_pos _) hx
    have h1 := @Int.zpow_log_le_self ℚ _ _ 2 |x| (by norm_num) hpos
    have h2 := @Int.lt_zpow_succ_log_self ℚ _ _ 2 (by norm_num) |x|
    have h3 := (@Int.zpow_le_iff_le_log ℚ _ _ 2 (by norm_num) (-126) |x| hpos).1
      (by simpa using hx)
    simp only [Nat.cast_ofNat] at h1 h2
    exact ⟨h3, h2, Or.inr h1⟩

theorem binadeExp_unique {x : ℚ} {e : Int} (he : -126 ≤ e) (hhi : |x| < 2 ^ (e + 1))
    (hlo : e = -126 ∨ (2 : ℚ) ^ e ≤ |x|) : binadeExp x = e := by
  obtain ⟨h1, h2, h3⟩ := binadeExp_spec x
  have key : ∀ a b : Int, (2 : ℚ) ^ a ≤ |x| → |x| < 2 ^ (b + 1) → a ≤ b := by
    intro a b ha hb
    have := lt_of_le_of_lt ha hb
    have := (zpow_lt_zpow_iff_right₀ (show (1 : ℚ) < 2 by norm_num)).1 this
    omega
  rcases h3 with h3 | h3 <;> rcases hlo with hlo | hlo
  · omega
  · have := key e _ hlo h2; omega
  · have := key _ e h3 hhi; omega
  · have := key e _ hlo h2
    have := key _ e h3 hhi
    omega

/-- The rounding error is at most half a unit in the last place. -/
theorem roundFloat_sub_le (x : ℚ) : |roundFloat x - x| ≤ 2 ^ (binadeExp x - 24) := by
  have hu := two_zpow_pos (binadeExp x - 23)
  have h := roundHalfEven_sub_le (x / 2 ^ (binadeExp x - 23))
  have e1 : roundFloat x - x
      = ((roundHalfEven (x / 2 ^ (binadeExp x - 23)) : ℚ) - x / 2 ^ (binadeExp x - 23))
        * 2 ^ (binadeExp x - 23) := by
    unfold roundFloat; field_simp
  have e2 : (2 : ℚ) ^ (binadeExp x - 24) = 1 / 2 * 2 ^ (binadeExp x - 23) := by
    rw [show binadeExp x - 23 = (binadeExp x - 24) + 1 by ring, zpow_add_one₀ (by norm_num)]
    ring
  rw [e1, abs_mul, abs_of_pos hu, e2]
  exact mul_le_mul_of_nonneg_right h hu.le

theorem roundFloat_sub_le_rel (x : ℚ) :
    |roundFloat x - x| ≤ |x| / 2 ^ 24 + 1 / 2 ^ 150 := by
  have h := roundFloat_sub_le x
  obtain ⟨h1, h2, h3⟩ := binadeExp_spec x
  rcases h3 with h3 | h3
  · rw [h3] at h
    have : (2 : ℚ) ^ (-126 - 24 : Int) = 1 / 2 ^ 150 := by norm_num [zpow_neg]
    rw [this] at h
    have : 0 ≤ |x| / 2 ^ 24 := by positivity
    linarith
  · have : (2 : ℚ) ^ (binadeExp x - 24) = 2 ^ binadeExp x / 2 ^ 24 := by
      rw [zpow_sub₀ (by norm_num)]; norm_num
    rw [this] at h
    have : (2 : ℚ) ^ binadeExp x / 2 ^ 24 ≤ |x| / 2 ^ 24 :=
      div_le_div_of_nonneg_right h3 (by positivity)
    have : (0 : ℚ) ≤ 1 / 2 ^ 150 := by positivity
    linarith

theorem abs_roundFloat_le (x : ℚ) :
    |roundFloat x| ≤ |x| * (1 + 1 / 2 ^ 24) + 1 / 2 ^ 150 := by
  have h := roundFloat_sub_le_rel x
  have := abs_sub_abs_le_abs_sub (roundFloat x) x
  have e : |x| * (1 + 1 / 2 ^ 24) = |x| + |x| / 2 ^ 24 := by ring
  linarith


theorem binadeExp_mono_abs {x y : ℚ} (h : |x| ≤ |y|) : binadeExp x ≤ binadeExp y := by
  obtain ⟨x1, x2, x3⟩ := binadeExp_spec x
  obtain ⟨y1, y2, y3⟩ := binadeExp_spec y
  rcases x3 with x3 | x3
  · omega
  · have := lt_of_le_of_lt (le_trans x3 h) y2
    have := (zpow_lt_zpow_iff_right₀ (show (1 : ℚ) < 2 by norm_num)).1 this
    omega

/-- A multiple of the unit in the last place below `x` stays below the rounded value. -/
theorem le_roundFloat {x : ℚ} {n : Int} (h : (n : ℚ) * 2 ^ (binadeExp x - 23) ≤ x) :
    (n : ℚ) * 2 ^ (binadeExp x - 23) ≤ roundFloat x := by
  have hu := two_zpow_pos (binadeExp x - 23)
  have h1 : (n : ℚ) ≤ x / 2 ^ (binadeExp x - 23) := (le_div_iff₀ hu).2 h
  have h2 := roundHalfEven_mono h1
  rw [roundHalfEven_intCast] at h2
  unfold roundFloat
  exact mul_le_mul_of_nonneg_right (by exact_mod_cast h2) hu.le

theorem roundFloat_le {x : ℚ} {n : Int} (h : x ≤ (n : ℚ) * 2 ^ (binadeExp x - 23)) :
    roundFloat x ≤ (n : ℚ) * 2 ^ (binadeExp x - 23) := by
  have hu := two_zpow_pos (binadeExp x - 23)
  have h1 : x / 2 ^ (binadeExp x - 23) ≤ (n : ℚ) := (div_le_iff₀ hu).2 h
  have h2 := roundHalfEven_mono h1
  rw [roundHalfEven_intCast] at h2
  unfold roundFloat
  exact mul_le_mul_of_nonneg_right (by exact_mod_cast h2) hu.le

theorem two_pow_mul_ulp (e : Int) :
    (((2 : Int) ^ 24 : Int) : ℚ) * 2 ^ (e - 23) = 2 ^ (e + 1) ∧
    (((2 : Int) ^ 23 : Int) : ℚ) * 2 ^ (e - 23) = 2 ^ e := by
  have h2 : (2 : ℚ) ≠ 0 := by norm_num
  constructor
  · rw [show e + 1 = 24 + (e - 23) by ring, zpow_add₀ h2]; norm_num
  · nth_rewrite 2 [show e = 23 + (e - 23) by ring]
    rw [zpow_add₀ h2]; norm_num

/-- Rounding to `float` is monotone. -/
theorem roundFloat_mono {x y : ℚ} (h : x ≤ y) : roundFloat x ≤ roundFloat y := by
  by_cases he : binadeExp x = binadeExp y
  · unfold roundFloat
    rw [he]
    have hu := two_zpow_pos (binadeExp y - 23)
    have : x / 2 ^ (binadeExp y - 23) ≤ y / 2 ^ (binadeExp y - 23) :=
      div_le_div_of_nonneg_right h hu.le
    exact mul_le_mul_of_nonneg_right (by exact_mod_cast roundHalfEven_mono this) hu.le
  · obtain ⟨x1, x2, x3⟩ := binadeExp_spec x
    obtain ⟨y1, y2, y3⟩ := binadeExp_spec y
    have px := two_pow_mul_ulp (binadeExp x)
    have py := two_pow_mul_ulp (binadeExp y)
    rcases le_or_lt 0 x with hx | hx
    · have hy : 0 ≤ y := le_trans hx h
      have hlt : binadeExp x < binadeExp y := by
        have := @binadeExp_mono_abs x y (by rw [abs_of_nonneg hx, abs_of_nonneg hy]; exact h)
        omega
      rw [abs_of_nonneg hx] at x2
      rw [abs_of_nonneg hy] at y3
      have a : roundFloat x ≤ 2 ^ (binadeExp x + 1) := by
        rw [← px.1]; apply roundFloat_le; rw [px.1]; exact x2.le
      have b : (2 : ℚ) ^ binadeExp y ≤ roundFloat y := by
        rw [← py.2]; apply le_roundFloat; rw [py.2]
        rcases y3 with y3 | y3
        · omega
        · exact y3
      have c : (2 : ℚ) ^ (binadeExp x + 1) ≤ 2 ^ binadeExp y :=
        zpow_le_zpow_right₀ (by norm_num) (by omega)
      linarith
    · rcases le_or_lt y 0 with hy | hy
      · have hlt : binadeExp y < binadeExp x := by
          have := @binadeExp_mono_abs y x
            (by rw [abs_of_nonpos hy, abs_of_neg hx]; linarith)
          omega
        rw [abs_of_neg hx] at x3
        rw [abs_of_nonpos hy] at y2
        have a : roundFloat x ≤ -(2 : ℚ) ^ binadeExp x := by
          have e : ((-(2 : Int) ^ 23 : Int) : ℚ) * 2 ^ (binadeExp x - 23)
              = -(2 : ℚ) ^ binadeExp x := by
            have := px.2; push_cast at this ⊢; linarith
          rw [← e]; apply roundFloat_le; rw [e]
          rcases x3 with x3 | x3
          · omega
          · linarith
        have b : -(2 : ℚ) ^ (binadeExp y + 1) ≤ roundFloat y := by
          have e : ((-(2 : Int) ^ 24 : Int) : ℚ) * 2 ^ (binadeExp y - 23)
              = -(2 : ℚ) ^ (binadeExp y + 1) := by
            have := py.1; push_cast at this ⊢; linarith
          rw [← e]; apply le_roundFloat; rw [e]; linarith
        have c : (2 : ℚ) ^ (binadeExp y + 1) ≤ 2 ^ binadeExp x :=
          zpow_le_zpow_right₀ (by norm_num) (by omega)
        linarith
      · have a : roundFloat x ≤ ((0 : Int) : ℚ) * 2 ^ (binadeExp x - 23) :=
          roundFloat_le (by simp; exact hx.le)
        have b : ((0 : Int) : ℚ) * 2 ^ (binadeExp y - 23) ≤ roundFloat y :=
          le_roundFloat (by simp; exact hy.le)
        simp at a b
        linarith

theorem roundHalfEven_of_near {t : ℚ} {k : Int} (h : |t - k| < 1 / 2) : roundHalfEven t = k := by
  have h1 := roundHalfEven_sub_le t
  rw [abs_lt] at h
  rw [abs_le] at h1
  have a : ((roundHalfEven t - k : Int) : ℚ) < 1 := by push_cast; linarith
  have b : (-1 : ℚ) < ((roundHalfEven t - k : Int) : ℚ) := by push_cast; linarith
  have a' : roundHalfEven t - k < 1 := by exact_mod_cast a
  have b' : -1 < roundHalfEven t - k := by exact_mod_cast b
  omega

/-- Value of the rounding when the binade and the nearest multiple are known. -/
theorem roundFloat_of_near {x : ℚ} {e k : Int} (he : -126 ≤ e) (hhi : |x| < 2 ^ (e + 1))
    (hlo : e = -126 ∨ (2 : ℚ) ^ e ≤ |x|) (hk : |x / 2 ^ (e - 23) - k| < 1 / 2) :
    roundFloat x = k * 2 ^ (e - 23) := by
  unfold roundFloat
  rw [binadeExp_unique he hhi hlo, roundHalfEven_of_near hk]

/-- Integers of magnitude up to `2^24` are `float` values. -/
theorem roundFloat_intCast {n : Int} (h : |n| ≤ 2 ^ 24) : roundFloat (n : ℚ) = n := by
  obtain ⟨h1, h2, h3⟩ := binadeExp_spec (n : ℚ)
  have hu := two_zpow_pos (binadeExp (n : ℚ) - 23)
  have habs : |(n : ℚ)| ≤ 2 ^ 24 := by exact_mod_cast h
  have e24 : (2 : ℚ) ^ (24 : Int) = 2 ^ (24 : Nat) := by norm_num
  have hle : binadeExp (n : ℚ) ≤ 24 := by
    rcases h3 with h3 | h3
    · omega
    · have := le_trans h3 habs
      rw [← e24] at this
      exact (zpow_le_zpow_iff_right₀ (show (1 : ℚ) < 2 by norm_num)).1 this
  rcases lt_or_eq_of_le hle with hlt | heq
  · obtain ⟨m, hm⟩ : ∃ m : Nat, binadeExp (n : ℚ) - 23 = -(m : Int) :=
      ⟨(23 - binadeExp (n : ℚ)).toNat, by omega⟩
    have e1 : (n : ℚ) / 2 ^ (binadeExp (n : ℚ) - 23) = ((n * 2 ^ m : Int) : ℚ) := by
      rw [hm, zpow_neg, zpow_natCast]; push_cast; field_simp
    unfold roundFloat
    rw [e1, roundHalfEven_intCast, hm, zpow_neg, zpow_natCast]
    push_cast; field_simp
  · rcases h3 with h3 | h3
    · omega
    · rw [heq] at h3
      have h4 : |(n : ℚ)| = 2 ^ 24 := le_antisymm habs (by rw [← e24]; exact h3)
      unfold roundFloat
      rw [heq]
      rcases abs_eq (by positivity : (0 : ℚ) ≤ 2 ^ 24) |>.1 h4 with h5 | h5
      · rw [h5]
        have : ((2 : ℚ) ^ 24) / 2 ^ ((24 : Int) - 23) = ((8388608 : Int) : ℚ) := by norm_num
        rw [this, roundHalfEven_intCast]; norm_num
      · rw [h5]
        have : (-(2 : ℚ) ^ 24) / 2 ^ ((24 : Int) - 23) = ((-8388608 : Int) : ℚ) := by norm_num
        rw [this, roundHalfEven_intCast]; norm_num

theorem F32.ofRat_of_abs_le {x : ℚ} (h : |roundFloat x| ≤ FLT_MAX) :
    F32.ofRat x = .fin (roundFloat x) := by
  rw [abs_le] at h
  unfold F32.ofRat
  rw [if_neg (not_lt.2 h.2), if_neg (not_lt.2 h.1)]

theorem F32.ofInt_small {n : Int} (h : |n| ≤ 2 ^ 24) : F32.ofInt n = .fin n := by
  unfold F32.ofInt
  have e := roundFloat_intCast h
  rw [F32.ofRat_of_abs_le, e]
  rw [e]
  have : |(n : ℚ)| ≤ 2 ^ 24 := by exact_mod_cast h
  refine le_trans this ?_
  unfold FLT_MAX; norm_num

/-- One `score += m * W`: both roundings stay finite and bounded. -/
theorem roundFloat_mul_bound {m : Int} {v : ℚ} (h0 : 0 ≤ m) (h199 : m ≤ 199) :
    |roundFloat ((m : ℚ) * v)| ≤ 199 * |v| * (1 + 1 / 2 ^ 24) + 1 / 2 ^ 150 := by
  have h := abs_roundFloat_le ((m : ℚ) * v)
  have h1 : |(m : ℚ) * v| ≤ 199 * |v| := by
    rw [abs_mul]
    have : |(m : ℚ)| ≤ 199 := by
      rw [abs_le]; constructor
      · have : (0 : ℚ) ≤ m := by exact_mod_cast h0
        linarith
      · exact_mod_cast h199
    exact mul_le_mul_of_nonneg_right this (abs_nonneg _)
  have : |(m : ℚ) * v| * (1 + 1 / 2 ^ 24) ≤ 199 * |v| * (1 + 1 / 2 ^ 24) :=
    mul_le_mul_of_nonneg_right h1 (by norm_num)
  linarith

theorem roundFloat_add_bound {s p S P : ℚ} (hs : |s| ≤ S) (hp : |p| ≤ P) :
    |roundFloat (s + p)| ≤ (S + P) * (1 + 1 / 2 ^ 24) + 1 / 2 ^ 150 := by
  have h := abs_roundFloat_le (s + p)
  have h1 : |s + p| ≤ S + P := le_trans (abs_add s p) (add_le_add hs hp)
  have : |s + p| * (1 + 1 / 2 ^ 24) ≤ (S + P) * (1 + 1 / 2 ^ 24) :=
    mul_le_mul_of_nonneg_right h1 (by norm_num)
  linarith

/-! ## Bounds on the metrics -/

theorem columnHeightLoop_bounds (b : Mat) (x n : Nat) :
    0 ≤ columnHeightLoop b x n ∧ columnHeightLoop b x n ≤ n := by
  induction n with
  | zero => simp [columnHeightLoop]
  | succ n ih =>
    rw [columnHeightLoop]
    split
    · constructor <;> push_cast <;> omega
    · constructor
      · exact ih.1
      · push_cast; omega

theorem columnHeight_bounds (b : Mat) (x : Nat) :
    0 ≤ columnHeight b x ∧ columnHeight b x ≤ 20 := by
  have := columnHeightLoop_bounds b x 20
  unfold columnHeight
  constructor
  · exact this.1
  · exact_mod_cast this.2

theorem aggregateHeight_fold_bounds (b : Mat) (xs : List Nat) (t : Int) :
    t ≤ xs.foldl (fun totalHeight x => totalHeight + columnHeight b x) t ∧
    xs.foldl (fun totalHeight x => totalHeight + columnHeight b x) t ≤ t + 20 * xs.length := by
  induction xs generalizing t with
  | nil => simp
  | cons a xs ih =>
    have h := columnHeight_bounds b a
    have := ih (t + columnHeight b a)
    rw [List.foldl_cons, List.length_cons]
    constructor
    · omega
    · push_cast; omega

theorem calculateAggregateHeight_bounds (b : Mat) :
    0 ≤ calculateAggregateHeight b ∧ calculateAggregateHeight b ≤ 200 := by
  have := aggregateHeight_fold_bounds b (List.range 10) 0
  simp only [List.length_range] at this
  unfold calculateAggregateHeight
  constructor
  · exact this.1
  · have h2 := this.2; norm_num at h2; exact h2

theorem bumpiness_fold_bounds (b : Mat) (xs : List Nat) (st : Int × Int)
    (h0 : 0 ≤ st.2) (h20 : st.2 ≤ 20) :
    st.1 ≤ (xs.foldl (fun (st : Int × Int) x =>
        let h := columnHeight b x
        (if x > 0 then st.1 + |h - st.2| else st.1, h)) st).1 ∧
    (xs.foldl (fun (st : Int × Int) x =>
        let h := columnHeight b x
        (if x > 0 then st.1 + |h - st.2| else st.1, h)) st).1 ≤ st.1 + 20 * xs.length := by
  induction xs generalizing st with
  | nil => simp
  | cons a xs ih =>
    have h := columnHeight_bounds b a
    have habs : 0 ≤ |columnHeight b a - st.2| ∧ |columnHeight b a - st.2| ≤ 20 := by
      constructor
      · exact abs_nonneg _
      · rw [abs_le]; constructor <;> omega
    rw [List.foldl_cons, List.length_cons]
    by_cases ha : a > 0
    · have := ih (st.1 + |columnHeight b a - st.2|, columnHeight b a) h.1 h.2
      simp only [ha, if_true] at this ⊢
      constructor
      · omega
      · push_cast; omega
    · have := ih (st.1, columnHeight b a) h.1 h.2
      simp only [ha, if_false] at this ⊢
      constructor
      · omega
      · push_cast; omega

theorem calculateBumpiness_bounds (b : Mat) :
    0 ≤ calculateBumpiness b ∧ calculateBumpiness b ≤ 200 := by
  have := bumpiness_fold_bounds b (List.range 10) (0, 0) (le_refl _) (by norm_num)
  simp only [List.length_range] at this
  unfold calculateBumpiness
  constructor
  · exact this.1
  · have h2 := this.2; norm_num at h2; exact h2

theorem countHoles_bounds (b : Mat) : 0 ≤ countHoles b ∧ countHoles b ≤ 200 := by
  rw [countHoles_eq_card]
  constructor
  · exact Int.natCast_nonneg _
  · have : specHoleCount b ≤ 200 := by
      unfold specHoleCount
      refine le_trans (Finset.card_filter_le _ _) ?_
      simp
    exact_mod_cast this

theorem columnHeight_le_of_empty_bottom {b : Mat} {x : Nat} (h : cellAt b 19 x = 0) :
    columnHeight b x ≤ 19 := by
  unfold columnHeight
  rw [columnHeightLoop, if_neg (by simp [h])]
  have := (columnHeightLoop_bounds b x 19).2
  exact_mod_cast this

theorem aggregateHeight_fold_le (b : Mat) (g : Nat → Int) (hg : ∀ x, columnHeight b x ≤ g x)
    (xs : List Nat) (t : Int) :
    xs.foldl (fun totalHeight x => totalHeight + columnHeight b x) t ≤ t + (xs.map g).sum := by
  induction xs generalizing t with
  | nil => simp
  | cons a xs ih =>
    have := ih (t + columnHeight b a)
    have := hg a
    rw [List.foldl_cons, List.map_cons, List.sum_cons]
    omega

/-- A board whose bottom row has an empty cell has aggregate height at most 199. -/
theorem calculateAggregateHeight_le_of_gap {b : Mat} (h : ∃ x, x < 10 ∧ cellAt b 19 x = 0) :
    calculateAggregateHeight b ≤ 199 := by
  obtain ⟨x0, hx0, hcell⟩ := h
  have key : ∀ x0 < 10, ((List.range 10).map fun x => if x = x0 then (19 : Int) else 20).sum
      = 199 := by decide
  have := aggregateHeight_fold_le b (fun x => if x = x0 then 19 else 20) (by
    intro x
    by_cases hx : x = x0
    · subst hx; simp only [if_true]; exact columnHeight_le_of_empty_bottom hcell
    · simp only [hx, if_false]; exact (columnHeight_bounds b x).2) (List.range 10) 0
  rw [key x0 hx0] at this
  unfold calculateAggregateHeight
  omega

theorem countHoles_le (b : Mat) : countHoles b ≤ 190 := by
  rw [countHoles_eq_card]
  have : specHoleCount b ≤ 190 := by
    unfold specHoleCount
    have hsub : ((Finset.range 20 ×ˢ Finset.range 10).filter fun p => IsHole b p.1 p.2)
        ⊆ Finset.Ico 1 20 ×ˢ Finset.range 10 := by
      intro p hp
      simp only [Finset.mem_filter, Finset.mem_product, Finset.mem_range] at hp
      obtain ⟨⟨h1, h2⟩, _, y', hy', _⟩ := hp
      simp only [Finset.mem_product, Finset.mem_Ico, Finset.mem_range]
      omega
    refine le_trans (Finset.card_le_card hsub) ?_
    simp
  exact_mod_cast this

theorem calculateBumpiness_le (b : Mat) : calculateBumpiness b ≤ 180 := by
  have hr : List.range 10 = 0 :: [1, 2, 3, 4, 5, 6, 7, 8, 9] := by decide
  have h0 := columnHeight_bounds b 0
  have := bumpiness_fold_bounds b [1, 2, 3, 4, 5, 6, 7, 8, 9] (0, columnHeight b 0) h0.1 h0.2
  unfold calculateBumpiness
  rw [hr, List.foldl_cons]
  simp only [gt_iff_lt, lt_self_iff_false, if_false] at this ⊢
  have h2 := this.2
  simp only [List.length_cons, List.length_nil] at h2
  norm_num at h2 ⊢
  exact h2

theorem countP_rowFull_cleared (b : Mat) :
    (List.replicate (b.countP rowFull) zeroRow ++ b.filter (fun r => !rowFull r)).countP rowFull
      = 0 := by
  rw [List.countP_eq_zero]
  intro r hr
  rcases List.mem_append.1 hr with h | h
  · rw [(List.mem_replicate.1 h).2, rowFull_zeroRow]; simp
  · have := (List.mem_filter.1 h).2
    simpa using this

/-- The board left by `clearLines` has an empty cell in its bottom row. -/
theorem cleared_bottom_gap {b : Mat} (hb : IsBoard b) :
    ∃ x, x < 10 ∧ cellAt (List.replicate (b.countP rowFull) zeroRow
      ++ b.filter (fun r => !rowFull r)) 19 x = 0 := by
  have hnb := isBoard_cleared hb
  have hzero := countP_rowFull_cleared b
  generalize List.replicate (b.countP rowFull) zeroRow ++ b.filter (fun r => !rowFull r) = nb
    at hnb hzero
  have hmem : nb.getD 19 [] ∈ nb := by
    rw [List.getD_eq_getElem _ _ (by rw [hnb.1]; norm_num)]
    exact List.getElem_mem _
  have hnf := (List.countP_eq_zero.1 hzero) _ hmem
  unfold rowFull at hnf
  simp only [List.all_eq_true, decide_eq_true_eq, not_forall, List.mem_range] at hnf
  obtain ⟨x, hx, hc⟩ := hnf
  refine ⟨x, hx, ?_⟩
  unfold cellAt
  simpa using hc


theorem roundedScore_bounds {w : Weights} (hw : WeightsInRange w) {n h o b : Int}
    (hn : 0 ≤ n ∧ n ≤ 199) (hh : 0 ≤ h ∧ h ≤ 199) (ho : 0 ≤ o ∧ o ≤ 199)
    (hb : 0 ≤ b ∧ b ≤ 199) :
    |roundFloat (n * w.lines)| < FLT_MAX ∧ |roundFloat (h * w.height)| < FLT_MAX ∧
    |roundFloat (o * w.holes)| < FLT_MAX ∧ |roundFloat (b * w.bumpiness)| < FLT_MAX ∧
    |roundFloat (0 + roundFloat (n * w.lines))| < FLT_MAX ∧
    |roundFloat (roundFloat (0 + roundFloat (n * w.lines)) + roundFloat (h * w.height))|
      < FLT_MAX ∧
    |roundFloat (roundFloat (roundFloat (0 + roundFloat (n * w.lines))
      + roundFloat (h * w.height)) + roundFloat (o * w.holes))| < FLT_MAX ∧
    |roundedScore w n h o b| < FLT_MAX := by
  have p1 := @roundFloat_mul_bound n w.lines hn.1 hn.2
  have p2 := @roundFloat_mul_bound h w.height hh.1 hh.2
  have p3 := @roundFloat_mul_bound o w.holes ho.1 ho.2
  have p4 := @roundFloat_mul_bound b w.bumpiness hb.1 hb.2
  have s1 := roundFloat_add_bound (le_of_eq (abs_zero : |(0 : ℚ)| = 0)) p1
  have s2 := roundFloat_add_bound s1 p2
  have s3 := roundFloat_add_bound s2 p3
  have s4 := roundFloat_add_bound s3 p4
  have a1 := abs_nonneg w.lines
  have a2 := abs_nonneg w.height
  have a3 := abs_nonneg w.holes
  have a4 := abs_nonneg w.bumpiness
  unfold roundedScore
  unfold WeightsInRange at hw
  unfold FLT_MAX at hw ⊢
  refine ⟨?_, ?_, ?_, ?_, ?_, ?_, ?_, ?_⟩ <;> linarith

theorem F32.ofInt_of_le {m : Int} (h : 0 ≤ m ∧ m ≤ 199) : F32.ofInt m = .fin m := by
  apply F32.ofInt_small
  rw [abs_le]; constructor <;> omega

/-- With weights in range, the score of a board with an empty cell in the bottom row is
the finite value `roundedScore`, strictly inside the `float` range. -/
theorem evaluatePosition_finite {w : Weights} (hw : WeightsInRange w) {b : Mat}
    (hgap : ∃ x, x < 10 ∧ cellAt b 19 x = 0) {n : Int} (hn0 : 0 ≤ n) (hn : n ≤ 20) :
    evaluatePosition w b n
      = F32.fin (roundedScore w n (calculateAggregateHeight b) (countHoles b)
          (calculateBumpiness b)) ∧
    |roundedScore w n (calculateAggregateHeight b) (countHoles b) (calculateBumpiness b)|
      < FLT_MAX := by
  have hN : 0 ≤ n ∧ n ≤ 199 := ⟨hn0, by omega⟩
  have hH : 0 ≤ calculateAggregateHeight b ∧ calculateAggregateHeight b ≤ 199 :=
    ⟨(calculateAggregateHeight_bounds b).1, calculateAggregateHeight_le_of_gap hgap⟩
  have hO : 0 ≤ countHoles b ∧ countHoles b ≤ 199 :=
    ⟨(countHoles_bounds b).1, by have := countHoles_le b; omega⟩
  have hB : 0 ≤ calculateBumpiness b ∧ calculateBumpiness b ≤ 199 :=
    ⟨(calculateBumpiness_bounds b).1, by have := calculateBumpiness_le b; omega⟩
  obtain ⟨b1, b2, b3, b4, b5, b6, b7, b8⟩ := roundedScore_bounds hw hN hH hO hB
  refine ⟨?_, b8⟩
  have m1 : (F32.ofInt n).mul (F32.fin w.lines) = F32.fin (roundFloat (n * w.lines)) := by
    rw [F32.ofInt_of_le hN]; exact F32.ofRat_of_abs_le b1.le
  have m2 : (F32.ofInt (calculateAggregateHeight b)).mul (F32.fin w.height)
      = F32.fin (roundFloat (calculateAggregateHeight b * w.height)) := by
    rw [F32.ofInt_of_le hH]; exact F32.ofRat_of_abs_le b2.le
  have m3 : (F32.ofInt (countHoles b)).mul (F32.fin w.holes)
      = F32.fin (roundFloat (countHoles b * w.holes)) := by
    rw [F32.ofInt_of_le hO]; exact F32.ofRat_of_abs_le b3.le
  have m4 : (F32.ofInt (calculateBumpiness b)).mul (F32.fin w.bumpiness)
      = F32.fin (roundFloat (calculateBumpiness b * w.bumpiness)) := by
    rw [F32.ofInt_of_le hB]; exact F32.ofRat_of_abs_le b4.le
  unfold evaluatePosition
  simp only []
  rw [m1, m2, m3, m4]
  have a1 : (F32.fin 0).add (F32.fin (roundFloat (n * w.lines)))
      = F32.fin (roundFloat (0 + roundFloat (n * w.lines))) := F32.ofRat_of_abs_le b5.le
  rw [a1]
  have a2 : (F32.fin (roundFloat (0 + roundFloat (n * w.lines)))).add
      (F32.fin (roundFloat (calculateAggregateHeight b * w.height)))
      = F32.fin (roundFloat (roundFloat (0 + roundFloat (n * w.lines))
          + roundFloat (calculateAggregateHeight b * w.height))) := F32.ofRat_of_abs_le b6.le
  rw [a2]
  have a3 : (F32.fin (roundFloat (roundFloat (0 + roundFloat (n * w.lines))
          + roundFloat (calculateAggregateHeight b * w.height)))).add
      (F32.fin (roundFloat (countHoles b * w.holes)))
      = F32.fin (roundFloat (roundFloat (roundFloat (0 + roundFloat (n * w.lines))
          + roundFloat (calculateAggregateHeight b * w.height))
          + roundFloat (countHoles b * w.holes))) := F32.ofRat_of_abs_le b7.le
  rw [a3]
  exact F32.ofRat_of_abs_le b8.le

theorem F32.fin_lt_fin {a b : ℚ} : F32.fin a < F32.fin b ↔ a < b := by
  show F32.lt (.fin a) (.fin b) = true ↔ a < b
  simp [F32.lt]

theorem F32.fin_le_fin {a b : ℚ} : F32.fin a ≤ F32.fin b ↔ a ≤ b := by
  show F32.le (.fin a) (.fin b) = true ↔ a ≤ b
  simp [F32.le]

/-! ## Dropping and placing -/

theorem canPlace_eq_true_iff (board piece : Mat) (col row : Int) :
    canPlace board piece col row = true ↔
      ∀ y x : Nat, y < matRows piece → x < matCols piece → cellAt piece y x ≠ 0 →
        0 ≤ col + x ∧ col + x < 10 ∧ row + y < 20 ∧
          (0 ≤ row + y → cellAt board (row + y).toNat (col + x).toNat = 0) := by
  unfold canPlace
  simp only [List.all_eq_true, List.mem_range]
  constructor
  · intro h y x hy hx hp
    have := h y hy x hx
    rw [if_pos hp] at this
    by_cases h1 : col + x < 0 ∨ col + x ≥ 10 ∨ row + y ≥ 20
    · rw [if_pos h1] at this; exact absurd this (by simp)
    · rw [if_neg h1] at this
      refine ⟨by omega, by omega, by omega, ?_⟩
      intro h0
      by_contra hc
      rw [if_pos ⟨h0, hc⟩] at this
      exact absurd this (by simp)
  · intro h y hy x hx
    by_cases hp : cellAt piece y x ≠ 0
    · obtain ⟨h1, h2, h3, h4⟩ := h y x hy hx hp
      rw [if_pos hp, if_neg (by omega), if_neg]
      rintro ⟨h5, h6⟩
      exact h6 (h4 h5)
    · rw [if_neg hp]

theorem dropPieceLoop_spec (board piece : Mat) (col : Int) (n : Nat) (row : Int) :
    (dropPieceLoop board piece col n row = -1 ∧
        ∀ i : Nat, i < n → canPlace board piece col (row + i + 1) = true) ∨
    (∃ i : Nat, i < n ∧ dropPieceLoop board piece col n row = row + i ∧
        canPlace board piece col (row + i + 1) = false ∧
        ∀ j : Nat, j < i → canPlace board piece col (row + j + 1) = true) := by
  induction n generalizing row with
  | zero => left; exact ⟨rfl, by intro i hi; omega⟩
  | succ n ih =>
    rw [dropPieceLoop]
    by_cases h : canPlace board piece col (row + 1) = true
    · have hn : ¬ ((!canPlace board piece col (row + 1)) = true) := by simp [h]
      rw [if_neg hn]
      rcases ih (row + 1) with ⟨h1, h2⟩ | ⟨i, hi, h1, h2, h3⟩
      · left
        refine ⟨h1, ?_⟩
        intro i hi
        cases i with
        | zero => simpa using h
        | succ k =>
          have := h2 k (by omega)
          rw [show row + ((k + 1 : Nat) : Int) + 1 = row + 1 + (k : Int) + 1 by push_cast; ring]
          exact this
      · right
        refine ⟨i + 1, by omega, ?_, ?_, ?_⟩
        · rw [h1]; push_cast; ring
        · rw [show row + ((i + 1 : Nat) : Int) + 1 = row + 1 + (i : Int) + 1 by push_cast; ring]
          exact h2
        · intro j hj
          cases j with
          | zero => simpa using h
          | succ k =>
            have := h3 k (by omega)
            rw [show row + ((k + 1 : Nat) : Int) + 1 = row + 1 + (k : Int) + 1 by push_cast; ring]
            exact this
    · have hf : canPlace board piece col (row + 1) = false := by simpa using h
      rw [if_pos (by simp [hf])]
      right
      exact ⟨0, by omega, by simp, by simpa using hf, by intro j hj; omega⟩

/-- A landing row `>= 0` is a row where the piece can be placed, and it cannot be placed
one row lower. -/
theorem dropPiece_nonneg_canPlace {board piece : Mat} {col : Int}
    (h : 0 ≤ dropPiece board piece col) :
    canPlace board piece col (dropPiece board piece col) = true ∧
    canPlace board piece col (dropPiece board piece col + 1) = false := by
  unfold dropPiece at h ⊢
  rcases dropPieceLoop_spec board piece col (20 + matRows piece) (-(matRows piece : Int)) with
    ⟨h1, _⟩ | ⟨i, hi, h1, h2, h3⟩
  · rw [h1] at h; omega
  · rw [h1] at h ⊢
    refine ⟨?_, h2⟩
    cases i with
    | zero =>
      have h0 : matRows piece = 0 := by push_cast at h; omega
      unfold canPlace
      rw [h0]; rfl
    | succ k =>
      have := h3 k (by omega)
      rw [show -(matRows piece : Int) + ((k + 1 : Nat) : Int) = -(matRows piece : Int) + k + 1 by
        push_cast; ring]
      exact this

theorem isBoard_placePiece {board : Mat} (hb : IsBoard board) (piece : Mat) (col row : Int) :
    IsBoard (placePiece board piece col row) := by
  unfold placePiece
  generalize List.range (matRows piece) = ys
  induction ys generalizing board with
  | nil => exact hb
  | cons y ys ih =>
    rw [List.foldl_cons]
    apply ih
    generalize List.range (matCols piece) = xs
    induction xs generalizing board with
    | nil => exact hb
    | cons x xs ihx =>
      rw [List.foldl_cons]
      apply ihx
      split
      · simp only
        split
        · exact isBoard_setCell hb _ _ _
        · exact hb
      · exact hb

/-! ## The search -/

theorem foldlM_eq_some_foldl {α β : Type} (g : β → α → Option β) (h : β → α → β)
    (hg : ∀ b a, g b a = some (h b a)) (xs : List α) (b : β) :
    xs.foldlM g b = some (xs.foldl h b) := by
  induction xs generalizing b with
  | nil => rfl
  | cons a xs ih => rw [List.foldlM_cons, hg, List.foldl_cons]; exact ih _

theorem simulatedScore_isSome {w : Weights} (hw : WeightsInRange w) {board : Mat}
    (hb : IsBoard board) (piece : Mat) (col : Int) :
    ∃ q, simulatedScore w board piece col = some (F32.fin q) ∧ -FLT_MAX < q ∧ q < FLT_MAX := by
  have hp := isBoard_placePiece hb piece col (dropPiece board piece col)
  have hcount : List.countP rowFull (placePiece board piece col (dropPiece board piece col))
      ≤ 20 := by
    rw [← hp.1]; exact List.countP_le_length _
  obtain ⟨h1, h2⟩ := @evaluatePosition_finite w hw _ (cleared_bottom_gap hp)
    ((List.countP rowFull (placePiece board piece col (dropPiece board piece col)) : Nat) : Int)
    (Int.natCast_nonneg _) (by exact_mod_cast hcount)
  rw [abs_lt] at h2
  refine ⟨_, ?_, h2.1, h2.2⟩
  unfold simulatedScore
  rw [clearLines_eq hp, Option.map_some', h1]

/-- With weights in range, every candidate score is a finite value above the sentinel. -/
theorem candidateScore_finite {w : Weights} (hw : WeightsInRange w) {board : Mat}
    (hb : IsBoard board) (curPiece : String) (rot col : Nat) (s : F32)
    (h : candidateScore w board curPiece rot col = some s) :
    ∃ q, s = F32.fin q ∧ -FLT_MAX < q := by
  unfold candidateScore at h
  split at h
  · exact absurd h (by simp)
  · obtain ⟨q, h1, h2, _⟩ := simulatedScore_isSome hw hb (pieceVariant curPiece rot) col
    rw [h1] at h
    cases h
    exact ⟨q, rfl, h2⟩

theorem candidateScore_gt_sentinel {w : Weights} (hw : WeightsInRange w) {board : Mat}
    (hb : IsBoard board) (curPiece : String) (rot col : Nat) (s : F32)
    (h : candidateScore w board curPiece rot col = some s) : F32.fin (-FLT_MAX) < s := by
  obtain ⟨q, rfl, hq⟩ := candidateScore_finite hw hb curPiece rot col s h
  exact F32.fin_lt_fin.2 hq

theorem candidateScore_isSome_iff {w : Weights} (hw : WeightsInRange w) {board : Mat}
    (hb : IsBoard board) (curPiece : String) (rot col : Nat) :
    (∃ s, candidateScore w board curPiece rot col = some s) ↔
      0 ≤ dropPiece board (pieceVariant curPiece rot) col := by
  unfold candidateScore
  constructor
  · rintro ⟨s, h⟩
    split at h
    · exact absurd h (by simp)
    · omega
  · intro h
    rw [if_neg (by omega)]
    obtain ⟨s, h1, _⟩ := simulatedScore_isSome hw hb (pieceVariant curPiece rot) col
    exact ⟨_, h1⟩

theorem evaluateCandidate_eq {w : Weights} {board : Mat} (hb : IsBoard board)
    (curPiece : String) (rot : Nat) (bestPred : Prediction) (col : Nat) :
    evaluateCandidate w board (pieceVariant curPiece rot) rot bestPred col
      = some (searchStep (candidateScore w board curPiece) rot bestPred col) := by
  have hp := isBoard_placePiece hb (pieceVariant curPiece rot) col
    (dropPiece board (pieceVariant curPiece rot) col)
  unfold evaluateCandidate searchStep candidateScore simulatedScore
  simp only
  by_cases h : dropPiece board (pieceVariant curPiece rot) col < 0
  · rw [if_pos h, if_pos h]
  · rw [if_neg h, if_neg h, clearLines_eq hp]
    simp only [Option.map_some']
    split <;> rfl

theorem evaluate_eq_foldl {w : Weights} {board : Mat} (hb : IsBoard board)
    (rotation0 column0 : Int) (curPiece : String) :
    evaluate w rotation0 column0 board curPiece
      = some ((List.range (getPieceShapes curPiece).length).foldl
          (fun best rot => (List.range 10).foldl
            (searchStep (candidateScore w board curPiece) rot) best)
          { rotation := rotation0, column := column0, score := F32.fin (-FLT_MAX),
            piece_type := curPiece }) := by
  unfold evaluate
  simp only
  apply foldlM_eq_some_foldl
  intro best rot
  unfold evaluateRotation
  apply foldlM_eq_some_foldl
  intro best' col
  exact evaluateCandidate_eq hb curPiece rot best' col

theorem searchInv_congr {f : Nat → Nat → Option F32} {p0 p : Prediction}
    {seen seen' : Nat → Nat → Prop} (h : ∀ r c, seen r c ↔ seen' r c)
    (hi : SearchInv f p0 p seen) : SearchInv f p0 p seen' := by
  have : seen = seen' := by funext r c; exact propext (h r c)
  rw [← this]; exact hi

theorem searchInv_finite {f : Nat → Nat → Option F32} {p0 p : Prediction}
    {seen : Nat → Nat → Prop} {q0 : ℚ} (hp0 : p0.score = F32.fin q0)
    (hf : ∀ r c s, f r c = some s → ∃ q, s = F32.fin q ∧ q0 < q)
    (hi : SearchInv f p0 p seen) : ∃ q, p.score = F32.fin q := by
  rcases hi.2.2 with ⟨h1, _⟩ | ⟨r, c, _, _, _, hfr, _⟩
  · exact ⟨q0, by rw [h1]; exact hp0⟩
  · obtain ⟨q, hq, _⟩ := hf r c _ hfr
    exact ⟨q, hq⟩

theorem searchInv_step {f : Nat → Nat → Option F32} {p0 p : Prediction}
    {seen : Nat → Nat → Prop} {q0 : ℚ} (hp0 : p0.score = F32.fin q0)
    (hf : ∀ r c s, f r c = some s → ∃ q, s = F32.fin q ∧ q0 < q)
    (hi : SearchInv f p0 p seen) (rot col : Nat)
    (hlt : ∀ r c, seen r c → r < rot ∨ (r = rot ∧ c < col)) :
    SearchInv f p0 (searchStep f rot p col) (fun r c => seen r c ∨ (r = rot ∧ c = col)) := by
  obtain ⟨qp, hqp⟩ := searchInv_finite hp0 hf hi
  obtain ⟨hpt, hmax, hbest⟩ := hi
  unfold searchStep
  cases hfc : f rot col with
  | none =>
    refine ⟨hpt, ?_, ?_⟩
    · intro r c s hs hfs
      rcases hs with hs | ⟨rfl, rfl⟩
      · exact hmax r c s hs hfs
      · rw [hfc] at hfs; exact absurd hfs (by simp)
    · rcases hbest with ⟨h1, h2⟩ | ⟨r, c, hs, hr, hc, hfr, hfirst⟩
      · left
        refine ⟨h1, ?_⟩
        intro r c hs
        rcases hs with hs | ⟨rfl, rfl⟩
        · exact h2 r c hs
        · exact hfc
      · right
        refine ⟨r, c, Or.inl hs, hr, hc, hfr, ?_⟩
        intro r' c' hs' hf'
        rcases hs' with hs' | ⟨rfl, rfl⟩
        · exact hfirst r' c' hs' hf'
        · rw [hfc] at hf'; exact absurd hf' (by simp)
  | some s =>
    obtain ⟨qs, rfl, hqs⟩ := hf rot col s hfc
    simp only
    by_cases hgt : F32.fin qs > p.score
    · rw [if_pos hgt]
      have hgt' : qp < qs := by rw [hqp] at hgt; exact F32.fin_lt_fin.1 hgt
      refine ⟨hpt, ?_, ?_⟩
      · intro r c s' hs hfs
        rcases hs with hs | ⟨rfl, rfl⟩
        · obtain ⟨q', rfl, _⟩ := hf r c s' hfs
          have := hmax r c _ hs hfs
          rw [hqp] at this
          have := F32.fin_le_fin.1 this
          exact F32.fin_le_fin.2 (by linarith)
        · rw [hfc] at hfs; cases hfs; exact F32.fin_le_fin.2 (le_refl _)
      · right
        refine ⟨rot, col, Or.inr ⟨rfl, rfl⟩, rfl, rfl, hfc, ?_⟩
        intro r' c' hs' hf'
        rcases hs' with hs' | ⟨rfl, rfl⟩
        · have := hmax r' c' _ hs' hf'
          rw [hqp] at this
          have := F32.fin_le_fin.1 this
          exact absurd this (not_le.2 hgt')
        · right; exact ⟨rfl, le_refl _⟩
    · rw [if_neg hgt]
      have hle : qs ≤ qp := by
        rw [hqp] at hgt
        exact not_lt.1 (fun h => hgt (F32.fin_lt_fin.2 h))
      refine ⟨hpt, ?_, ?_⟩
      · intro r c s' hs hfs
        rcases hs with hs | ⟨rfl, rfl⟩
        · exact hmax r c s' hs hfs
        · rw [hfc] at hfs; cases hfs; rw [hqp]; exact F32.fin_le_fin.2 hle
      · rcases hbest with ⟨h1, _⟩ | ⟨r, c, hs, hr, hc, hfr, hfirst⟩
        · exfalso
          have e : qp = q0 := by
            rw [h1, hp0] at hqp; exact (F32.fin.inj hqp).symm
          rw [e] at hle
          exact absurd hqs (not_lt.2 hle)
        · right
          refine ⟨r, c, Or.inl hs, hr, hc, hfr, ?_⟩
          intro r' c' hs' hf'
          rcases hs' with hs' | ⟨rfl, rfl⟩
          · exact hfirst r' c' hs' hf'
          · rcases hlt r c hs with h | ⟨h1, h2⟩
            · left; exact h
            · right; exact ⟨h1, le_of_lt h2⟩

theorem searchInv_columns {f : Nat → Nat → Option F32} {p0 p : Prediction} {q0 : ℚ}
    (hp0 : p0.score = F32.fin q0)
    (hf : ∀ r c s, f r c = some s → ∃ q, s = F32.fin q ∧ q0 < q) (rot : Nat)
    (hi : SearchInv f p0 p (SeenUpTo rot 0)) (n : Nat) (hn : n ≤ 10) :
    SearchInv f p0 ((List.range n).foldl (searchStep f rot) p) (SeenUpTo rot n) := by
  induction n with
  | zero => exact hi
  | succ n ih =>
    rw [List.range_succ, List.foldl_append, List.foldl_cons, List.foldl_nil]
    have := searchInv_step hp0 hf (ih (by omega)) rot n (fun r c h => h.2)
    refine searchInv_congr ?_ this
    intro r c
    unfold SeenUpTo
    constructor
    · rintro (⟨h1, h2⟩ | ⟨rfl, rfl⟩)
      · refine ⟨h1, ?_⟩
        rcases h2 with h | ⟨h, h'⟩
        · left; exact h
        · right; exact ⟨h, by omega⟩
      · exact ⟨by omega, Or.inr ⟨rfl, by omega⟩⟩
    · rintro ⟨h1, h2⟩
      rcases h2 with h | ⟨h, h'⟩
      · left; exact ⟨h1, Or.inl h⟩
      · by_cases hc : c = n
        · right; exact ⟨h, hc⟩
        · left; exact ⟨h1, Or.inr ⟨h, by omega⟩⟩

theorem searchInv_rotations {f : Nat → Nat → Option F32} {p0 : Prediction} {q0 : ℚ}
    (hp0 : p0.score = F32.fin q0)
    (hf : ∀ r c s, f r c = some s → ∃ q, s = F32.fin q ∧ q0 < q) (n : Nat) :
    SearchInv f p0 ((List.range n).foldl
      (fun best rot => (List.range 10).foldl (searchStep f rot) best) p0) (SeenUpTo n 0) := by
  induction n with
  | zero =>
    refine ⟨rfl, ?_, Or.inl ⟨rfl, ?_⟩⟩
    · intro r c s hs; unfold SeenUpTo at hs; omega
    · intro r c hs; unfold SeenUpTo at hs; omega
  | succ n ih =>
    rw [List.range_succ n, List.foldl_append, List.foldl_cons, List.foldl_nil]
    have := searchInv_columns hp0 hf n ih 10 (le_refl _)
    refine searchInv_congr ?_ this
    intro r c
    unfold SeenUpTo
    constructor
    · rintro ⟨h1, h2⟩
      exact ⟨h1, Or.inl (by omega)⟩
    · rintro ⟨h1, h2⟩
      refine ⟨h1, ?_⟩
      by_cases h : r < n
      · left; exact h
      · right; exact ⟨by omega, h1⟩

/-- The value returned by `evaluate` on a board is the running best over all candidates
`(rot, col)` with `rot` below the variant count and `col < 10`. -/
theorem evaluate_searchInv {w : Weights} (hw : WeightsInRange w) {board : Mat}
    (hb : IsBoard board) (rotation0 column0 : Int) (curPiece : String) :
    ∃ p, evaluate w rotation0 column0 board curPiece = some p ∧
      SearchInv (candidateScore w board curPiece)
        { rotation := rotation0, column := column0, score := F32.fin (-FLT_MAX), piece_type := curPiece }
        p (fun r c => r < (getPieceShapes curPiece).length ∧ c < 10) := by
  refine ⟨_, evaluate_eq_foldl hb rotation0 column0 curPiece, ?_⟩
  have := @searchInv_rotations (candidateScore w board curPiece)
    { rotation := rotation0, column := column0, score := F32.fin (-FLT_MAX),
      piece_type := curPiece } (-FLT_MAX) rfl
    (fun r c s h => candidateScore_finite hw hb curPiece r c s h)
    (getPieceShapes curPiece).length
  refine searchInv_congr ?_ this
  intro r c
  unfold SeenUpTo
  constructor
  · rintro ⟨h1, h2⟩; exact ⟨by omega, h1⟩
  · rintro ⟨h1, h2⟩; exact ⟨h2, Or.inl h1⟩

/-! ## Feasible placements -/

theorem candidateScore_of_feasible {w : Weights} {board : Mat} {curPiece : String} {rot col : Nat}
    (h : Feasible board curPiece rot col) :
    candidateScore w board curPiece rot col
      = simulatedScore w board (pieceVariant curPiece rot) col := by
  unfold candidateScore
  rw [if_neg (by have := h.2.2; omega)]

theorem feasible_of_candidateScore {w : Weights} {board : Mat} {curPiece : String} {rot col : Nat}
    {s : F32} (hr : rot < (getPieceShapes curPiece).length) (hc : col < 10)
    (h : candidateScore w board curPiece rot col = some s) : Feasible board curPiece rot col := by
  refine ⟨hr, hc, ?_⟩
  unfold candidateScore at h
  split at h
  · exact absurd h (by simp)
  · omega

/-- What `evaluate` returns on a board, in terms of the feasible placements: either no
placement is feasible and the initial `bestPred` comes back untouched, or the result is
the first feasible placement, in loop order, that reaches the greatest score. -/
theorem evaluate_cases {w : Weights} (hw : WeightsInRange w) {board : Mat} (hb : IsBoard board)
    (rotation0 column0 : Int) (curPiece : String) :
    ∃ p, evaluate w rotation0 column0 board curPiece = some p ∧
      p.piece_type = curPiece ∧
      (∀ rot col, Feasible board curPiece rot col →
        ∃ s, simulatedScore w board (pieceVariant curPiece rot) col = some s ∧ s ≤ p.score) ∧
      ((p = { rotation := rotation0, column := column0, score := F32.fin (-FLT_MAX),
              piece_type := curPiece } ∧
          ∀ rot col, ¬ Feasible board curPiece rot col) ∨
       (∃ rot col : Nat, Feasible board curPiece rot col ∧ p.rotation = rot ∧ p.column = col ∧
          simulatedScore w board (pieceVariant curPiece rot) col = some p.score ∧
          F32.fin (-FLT_MAX) < p.score ∧
          ∀ rot' col', Feasible board curPiece rot' col' →
            simulatedScore w board (pieceVariant curPiece rot') col' = some p.score →
            rot < rot' ∨ (rot = rot' ∧ col ≤ col'))) := by
  obtain ⟨p, hp, hpt, hmax, hbest⟩ := evaluate_searchInv hw hb rotation0 column0 curPiece
  refine ⟨p, hp, hpt, ?_, ?_⟩
  · intro rot col hf
    obtain ⟨s, hs⟩ := (candidateScore_isSome_iff hw hb curPiece rot col).2 hf.2.2
    refine ⟨s, ?_, hmax rot col s ⟨hf.1, hf.2.1⟩ hs⟩
    rw [← candidateScore_of_feasible hf]; exact hs
  · rcases hbest with ⟨h1, h2⟩ | ⟨r, c, hs, hr, hc, hfr, hfirst⟩
    · left
      refine ⟨h1, ?_⟩
      intro rot col hf
      obtain ⟨s, hs⟩ := (candidateScore_isSome_iff hw hb curPiece rot col).2 hf.2.2
      have := h2 rot col ⟨hf.1, hf.2.1⟩
      rw [this] at hs
      exact absurd hs (by simp)
    · right
      have hfeas := feasible_of_candidateScore hs.1 hs.2 hfr
      refine ⟨r, c, hfeas, hr, hc, ?_, candidateScore_gt_sentinel hw hb curPiece r c _ hfr, ?_⟩
      · rw [← candidateScore_of_feasible hfeas]; exact hfr
      · intro rot' col' hf' hs'
        apply hfirst rot' col' ⟨hf'.1, hf'.2.1⟩
        rw [candidateScore_of_feasible hf']; exact hs'

theorem weightsInRange_sampleWeights : WeightsInRange sampleWeights := by
  unfold WeightsInRange sampleWeights FLT_MAX
  norm_num [abs_of_pos, abs_of_neg]

theorem feasible_emptyBoard_O : Feasible emptyBoard "O" 0 0 := by decide

/-- The variants of the catalog are rectangular: a non-zero cell lies inside the
`rows x cols` box. -/
theorem pieceVariant_cell_in_range (curPiece : String) (rot y x : Nat)
    (h : cellAt (pieceVariant curPiece rot) y x ≠ 0) :
    y < matRows (pieceVariant curPiece rot) ∧ x < matCols (pieceVariant curPiece rot) := by
  have hrect : ∀ v ∈ getPieceShapes curPiece, ∀ r ∈ v, r.length = matCols v := by
    unfold getPieceShapes
    split_ifs <;> decide
  unfold pieceVariant at h ⊢
  by_cases hr : rot < (getPieceShapes curPiece).length
  · rw [List.getD_eq_getElem _ _ hr] at h ⊢
    have hv := hrect _ (List.getElem_mem hr)
    generalize (getPieceShapes curPiece)[rot] = v at h hv
    unfold cellAt at h
    by_cases hy : y < v.length
    · rw [List.getD_eq_getElem _ _ hy] at h
      have hrow := hv _ (List.getElem_mem hy)
      refine ⟨hy, ?_⟩
      by_contra hx
      rw [List.getD_eq_default _ _ (by omega)] at h
      exact h rfl
    · rw [List.getD_eq_default v [] (by omega)] at h
      exact absurd rfl h
  · rw [List.getD_eq_default _ _ (by omega)] at h
    exact absurd rfl h

/-! ## Properties of `evaluate` -/

/-- C1: on a 10x20 board, with weights in range, when some `(rotation, column)` pair is
feasible, `evaluate` returns a prediction whose pair is feasible, whose score is the
score of that pair's simulated board (`placePiece`, `clearLines`, `evaluatePosition`),
and whose score is at least the score of every feasible pair.  A feasible pair exists
only for the seven catalog identifiers. -/
theorem evaluate_best_score (w : Weights) (rotation0 column0 : Int) (board : Mat)
    (curPiece : String) (hb : IsBoard board) (hw : WeightsInRange w)
    (hf : ∃ rot col, Feasible board curPiece rot col) :
    ∃ p, ∃ rot col : Nat, evaluate w rotation0 column0 board curPiece = some p ∧
      p.rotation = rot ∧ p.column = col ∧ Feasible board curPiece rot col ∧
      simulatedScore w board (pieceVariant curPiece rot) col = some p.score ∧
      ∀ rot' col', Feasible board curPiece rot' col' →
        ∃ s, simulatedScore w board (pieceVariant curPiece rot') col' = some s ∧
          s ≤ p.score := by
  obtain ⟨p, hp, _, hmax, hcase⟩ := evaluate_cases hw hb rotation0 column0 curPiece
  obtain ⟨rot0, col0, hf0⟩ := hf
  rcases hcase with ⟨_, hnone⟩ | ⟨rot, col, hfeas, hr, hc, hs, _, _⟩
  · exact absurd hf0 (hnone rot0 col0)
  · exact ⟨p, rot, col, hp, hr, hc, hfeas, hs, hmax⟩

theorem evaluate_best_score_witness :
    IsBoard emptyBoard ∧ WeightsInRange sampleWeights ∧
    (∃ rot col, Feasible emptyBoard "O" rot col) ∧
    ∃ p, ∃ rot col : Nat, evaluate sampleWeights 0 0 emptyBoard "O" = some p ∧
      p.rotation = rot ∧ p.column = col ∧ Feasible emptyBoard "O" rot col ∧
      simulatedScore sampleWeights emptyBoard (pieceVariant "O" rot) col = some p.score ∧
      ∀ rot' col', Feasible emptyBoard "O" rot' col' →
        ∃ s, simulatedScore sampleWeights emptyBoard (pieceVariant "O" rot') col' = some s ∧
          s ≤ p.score :=
  ⟨by decide, weightsInRange_sampleWeights, ⟨0, 0, feasible_emptyBoard_O⟩,
    evaluate_best_score sampleWeights 0 0 emptyBoard "O" (by decide)
      weightsInRange_sampleWeights ⟨0, 0, feasible_emptyBoard_O⟩⟩

/-- C2: on a 10x20 board with a feasible placement, the pair returned by `evaluate`
reaches the greatest score and is the lexicographically smallest feasible pair that
does (smallest rotation, then smallest column); and a candidate replaces the recorded
prediction only when its score is strictly greater. -/
theorem evaluate_first_best (w : Weights) (rotation0 column0 : Int) (board : Mat)
    (curPiece : String) (hb : IsBoard board) (hw : WeightsInRange w)
    (hf : ∃ rot col, Feasible board curPiece rot col) :
    (∃ p, ∃ rot col : Nat, evaluate w rotation0 column0 board curPiece = some p ∧
      p.rotation = rot ∧ p.column = col ∧ Feasible board curPiece rot col ∧
      simulatedScore w board (pieceVariant curPiece rot) col = some p.score ∧
      (∀ rot' col', Feasible board curPiece rot' col' →
        ∃ s, simulatedScore w board (pieceVariant curPiece rot') col' = some s ∧
          s ≤ p.score) ∧
      ∀ rot' col', Feasible board curPiece rot' col' →
        simulatedScore w board (pieceVariant curPiece rot') col' = some p.score →
        rot < rot' ∨ (rot = rot' ∧ col ≤ col')) ∧
    ∀ (piece : Mat) (rot col : Nat) (bestPred p' : Prediction),
      evaluateCandidate w board piece rot bestPred col = some p' → p' ≠ bestPred →
        bestPred.score < p'.score ∧ p'.rotation = rot ∧ p'.column = col := by
  constructor
  · obtain ⟨p, hp, _, hmax, hcase⟩ := evaluate_cases hw hb rotation0 column0 curPiece
    obtain ⟨rot0, col0, hf0⟩ := hf
    rcases hcase with ⟨_, hnone⟩ | ⟨rot, col, hfeas, hr, hc, hs, _, hfirst⟩
    · exact absurd hf0 (hnone rot0 col0)
    · exact ⟨p, rot, col, hp, hr, hc, hfeas, hs, hmax, hfirst⟩
  · intro piece rot col bestPred p' h hne
    unfold evaluateCandidate at h
    simp only at h
    split at h
    · cases h; exact absurd rfl hne
    · split at h
      · exact absurd h (by simp)
      · split at h
        · cases h; exact ⟨by assumption, rfl, rfl⟩
        · cases h; exact absurd rfl hne

theorem evaluate_first_best_witness :
    IsBoard emptyBoard ∧ WeightsInRange sampleWeights ∧
    (∃ rot col, Feasible emptyBoard "T" rot col) ∧
    ((∃ p, ∃ rot col : Nat, evaluate sampleWeights 0 0 emptyBoard "T" = some p ∧
      p.rotation = rot ∧ p.column = col ∧ Feasible emptyBoard "T" rot col ∧
      simulatedScore sampleWeights emptyBoard (pieceVariant "T" rot) col = some p.score ∧
      (∀ rot' col', Feasible emptyBoard "T" rot' col' →
        ∃ s, simulatedScore sampleWeights emptyBoard (pieceVariant "T" rot') col' = some s ∧
          s ≤ p.score) ∧
      ∀ rot' col', Feasible emptyBoard "T" rot' col' →
        simulatedScore sampleWeights emptyBoard (pieceVariant "T" rot') col' = some p.score →
        rot < rot' ∨ (rot = rot' ∧ col ≤ col')) ∧
    ∀ (piece : Mat) (rot col : Nat) (bestPred p' : Prediction),
      evaluateCandidate sampleWeights emptyBoard piece rot bestPred col = some p' →
        p' ≠ bestPred →
        bestPred.score < p'.score ∧ p'.rotation = rot ∧ p'.column = col) :=
  ⟨by decide, weightsInRange_sampleWeights, ⟨0, 0, by decide⟩,
    evaluate_first_best sampleWeights 0 0 emptyBoard "T" (by decide)
      weightsInRange_sampleWeights ⟨0, 0, by decide⟩⟩

/-- C3: on a 10x20 board, with weights in range, `evaluate` returns a prediction whose
score is the sentinel `-FLT_MAX` if and only if no rotation/column pair of the piece
is feasible; the piece identifier of the prediction is the input identifier. -/
theorem evaluate_sentinel_iff (w : Weights) (rotation0 column0 : Int) (board : Mat)
    (curPiece : String) (hb : IsBoard board) (hw : WeightsInRange w) :
    ∃ p, evaluate w rotation0 column0 board curPiece = some p ∧
      (p.score = F32.fin (-FLT_MAX) ↔ ∀ rot col, ¬ Feasible board curPiece rot col) ∧
      p.piece_type = curPiece := by
  obtain ⟨p, hp, hpt, _, hcase⟩ := evaluate_cases hw hb rotation0 column0 curPiece
  refine ⟨p, hp, ?_, hpt⟩
  rcases hcase with ⟨h1, hnone⟩ | ⟨rot, col, hfeas, _, _, _, hgt, _⟩
  · constructor
    · intro _; exact hnone
    · intro _; rw [h1]
  · constructor
    · intro h; rw [h] at hgt; exact absurd (F32.fin_lt_fin.1 hgt) (lt_irrefl _)
    · intro h; exact absurd hfeas (h rot col)

theorem evaluate_sentinel_iff_witness :
    IsBoard fullTopBoard ∧ WeightsInRange sampleWeights ∧
    ∃ p, evaluate sampleWeights 0 0 fullTopBoard "O" = some p ∧
      (p.score = F32.fin (-FLT_MAX) ↔ ∀ rot col, ¬ Feasible fullTopBoard "O" rot col) ∧
      p.piece_type = "O" :=
  ⟨by decide, weightsInRange_sampleWeights,
    evaluate_sentinel_iff sampleWeights 0 0 fullTopBoard "O" (by decide)
      weightsInRange_sampleWeights⟩

/-- C4: on a 10x20 board with a feasible placement, `evaluate` returns a rotation index
inside the variant list and a column in `0..9`, and at the landing row `r` that
`dropPiece` computes for that variant and column every filled cell `(y, x)` of the
variant maps to the board cell `(r + y, column + x)` with `0 <= r + y < 20` and
`0 <= column + x < 10`, which is empty in the input board. -/
theorem evaluate_placement_safe (w : Weights) (rotation0 column0 : Int) (board : Mat)
    (curPiece : String) (hb : IsBoard board) (hw : WeightsInRange w)
    (hf : ∃ rot col, Feasible board curPiece rot col) :
    ∃ p, ∃ rot col : Nat, evaluate w rotation0 column0 board curPiece = some p ∧
      p.rotation = rot ∧ p.column = col ∧
      rot < (getPieceShapes curPiece).length ∧ col < 10 ∧
      ∀ y x : Nat, cellAt (pieceVariant curPiece rot) y x ≠ 0 →
        0 ≤ dropPiece board (pieceVariant curPiece rot) col + y ∧
        dropPiece board (pieceVariant curPiece rot) col + y < 20 ∧
        col + x < 10 ∧
        cellAt board (dropPiece board (pieceVariant curPiece rot) col + y).toNat (col + x)
          = 0 := by
  obtain ⟨p, hp, _, _, hcase⟩ := evaluate_cases hw hb rotation0 column0 curPiece
  obtain ⟨rot0, col0, hf0⟩ := hf
  rcases hcase with ⟨_, hnone⟩ | ⟨rot, col, hfeas, hr, hc, _, _, _⟩
  · exact absurd hf0 (hnone rot0 col0)
  · refine ⟨p, rot, col, hp, hr, hc, hfeas.1, hfeas.2.1, ?_⟩
    intro y x hcell
    obtain ⟨hy, hx⟩ := pieceVariant_cell_in_range curPiece rot y x hcell
    have hcan := (dropPiece_nonneg_canPlace hfeas.2.2).1
    rw [canPlace_eq_true_iff] at hcan
    obtain ⟨h1, h2, h3, h4⟩ := hcan y x hy hx hcell
    have h0 := hfeas.2.2
    have hnn : 0 ≤ dropPiece board (pieceVariant curPiece rot) col + y := by omega
    refine ⟨hnn, h3, by omega, ?_⟩
    have := h4 hnn
    rw [show ((col : Int) + (x : Int)).toNat = col + x by omega] at this
    exact this

theorem evaluate_placement_safe_witness :
    IsBoard emptyBoard ∧ WeightsInRange sampleWeights ∧
    (∃ rot col, Feasible emptyBoard "L" rot col) ∧
    ∃ p, ∃ rot col : Nat, evaluate sampleWeights 0 0 emptyBoard "L" = some p ∧
      p.rotation = rot ∧ p.column = col ∧
      rot < (getPieceShapes "L").length ∧ col < 10 ∧
      ∀ y x : Nat, cellAt (pieceVariant "L" rot) y x ≠ 0 →
        0 ≤ dropPiece emptyBoard (pieceVariant "L" rot) col + y ∧
        dropPiece emptyBoard (pieceVariant "L" rot) col + y < 20 ∧
        col + x < 10 ∧
        cellAt emptyBoard (dropPiece emptyBoard (pieceVariant "L" rot) col + y).toNat (col + x)
          = 0 :=
  ⟨by decide, weightsInRange_sampleWeights, ⟨0, 0, by decide⟩,
    evaluate_placement_safe sampleWeights 0 0 emptyBoard "L" (by decide)
      weightsInRange_sampleWeights ⟨0, 0, by decide⟩⟩

/-- C5: on the 10x20 board whose top row is full, with piece "O", `evaluate` returns the
two fields `rotation` and `column` with the indeterminate contents they had before the
search, whatever the weights; two calls on the same board, identifier and weights can
therefore differ in them. -/
theorem evaluate_no_placement_fields :
    IsBoard fullTopBoard ∧
    ∀ (w : Weights) (rotation0 column0 : Int),
      evaluate w rotation0 column0 fullTopBoard "O"
        = some { rotation := rotation0, column := column0, score := F32.fin (-FLT_MAX),
                 piece_type := "O" } := by
  refine ⟨by decide, ?_⟩
  intro w rotation0 column0
  rfl

/-! ## Properties of `clearLines` -/

/-- C6: on a 10x20 board with exactly `k` fully occupied rows, `clearLines` returns `k`
and leaves a board of 20 rows whose top `k` rows are empty and whose other `20 - k`
rows are the rows of the input that are not full, in their original order. -/
theorem clearLines_exact (b : Mat) (k : Nat) (hb : IsBoard b) (hk : b.countP rowFull = k) :
    ∃ nb, clearLines b = some (nb, (k : Int)) ∧ nb.length = 20 ∧
      nb.take k = List.replicate k zeroRow ∧
      nb.drop k = b.filter (fun r => !rowFull r) ∧
      (nb.drop k).length = 20 - k := by
  subst hk
  refine ⟨_, clearLines_eq hb, (isBoard_cleared hb).1, ?_, ?_, ?_⟩
  · rw [List.take_left' (by simp)]
  · rw [List.drop_left' (by simp)]
  · have := (isBoard_cleared hb).1
    rw [List.drop_left' (by simp)]
    rw [List.length_append, List.length_replicate] at this
    omega

theorem clearLines_exact_witness :
    IsBoard fullBottomBoard ∧ fullBottomBoard.countP rowFull = 1 ∧
    ∃ nb, clearLines fullBottomBoard = some (nb, ((1 : Nat) : Int)) ∧ nb.length = 20 ∧
      nb.take 1 = List.replicate 1 zeroRow ∧
      nb.drop 1 = fullBottomBoard.filter (fun r => !rowFull r) ∧
      (nb.drop 1).length = 20 - 1 :=
  ⟨by decide, by decide, clearLines_exact fullBottomBoard 1 (by decide) (by decide)⟩

/-- C7: on a 10x20 board, the number of occupied cells after `clearLines` is the number
before it minus 10 times the count that `clearLines` returns. -/
theorem clearLines_occupiedCells (b : Mat) (hb : IsBoard b) :
    ∃ nb n, clearLines b = some (nb, n) ∧
      (occupiedCells nb : Int) = (occupiedCells b : Int) - 10 * n := by
  refine ⟨_, _, clearLines_eq hb, ?_⟩
  rw [occupiedCells_replicate_zeroRow, occupiedCells_split b]
  push_cast; ring

theorem clearLines_occupiedCells_witness :
    IsBoard fullBottomBoard ∧
    ∃ nb n, clearLines fullBottomBoard = some (nb, n) ∧
      (occupiedCells nb : Int) = (occupiedCells fullBottomBoard : Int) - 10 * n :=
  ⟨by decide, clearLines_occupiedCells fullBottomBoard (by decide)⟩

/-! ## Properties of the metrics -/

/-- C8: on the board whose only occupied cell is row 19 (bottom row), column 0, the code
of `calculateAggregateHeight` gives 20, while the sum over the columns of
`20 - topmost occupied row` is 1. -/
theorem calculateAggregateHeight_bottomCellBoard :
    IsBoard bottomCellBoard ∧ calculateAggregateHeight bottomCellBoard = 20 ∧
      specAggregateHeight bottomCellBoard = 1 := by
  decide

/-- C9: on the board whose only occupied cell is row 19 (bottom row), column 0, the code
of `calculateBumpiness` gives 20, while the sum of `|h(x) - h(x+1)|` over the heights
`h(x) = 20 - topmost occupied row` is 1. -/
theorem calculateBumpiness_bottomCellBoard :
    IsBoard bottomCellBoard ∧ calculateBumpiness bottomCellBoard = 20 ∧
      specBumpiness bottomCellBoard = 1 := by
  decide

/-- C10: `countHoles` is the number of empty cells `(y, x)` of the board for which some
cell `(y', x)` with `y' < y` of the same column is occupied. -/
theorem countHoles_eq_specHoleCount (b : Mat) : countHoles b = (specHoleCount b : Int) :=
  countHoles_eq_card b

/-! ## Scoring, catalog and scenarios -/

set_option maxRecDepth 100000

theorem roundedScore_mono {w : Weights} {n1 h1 o1 b1 n2 h2 o2 b2 : Int}
    (hn : (n1 : ℚ) * w.lines ≤ n2 * w.lines) (hh : (h1 : ℚ) * w.height ≤ h2 * w.height)
    (ho : (o1 : ℚ) * w.holes ≤ o2 * w.holes) (hb : (b1 : ℚ) * w.bumpiness ≤ b2 * w.bumpiness) :
    roundedScore w n1 h1 o1 b1 ≤ roundedScore w n2 h2 o2 b2 := by
  unfold roundedScore
  have p1 := roundFloat_mono hn
  have p2 := roundFloat_mono hh
  have p3 := roundFloat_mono ho
  have p4 := roundFloat_mono hb
  have s1 : roundFloat (0 + roundFloat (n1 * w.lines)) ≤ roundFloat (0 + roundFloat (n2 * w.lines)) :=
    roundFloat_mono (by linarith)
  have s2 := roundFloat_mono (add_le_add s1 p2)
  have s3 := roundFloat_mono (add_le_add s2 p3)
  exact roundFloat_mono (add_le_add s3 p4)

/-- Distance of the rounded score from the exact weighted sum. -/
theorem roundedScore_sub_le (w : Weights) (n h o b : Int) :
    |roundedScore w n h o b - (n * w.lines + h * w.height + o * w.holes + b * w.bumpiness)|
      ≤ (|(n : ℚ) * w.lines| + |(h : ℚ) * w.height| + |(o : ℚ) * w.holes|
          + |(b : ℚ) * w.bumpiness|) / 2 ^ 20 + 1 / 2 ^ 146 := by
  unfold roundedScore
  generalize (n : ℚ) * w.lines = a1
  generalize (h : ℚ) * w.height = a2
  generalize (o : ℚ) * w.holes = a3
  generalize (b : ℚ) * w.bumpiness = a4
  have e1 := roundFloat_sub_le_rel a1
  have e2 := roundFloat_sub_le_rel a2
  have e3 := roundFloat_sub_le_rel a3
  have e4 := roundFloat_sub_le_rel a4
  have q1 := abs_roundFloat_le a1
  have q2 := abs_roundFloat_le a2
  have q3 := abs_roundFloat_le a3
  have q4 := abs_roundFloat_le a4
  generalize roundFloat a1 = p1 at *
  generalize roundFloat a2 = p2 at *
  generalize roundFloat a3 = p3 at *
  generalize roundFloat a4 = p4 at *
  have f1 := roundFloat_sub_le_rel (0 + p1)
  have g1 := abs_roundFloat_le (0 + p1)
  generalize roundFloat (0 + p1) = s1 at *
  have f2 := roundFloat_sub_le_rel (s1 + p2)
  have g2 := abs_roundFloat_le (s1 + p2)
  generalize roundFloat (s1 + p2) = s2 at *
  have f3 := roundFloat_sub_le_rel (s2 + p3)
  have g3 := abs_roundFloat_le (s2 + p3)
  generalize roundFloat (s2 + p3) = s3 at *
  have f4 := roundFloat_sub_le_rel (s3 + p4)
  generalize roundFloat (s3 + p4) = s4 at *
  have t1 : |0 + p1| ≤ |p1| := by rw [zero_add]
  have t2 := abs_add s1 p2
  have t3 := abs_add s2 p3
  have t4 := abs_add s3 p4
  have u : |s4 - (a1 + a2 + a3 + a4)| ≤ |s4 - (s3 + p4)| + |s3 - (s2 + p3)| + |s2 - (s1 + p2)|
      + |s1 - (0 + p1)| + |p1 - a1| + |p2 - a2| + |p3 - a3| + |p4 - a4| := by
    have : s4 - (a1 + a2 + a3 + a4) = (s4 - (s3 + p4)) + (s3 - (s2 + p3)) + (s2 - (s1 + p2))
        + (s1 - (0 + p1)) + (p1 - a1) + (p2 - a2) + (p3 - a3) + (p4 - a4) := by ring
    rw [this]
    refine le_trans (abs_add _ _) (add_le_add_right ?_ _)
    refine le_trans (abs_add _ _) (add_le_add_right ?_ _)
    refine le_trans (abs_add _ _) (add_le_add_right ?_ _)
    refine le_trans (abs_add _ _) (add_le_add_right ?_ _)
    refine le_trans (abs_add _ _) (add_le_add_right ?_ _)
    refine le_trans (abs_add _ _) (add_le_add_right ?_ _)
    exact abs_add _ _
  have n1 := abs_nonneg a1
  have n2 := abs_nonneg a2
  have n3 := abs_nonneg a3
  have n4 := abs_nonneg a4
  linarith


theorem weightsInRange_absorbWeights : WeightsInRange absorbWeights := by
  unfold WeightsInRange absorbWeights FLT_MAX
  norm_num [abs_of_pos, abs_of_neg]

theorem roundedScore_absorbWeights :
    roundedScore absorbWeights 0 20 0 20 = -40 ∧ roundedScore absorbWeights 1 20 0 20 = -40 := by
  have r0 : roundFloat 0 = 0 := by simpa using @roundFloat_intCast 0 (by norm_num)
  have r20 : roundFloat (-20) = -20 := by simpa using @roundFloat_intCast (-20) (by norm_num)
  have r40 : roundFloat (-40) = -40 := by simpa using @roundFloat_intCast (-40) (by norm_num)
  have rt : roundFloat (1 / 2 ^ 30) = 1 / 2 ^ 30 := by
    have := @roundFloat_of_near (1 / 2 ^ 30) (-30) (2 ^ 23) (by norm_num)
      (by norm_num [abs_of_pos, zpow_neg]) (Or.inr (by norm_num [abs_of_pos, zpow_neg]))
      (by norm_num [zpow_neg])
    rw [this]; norm_num [zpow_neg]
  have ra : roundFloat (1 / 2 ^ 30 + -20) = -20 := by
    have := @roundFloat_of_near (1 / 2 ^ 30 + -20) 4 (-(20 * 2 ^ 19)) (by norm_num)
      (by norm_num [abs_of_neg]) (Or.inr (by norm_num [abs_of_neg]))
      (by norm_num [zpow_neg, abs_of_pos])
    rw [this]; norm_num [zpow_neg]
  have e1 : (((1 : Int) : ℚ)) * (1 / 2 ^ 30) = 1 / 2 ^ 30 := by norm_num
  have e0 : (((0 : Int) : ℚ)) * (1 / 2 ^ 30) = 0 := by norm_num
  have e2 : (((20 : Int) : ℚ)) * -1 = -20 := by norm_num
  have e3 : (((0 : Int) : ℚ)) * -1 = 0 := by norm_num
  have e4 : (-20 : ℚ) + -20 = -40 := by norm_num
  constructor
  · show roundFloat (roundFloat (roundFloat (roundFloat (0 + roundFloat
      (((0 : Int) : ℚ) * (1 / 2 ^ 30))) + roundFloat (((20 : Int) : ℚ) * -1))
      + roundFloat (((0 : Int) : ℚ) * -1)) + roundFloat (((20 : Int) : ℚ) * -1)) = -40
    simp only [e0, e2, e3, e4, r0, r20, r40, add_zero, zero_add]
  · show roundFloat (roundFloat (roundFloat (roundFloat (0 + roundFloat
      (((1 : Int) : ℚ) * (1 / 2 ^ 30))) + roundFloat (((20 : Int) : ℚ) * -1))
      + roundFloat (((0 : Int) : ℚ) * -1)) + roundFloat (((20 : Int) : ℚ) * -1)) = -40
    simp only [e1, e2, e3, e4, r0, r20, r40, rt, ra, add_zero, zero_add]

/-- C11, counterexample: with `W_lines = 2^-30 > 0` and the other weights `-1`, on the board
whose only occupied cell is the bottom cell of column 0, the score for one cleared line
equals the score for none (both are the `float` -40), although the exact weighted sum
for one line is `-40 + 2^-30`: the small term is absorbed by the rounding of the sum.
The scores are not ordered strictly by lines cleared. -/
theorem evaluatePosition_absorbs_lines :
    0 < absorbWeights.lines ∧ WeightsInRange absorbWeights ∧ IsBoard bottomCellBoard ∧
    evaluatePosition absorbWeights bottomCellBoard 0 = F32.fin (-40) ∧
    evaluatePosition absorbWeights bottomCellBoard 1 = F32.fin (-40) ∧
    absorbWeights.lines * ((1 : Int) : ℚ)
        + absorbWeights.height * calculateAggregateHeight bottomCellBoard
        + absorbWeights.holes * countHoles bottomCellBoard
        + absorbWeights.bumpiness * calculateBumpiness bottomCellBoard = -40 + 1 / 2 ^ 30 ∧
    ¬ ((0 : Int) < 1 ↔ evaluatePosition absorbWeights bottomCellBoard 0
        < evaluatePosition absorbWeights bottomCellBoard 1) := by
  have hgap : ∃ x, x < 10 ∧ cellAt bottomCellBoard 19 x = 0 := ⟨1, by decide, by decide⟩
  have hH : calculateAggregateHeight bottomCellBoard = 20 := by decide
  have hO : countHoles bottomCellBoard = 0 := by decide
  have hB : calculateBumpiness bottomCellBoard = 20 := by decide
  have h0 := (evaluatePosition_finite weightsInRange_absorbWeights hgap
    (show (0 : Int) ≤ 0 by norm_num) (by norm_num)).1
  have h1 := (evaluatePosition_finite weightsInRange_absorbWeights hgap
    (show (0 : Int) ≤ 1 by norm_num) (by norm_num)).1
  rw [hH, hO, hB, roundedScore_absorbWeights.1] at h0
  rw [hH, hO, hB, roundedScore_absorbWeights.2] at h1
  refine ⟨by unfold absorbWeights; norm_num, weightsInRange_absorbWeights, by decide, h0, h1,
    ?_, ?_⟩
  · rw [hH, hO, hB]; unfold absorbWeights; norm_num
  · rw [h0, h1, F32.fin_lt_fin]
    norm_num

/-- C11, amended: for weights in range, on a board with an empty cell in its bottom row
(every board that `evaluate` scores) and a line count in `0..20`, `evaluatePosition`
is the finite `float` obtained by rounding each product `metric * W` and each partial sum
to binary32; it differs from the exact weighted sum by at most `2^-20` times the sum of
the absolute values of the four terms, plus `2^-146`.  With `W_lines > 0`, two boards
with equal aggregate height, hole count and bumpiness are ordered weakly by their line
counts: more lines never give a smaller score, and a strictly greater score comes only
from strictly more lines. -/
theorem evaluatePosition_rounded (w : Weights) (b1 b2 : Mat) (n1 n2 : Int)
    (hw : WeightsInRange w)
    (hg1 : ∃ x, x < 10 ∧ cellAt b1 19 x = 0) (hg2 : ∃ x, x < 10 ∧ cellAt b2 19 x = 0)
    (h1 : 0 ≤ n1 ∧ n1 ≤ 20) (h2 : 0 ≤ n2 ∧ n2 ≤ 20) :
    evaluatePosition w b1 n1
      = F32.fin (roundedScore w n1 (calculateAggregateHeight b1) (countHoles b1)
          (calculateBumpiness b1)) ∧
    |roundedScore w n1 (calculateAggregateHeight b1) (countHoles b1) (calculateBumpiness b1)|
      < FLT_MAX ∧
    |roundedScore w n1 (calculateAggregateHeight b1) (countHoles b1) (calculateBumpiness b1)
        - (w.lines * n1 + w.height * calculateAggregateHeight b1 + w.holes * countHoles b1
            + w.bumpiness * calculateBumpiness b1)|
      ≤ (|w.lines * n1| + |w.height * calculateAggregateHeight b1| + |w.holes * countHoles b1|
          + |w.bumpiness * calculateBumpiness b1|) / 2 ^ 20 + 1 / 2 ^ 146 ∧
    (0 < w.lines → calculateAggregateHeight b1 = calculateAggregateHeight b2 →
      countHoles b1 = countHoles b2 → calculateBumpiness b1 = calculateBumpiness b2 →
      (n1 ≤ n2 → evaluatePosition w b1 n1 ≤ evaluatePosition w b2 n2) ∧
      (evaluatePosition w b1 n1 < evaluatePosition w b2 n2 → n1 < n2)) := by
  obtain ⟨e1, f1⟩ := evaluatePosition_finite hw hg1 h1.1 h1.2
  obtain ⟨e2, f2⟩ := evaluatePosition_finite hw hg2 h2.1 h2.2
  refine ⟨e1, f1, ?_, ?_⟩
  · have := roundedScore_sub_le w n1 (calculateAggregateHeight b1) (countHoles b1)
      (calculateBumpiness b1)
    simpa only [mul_comm] using this
  · intro hpos ha hh hb
    rw [e1, e2, ha, hh, hb]
    have mono : ∀ a c : Int, a ≤ c →
        roundedScore w a (calculateAggregateHeight b2) (countHoles b2) (calculateBumpiness b2)
          ≤ roundedScore w c (calculateAggregateHeight b2) (countHoles b2)
              (calculateBumpiness b2) := by
      intro a c hac
      apply roundedScore_mono _ (le_refl _) (le_refl _) (le_refl _)
      exact mul_le_mul_of_nonneg_right (by exact_mod_cast hac) hpos.le
    constructor
    · intro hle
      exact F32.fin_le_fin.2 (mono n1 n2 hle)
    · intro hlt
      by_contra hge
      have := mono n2 n1 (by omega)
      exact absurd (F32.fin_lt_fin.1 hlt) (not_lt.2 this)

theorem evaluatePosition_rounded_witness :
    WeightsInRange sampleWeights ∧ (∃ x, x < 10 ∧ cellAt emptyBoard 19 x = 0) ∧
    ((0 : Int) ≤ 0 ∧ (0 : Int) ≤ 20) ∧ ((0 : Int) ≤ 1 ∧ (1 : Int) ≤ 20) ∧
    (evaluatePosition sampleWeights emptyBoard 0
      = F32.fin (roundedScore sampleWeights 0 (calculateAggregateHeight emptyBoard)
          (countHoles emptyBoard) (calculateBumpiness emptyBoard)) ∧
    |roundedScore sampleWeights 0 (calculateAggregateHeight emptyBoard) (countHoles emptyBoard)
        (calculateBumpiness emptyBoard)| < FLT_MAX ∧
    |roundedScore sampleWeights 0 (calculateAggregateHeight emptyBoard) (countHoles emptyBoard)
        (calculateBumpiness emptyBoard)
        - (sampleWeights.lines * (0 : Int)
            + sampleWeights.height * calculateAggregateHeight emptyBoard
            + sampleWeights.holes * countHoles emptyBoard
            + sampleWeights.bumpiness * calculateBumpiness emptyBoard)|
      ≤ (|sampleWeights.lines * (0 : Int)|
          + |sampleWeights.height * calculateAggregateHeight emptyBoard|
          + |sampleWeights.holes * countHoles emptyBoard|
          + |sampleWeights.bumpiness * calculateBumpiness emptyBoard|) / 2 ^ 20 + 1 / 2 ^ 146 ∧
    (0 < sampleWeights.lines →
      calculateAggregateHeight emptyBoard = calculateAggregateHeight emptyBoard →
      countHoles emptyBoard = countHoles emptyBoard →
      calculateBumpiness emptyBoard = calculateBumpiness emptyBoard →
      ((0 : Int) ≤ 1 → evaluatePosition sampleWeights emptyBoard 0
          ≤ evaluatePosition sampleWeights emptyBoard 1) ∧
      (evaluatePosition sampleWeights emptyBoard 0 < evaluatePosition sampleWeights emptyBoard 1
        → (0 : Int) < 1))) :=
  ⟨weightsInRange_sampleWeights, ⟨0, by decide, by decide⟩, by decide, by decide,
    evaluatePosition_rounded sampleWeights emptyBoard emptyBoard 0 1
      weightsInRange_sampleWeights ⟨0, by decide, by decide⟩ ⟨0, by decide, by decide⟩
      (by decide) (by decide)⟩

/-- C12: `getPieceShapes` returns 2 variants for I, 1 for O, 4 for T, 2 for S, 2 for Z,
4 for J and 4 for L; for every identifier, every cell of every variant is 0 or 1 and
every variant has exactly four cells equal to 1. -/
theorem getPieceShapes_catalog :
    (getPieceShapes "I").length = 2 ∧ (getPieceShapes "O").length = 1 ∧
    (getPieceShapes "T").length = 4 ∧ (getPieceShapes "S").length = 2 ∧
    (getPieceShapes "Z").length = 2 ∧ (getPieceShapes "J").length = 4 ∧
    (getPieceShapes "L").length = 4 ∧
    ∀ pieceType : String, ∀ v ∈ getPieceShapes pieceType,
      (∀ r ∈ v, ∀ c ∈ r, c = 0 ∨ c = 1) ∧ filledCells v = 4 := by
  refine ⟨by decide, by decide, by decide, by decide, by decide, by decide, by decide, ?_⟩
  intro pieceType
  unfold getPieceShapes
  split_ifs <;> decide

/-- C13: the fourth grid listed for "L" is `[[0,1],[1,1],[1,0]]`, which is no rotation of
the rotation-0 grid of L (it is the second grid of Z), and the clockwise rotation
`[[1,0],[1,0],[1,1]]` of the rotation-0 grid of L is not listed; so the list of L is not
the set of rotations of its first grid.  The lists of I, O, T, S, Z and J are. -/
theorem getPieceShapes_L_rotations :
    (getPieceShapes "L").getD 0 [] = [[0, 0, 1], [1, 1, 1]] ∧
    (getPieceShapes "L").getD 3 [] = [[0, 1], [1, 1], [1, 0]] ∧
    (getPieceShapes "L").getD 3 [] ∉ rotationsOf ((getPieceShapes "L").getD 0 []) ∧
    (getPieceShapes "L").getD 3 [] = (getPieceShapes "Z").getD 1 [] ∧
    rotateCW ((getPieceShapes "L").getD 0 []) = [[1, 0], [1, 0], [1, 1]] ∧
    rotateCW ((getPieceShapes "L").getD 0 []) ∉ getPieceShapes "L" ∧
    ¬ IsRotationSet (getPieceShapes "L") ∧
    ∀ p ∈ ["I", "O", "T", "S", "Z", "J"], IsRotationSet (getPieceShapes p) := by
  decide

/-- C15: on the board whose bottom row is occupied except in column 5, the vertical
variant of "I" (rotation 1) in column 5 lands at row 16, `clearLines` on the simulated
board returns 1, and the board that is scored has exactly three occupied cells, in
rows 17..19 of column 5. -/
theorem evaluate_gap_scenario :
    IsBoard gapBottomBoard ∧
    pieceVariant "I" 1 = [[1], [1], [1], [1]] ∧
    dropPiece gapBottomBoard (pieceVariant "I" 1) 5 = 16 ∧
    clearLines (placePiece gapBottomBoard (pieceVariant "I" 1) 5
        (dropPiece gapBottomBoard (pieceVariant "I" 1) 5)) = some (threeCellBoard, 1) ∧
    occupiedCells threeCellBoard = 3 ∧
    (∀ y < 20, ∀ x < 10, (cellAt threeCellBoard y x ≠ 0 ↔ (17 ≤ y ∧ x = 5))) ∧
    ∀ w : Weights, candidateScore w gapBottomBoard "I" 1 5
      = some (evaluatePosition w threeCellBoard 1) := by
  refine ⟨by decide, by decide, by decide, by decide, by decide, by decide, ?_⟩
  intro w
  have h1 : dropPiece gapBottomBoard (pieceVariant "I" 1) ((5 : Nat) : Int) = 16 := by decide
  have h2 : clearLines (placePiece gapBottomBoard (pieceVariant "I" 1) ((5 : Nat) : Int) 16)
      = some (threeCellBoard, 1) := by decide
  unfold candidateScore simulatedScore
  rw [h1, h2]
  rfl

/-- C16: `countHoles` returns 0 exactly for the boards in which no empty cell lies
beneath an occupied cell of the same column: for every column `x < 10`, every cell
below an occupied cell is occupied, down to the bottom row. -/
theorem countHoles_eq_zero_iff (b : Mat) :
    countHoles b = 0 ↔
      ∀ x y y', x < 10 → y < 20 → y' < y → cellAt b y' x ≠ 0 → cellAt b y x ≠ 0 := by
  rw [countHoles_eq_card]
  unfold specHoleCount
  rw [Int.natCast_eq_zero, Finset.card_eq_zero, Finset.filter_eq_empty_iff]
  constructor
  · intro h x y y' hx hy hy' hocc hz
    exact h (show (y, x) ∈ Finset.range 20 ×ˢ Finset.range 10 by simp [hx, hy])
      ⟨hz, y', hy', hocc⟩
  · intro h p hp hole
    simp only [Finset.mem_product, Finset.mem_range] at hp
    obtain ⟨hz, y', hy', hocc⟩ := hole
    exact h p.2 p.1 y' hp.2 hp.1 hy' hocc hz

/-- A board outside the range of `calculateBumpiness`: row 18 is full (no board left by
`clearLines` has a full row) and row 19 is occupied except in column 0.  All ten columns
have height 2 in the words of the specification, and the scan from the bottom gives
bumpiness 1. -/
theorem calculateBumpiness_floatingCellBoard :
    IsBoard floatingCellBoard ∧ lineFull floatingCellBoard 18 = true ∧
    (∀ x < 10, specColumnHeight floatingCellBoard x = 2) ∧
    calculateBumpiness floatingCellBoard = 1 ∧ specBumpiness floatingCellBoard = 0 := by
  decide

/-- Lines cleared and the three metrics of the board scored for "O" in column `c` of
the empty board. -/
theorem emptyBoard_O_metrics :
    ∀ c < 9, (clearLines (placePiece emptyBoard (pieceVariant "O" 0) (c : Nat)
        (dropPiece emptyBoard (pieceVariant "O" 0) (c : Nat)))).map
        (fun r => (r.2, calculateAggregateHeight r.1, countHoles r.1, calculateBumpiness r.1))
      = some (0, 40, 0, if c = 0 ∨ c = 8 then 20 else 40) := by
  decide

theorem emptyBoard_O_score {w : Weights} (hw : WeightsInRange w) (c : Nat) (hc : c < 9) :
    simulatedScore w emptyBoard (pieceVariant "O" 0) c
      = some (F32.fin (roundedScore w 0 40 0 (if c = 0 ∨ c = 8 then 20 else 40))) := by
  have h := emptyBoard_O_metrics c hc
  have hboard : IsBoard emptyBoard := by decide
  have hp := isBoard_placePiece hboard (pieceVariant "O" 0) (c : Nat)
    (dropPiece emptyBoard (pieceVariant "O" 0) (c : Nat))
  have hgap := cleared_bottom_gap hp
  unfold simulatedScore
  rw [clearLines_eq hp] at h ⊢
  simp only [Option.map_some', Option.some.injEq, Prod.mk.injEq] at h ⊢
  obtain ⟨h1, h2, h3, h4⟩ := h
  have := (evaluatePosition_finite hw hgap (le_of_eq h1.symm) (by rw [h1]; norm_num)).1
  rw [this, h1, h2, h3, h4]

/-- C14: on the empty board with piece "O", `dropPiece` gives landing row 18 for every
column 0..8 and a negative row for column 9, and for weights in range with
`W_bump < 0`, `evaluate` returns rotation 0 and column 0. -/
theorem evaluate_emptyBoard_O (w : Weights) (rotation0 column0 : Int)
    (hbump : w.bumpiness < 0) (hw : WeightsInRange w) :
    (∀ c < 9, dropPiece emptyBoard (pieceVariant "O" 0) (c : Nat) = 18) ∧
    dropPiece emptyBoard (pieceVariant "O" 0) 9 < 0 ∧
    ∃ p, evaluate w rotation0 column0 emptyBoard "O" = some p ∧
      p.rotation = 0 ∧ p.column = 0 := by
  refine ⟨by decide, by decide, ?_⟩
  have hboard : IsBoard emptyBoard := by decide
  have hf0 : Feasible emptyBoard "O" 0 0 := by decide
  obtain ⟨p, hp, _, hmax, hcase⟩ := evaluate_cases hw hboard rotation0 column0 "O"
  refine ⟨p, hp, ?_⟩
  rcases hcase with ⟨_, hnone⟩ | ⟨rot, col, hfeas, hr, hc, hs, _, hfirst⟩
  · exact absurd hf0 (hnone 0 0)
  · have hrot : rot = 0 := by
      have h1 := hfeas.1
      have : (getPieceShapes "O").length = 1 := by decide
      omega
    subst hrot
    have hcol9 : col < 9 := by
      have h1 := hfeas.2.1
      have h2 := hfeas.2.2
      by_contra hge
      have : col = 9 := by omega
      subst this
      revert h2
      decide
    obtain ⟨s0, hs0, hle⟩ := hmax 0 0 hf0
    rw [emptyBoard_O_score hw 0 (by omega)] at hs0
    rw [emptyBoard_O_score hw col hcol9] at hs
    have e0 := Option.some.inj hs0
    have ep := Option.some.inj hs
    simp only [true_or, if_true] at e0
    rw [← e0, ← ep] at hle
    have hle' := F32.fin_le_fin.1 hle
    have hge : roundedScore w 0 40 0 (if col = 0 ∨ col = 8 then 20 else 40)
        ≤ roundedScore w 0 40 0 20 := by
      apply roundedScore_mono (le_refl _) (le_refl _) (le_refl _)
      split_ifs
      · exact le_refl _
      · push_cast; nlinarith
    have heq : roundedScore w 0 40 0 (if col = 0 ∨ col = 8 then 20 else 40)
        = roundedScore w 0 40 0 20 := le_antisymm hge hle'
    have hsame : simulatedScore w emptyBoard (pieceVariant "O" 0) (0 : Nat) = some p.score := by
      rw [emptyBoard_O_score hw 0 (by omega), ← ep, heq]; simp
    rcases hfirst 0 0 hf0 hsame with h | ⟨_, h⟩
    · omega
    · have : col = 0 := by omega
      subst this
      exact ⟨by simpa using hr, by simpa using hc⟩

theorem evaluate_emptyBoard_O_witness :
    sampleWeights.bumpiness < 0 ∧ WeightsInRange sampleWeights ∧
    (∀ c < 9, dropPiece emptyBoard (pieceVariant "O" 0) (c : Nat) = 18) ∧
    dropPiece emptyBoard (pieceVariant "O" 0) 9 < 0 ∧
    ∃ p, evaluate sampleWeights 0 0 emptyBoard "O" = some p ∧
      p.rotation = 0 ∧ p.column = 0 :=
  ⟨by unfold sampleWeights; norm_num, weightsInRange_sampleWeights,
    evaluate_emptyBoard_O sampleWeights 0 0 (by unfold sampleWeights; norm_num)
      weightsInRange_sampleWeights⟩

/-! ## The frame grabber -/

theorem failed_wait_timeout : FAILED DXGI_ERROR_WAIT_TIMEOUT = true := by decide

theorem not_deviceInvalidated_wait_timeout : ¬ DeviceInvalidated DXGI_ERROR_WAIT_TIMEOUT := by
  decide

theorem failed_of_deviceInvalidated {hr : Int} (h : DeviceInvalidated hr) : FAILED hr = true := by
  rcases h with h | h | h <;> subst h <;> decide

theorem initSession_no_acquire (s : FrameGrabber) (e : InitEnv) :
    ApiCall.AcquireNextFrame ∉ (initSession s e).2.2 ∧
    (initSession s e).2.2.head? = some ApiCall.D3D11CreateDevice := by
  unfold initSession
  split_ifs <;> exact ⟨by simp, rfl⟩

theorem initSession_failed_state (s : FrameGrabber) (e : InitEnv)
    (h : (initSession s e).1 = false) (hs : s.initialized_ = false) :
    (initSession s e).2.1.initialized_ = false ∧ (initSession s e).2.1.duplication_ = s.duplication_
      ∧ (initSession s e).2.1.pool_ = s.pool_ ∧ (initSession s e).2.1.pool_idx_ = s.pool_idx_ := by
  unfold initSession at h ⊢
  split_ifs at h ⊢ <;> exact ⟨hs, rfl, rfl, rfl⟩

theorem initSession_ok_state (s : FrameGrabber) (e : InitEnv) (h : (initSession s e).1 = true) :
    SessionReady (initSession s e).2.1 ∧
    (initSession s e).2.1.pool_idx_ = 0 ∧
    (initSession s e).2.1.pool_
      = (List.range (e.poolSize.getD 3).toNat).map
          (fun i => allocImage e.height e.width (e.fresh.getD i [])) := by
  unfold initSession at h ⊢
  split_ifs at h ⊢
  exact ⟨⟨rfl, rfl, rfl, rfl⟩, rfl, rfl⟩

theorem recover_from_error_other (s : FrameGrabber) (hr : Int) (e : InitEnv)
    (h : ¬ DeviceInvalidated hr) : recover_from_error s hr e = (false, s, []) := by
  unfold DeviceInvalidated at h
  unfold recover_from_error
  rw [if_neg h]

theorem recover_from_error_device (s : FrameGrabber) (hr : Int) (e : InitEnv)
    (h : DeviceInvalidated hr) :
    recover_from_error s hr e
      = ((initSession (tornDown s) e).1, (initSession (tornDown s) e).2.1,
          releaseCalls s ++ (initSession (tornDown s) e).2.2) := by
  unfold DeviceInvalidated at h
  unfold recover_from_error
  rw [if_pos h]

theorem releaseCalls_ready {s : FrameGrabber} (h : SessionReady s) (now : Int) :
    releaseCalls (wait_for_next_frame s now)
      = [ApiCall.ReleaseDuplication, ApiCall.ReleaseContext, ApiCall.ReleaseDevice] := by
  obtain ⟨_, h1, h2, h3⟩ := h
  unfold releaseCalls wait_for_next_frame
  simp [h1, h2, h3]

/-- A failed acquisition with a result that is not a device result ends the call: no
frame, and nothing but the pacing clock changes. -/
theorem grab_acquire_failure_other (s : FrameGrabber) (e : GrabEnv)
    (hinit : s.initialized_ = true) (hf : FAILED e.acquire = true)
    (hnd : ¬ DeviceInvalidated e.acquire) :
    grab s e = some ([], wait_for_next_frame s e.now, [ApiCall.AcquireNextFrame]) := by
  unfold grab
  simp [hinit, hf, recover_from_error_other _ _ _ hnd]

/-- The calls of `grabAcquired` extend the calls made before it, without a further
acquisition. -/
theorem grabAcquired_calls (s : FrameGrabber) (calls : List ApiCall) (e : GrabEnv)
    (res : Mat × FrameGrabber × List ApiCall) (h : grabAcquired s calls e = some res) :
    ∃ tail, res.2.2 = calls ++ tail ∧ ApiCall.AcquireNextFrame ∉ tail := by
  unfold grabAcquired at h
  split_ifs at h
  · cases h; exact ⟨_, rfl, by simp⟩
  · cases h; exact ⟨_, rfl, by simp⟩
  · simp only at h
    split at h
    · exact absurd h (by simp)
    · cases h; exact ⟨_, rfl, by simp⟩
  · cases h; exact ⟨_, rfl, by simp⟩

/-- When `QueryInterface` for the texture fails, no frame is returned and the state is
unchanged. -/
theorem grabAcquired_query_failure (s : FrameGrabber) (calls : List ApiCall) (e : GrabEnv)
    (h : FAILED e.queryTexture = true) :
    grabAcquired s calls e = some ([], s,
      calls ++ [ApiCall.QueryTexture, ApiCall.ReleaseDesktopResource, ApiCall.ReleaseFrame]) := by
  unfold grabAcquired
  rw [if_pos h]

/-- When `CreateTexture2D` fails, no frame is returned; the index has already advanced. -/
theorem grabAcquired_staging_failure (s : FrameGrabber) (calls : List ApiCall) (e : GrabEnv)
    (hq : FAILED e.queryTexture = false) (hidx : s.pool_idx_ < s.pool_.length)
    (h : FAILED e.createStaging = true) :
    grabAcquired s calls e = some ([],
      { s with pool_idx_ := (s.pool_idx_ + 1) % s.pool_.length },
      calls ++ [ApiCall.QueryTexture, ApiCall.ReleaseDesktopResource, ApiCall.GetTextureDesc,
        ApiCall.CreateTexture2D, ApiCall.ReleaseAcquiredImage, ApiCall.ReleaseFrame]) := by
  unfold grabAcquired
  simp [hq, hidx, h]

/-- When `Map` fails, the copy is skipped and the buffer `pool_[pool_idx_]` is returned
with the contents it had before the call; the index advances. -/
theorem grabAcquired_map_failure (s : FrameGrabber) (calls : List ApiCall) (e : GrabEnv)
    (hq : FAILED e.queryTexture = false) (hidx : s.pool_idx_ < s.pool_.length)
    (hc : FAILED e.createStaging = false) (h : SUCCEEDED e.map = false) :
    grabAcquired s calls e = some (s.pool_.getD s.pool_idx_ [],
      { s with pool_idx_ := (s.pool_idx_ + 1) % s.pool_.length },
      calls ++ [ApiCall.QueryTexture, ApiCall.ReleaseDesktopResource, ApiCall.GetTextureDesc,
        ApiCall.CreateTexture2D, ApiCall.CopyResource, ApiCall.Map,
        ApiCall.ReleaseStagingTexture, ApiCall.ReleaseAcquiredImage, ApiCall.ReleaseFrame]) := by
  unfold grabAcquired
  simp [hq, hidx, hc, h]


/-- C18: for an initialized grabber, when the acquisition reports a timeout, `grab`
returns the empty image; the only call made is the acquisition, so no handle is
released and `initialize` is not run; the three handles, `initialized_`, the
round-robin index and every pool slot are unchanged. -/
theorem grab_timeout (s : FrameGrabber) (e : GrabEnv) (hready : SessionReady s)
    (ht : e.acquire = DXGI_ERROR_WAIT_TIMEOUT) :
    ∃ s', grab s e = some ([], s', [ApiCall.AcquireNextFrame]) ∧
      s'.device_ = s.device_ ∧ s'.context_ = s.context_ ∧ s'.duplication_ = s.duplication_ ∧
      s'.initialized_ = true ∧ s'.pool_idx_ = s.pool_idx_ ∧ s'.pool_ = s.pool_ := by
  refine ⟨wait_for_next_frame s e.now, ?_, rfl, rfl, rfl, hready.1, rfl, rfl⟩
  apply grab_acquire_failure_other s e hready.1
  · rw [ht]; exact failed_wait_timeout
  · rw [ht]; exact not_deviceInvalidated_wait_timeout

theorem grab_timeout_witness :
    SessionReady sampleGrabber ∧ timeoutEnv.acquire = DXGI_ERROR_WAIT_TIMEOUT ∧
    ∃ s', grab sampleGrabber timeoutEnv = some ([], s', [ApiCall.AcquireNextFrame]) ∧
      s'.device_ = sampleGrabber.device_ ∧ s'.context_ = sampleGrabber.context_ ∧
      s'.duplication_ = sampleGrabber.duplication_ ∧
      s'.initialized_ = true ∧ s'.pool_idx_ = sampleGrabber.pool_idx_ ∧
      s'.pool_ = sampleGrabber.pool_ :=
  ⟨by decide, rfl, grab_timeout sampleGrabber timeoutEnv (by decide) rfl⟩

/-- C19: when the first acquisition of `grab` reports a device result (access lost,
device removed or device reset), `grab` releases the three handles, sets them to null
and runs `initialize` on that state (its calls start with `D3D11CreateDevice` and
contain no acquisition).  If `initialize` fails, `grab` returns no frame after that
single acquisition.  If it succeeds, the acquisition is retried once: a failed retry
returns no frame with no further call, and after a successful retry the rest of the
call makes no further acquisition. -/
theorem grab_device_invalidated (s : FrameGrabber) (e : GrabEnv) (hready : SessionReady s)
    (hdev : DeviceInvalidated e.acquire) :
    (tornDown (wait_for_next_frame s e.now)).device_ = none ∧
    (tornDown (wait_for_next_frame s e.now)).context_ = none ∧
    (tornDown (wait_for_next_frame s e.now)).duplication_ = none ∧
    (reinitResult s e).2.2.head? = some ApiCall.D3D11CreateDevice ∧
    ApiCall.AcquireNextFrame ∉ (reinitResult s e).2.2 ∧
    ((reinitResult s e).1 = false →
      grab s e = some ([], (reinitResult s e).2.1,
        [ApiCall.AcquireNextFrame, ApiCall.ReleaseDuplication, ApiCall.ReleaseContext,
          ApiCall.ReleaseDevice] ++ (reinitResult s e).2.2)) ∧
    ((reinitResult s e).1 = true → FAILED e.acquireRetry = true →
      grab s e = some ([], (reinitResult s e).2.1,
        [ApiCall.AcquireNextFrame, ApiCall.ReleaseDuplication, ApiCall.ReleaseContext,
          ApiCall.ReleaseDevice] ++ (reinitResult s e).2.2 ++ [ApiCall.AcquireNextFrame])) ∧
    ((reinitResult s e).1 = true → FAILED e.acquireRetry = false →
      grab s e = grabAcquired (reinitResult s e).2.1
        ([ApiCall.AcquireNextFrame, ApiCall.ReleaseDuplication, ApiCall.ReleaseContext,
          ApiCall.ReleaseDevice] ++ (reinitResult s e).2.2 ++ [ApiCall.AcquireNextFrame]) e ∧
      ∀ res, grab s e = some res →
        ∃ tail, res.2.2 = [ApiCall.AcquireNextFrame, ApiCall.ReleaseDuplication,
            ApiCall.ReleaseContext, ApiCall.ReleaseDevice] ++ (reinitResult s e).2.2
            ++ [ApiCall.AcquireNextFrame] ++ tail ∧
          ApiCall.AcquireNextFrame ∉ tail) := by
  have hf := failed_of_deviceInvalidated hdev
  have hrel := releaseCalls_ready hready e.now
  have hgrab : grab s e =
      if !(reinitResult s e).1 then
        some ([], (reinitResult s e).2.1,
          [ApiCall.AcquireNextFrame] ++ ([ApiCall.ReleaseDuplication, ApiCall.ReleaseContext,
            ApiCall.ReleaseDevice] ++ (reinitResult s e).2.2))
      else if FAILED e.acquireRetry then
        some ([], (reinitResult s e).2.1,
          [ApiCall.AcquireNextFrame] ++ ([ApiCall.ReleaseDuplication, ApiCall.ReleaseContext,
            ApiCall.ReleaseDevice] ++ (reinitResult s e).2.2) ++ [ApiCall.AcquireNextFrame])
      else
        grabAcquired (reinitResult s e).2.1
          ([ApiCall.AcquireNextFrame] ++ ([ApiCall.ReleaseDuplication, ApiCall.ReleaseContext,
            ApiCall.ReleaseDevice] ++ (reinitResult s e).2.2) ++ [ApiCall.AcquireNextFrame]) e := by
    unfold grab reinitResult
    simp only [hready.1, hf, recover_from_error_device _ _ _ hdev, hrel]
    rfl
  refine ⟨rfl, rfl, rfl, (initSession_no_acquire _ _).2, (initSession_no_acquire _ _).1,
    ?_, ?_, ?_⟩
  · intro h
    rw [hgrab, h]; rfl
  · intro h hr
    rw [hgrab, h, hr]; rfl
  · intro h hr
    refine ⟨by rw [hgrab, h, hr]; rfl, ?_⟩
    intro res hres
    rw [hgrab, h, hr] at hres
    obtain ⟨tail, h1, h2⟩ := grabAcquired_calls _ _ _ _ hres
    exact ⟨tail, by rw [h1]; rfl, h2⟩

theorem grab_device_invalidated_witness :
    SessionReady sampleGrabber ∧ DeviceInvalidated accessLostEnv.acquire ∧
    (tornDown (wait_for_next_frame sampleGrabber accessLostEnv.now)).device_ = none ∧
    (tornDown (wait_for_next_frame sampleGrabber accessLostEnv.now)).context_ = none ∧
    (tornDown (wait_for_next_frame sampleGrabber accessLostEnv.now)).duplication_ = none ∧
    (reinitResult sampleGrabber accessLostEnv).2.2.head? = some ApiCall.D3D11CreateDevice ∧
    ApiCall.AcquireNextFrame ∉ (reinitResult sampleGrabber accessLostEnv).2.2 ∧
    ((reinitResult sampleGrabber accessLostEnv).1 = false →
      grab sampleGrabber accessLostEnv = some ([], (reinitResult sampleGrabber accessLostEnv).2.1,
        [ApiCall.AcquireNextFrame, ApiCall.ReleaseDuplication, ApiCall.ReleaseContext,
          ApiCall.ReleaseDevice] ++ (reinitResult sampleGrabber accessLostEnv).2.2)) ∧
    ((reinitResult sampleGrabber accessLostEnv).1 = true → FAILED accessLostEnv.acquireRetry = true →
      grab sampleGrabber accessLostEnv = some ([], (reinitResult sampleGrabber accessLostEnv).2.1,
        [ApiCall.AcquireNextFrame, ApiCall.ReleaseDuplication, ApiCall.ReleaseContext,
          ApiCall.ReleaseDevice] ++ (reinitResult sampleGrabber accessLostEnv).2.2 ++ [ApiCall.AcquireNextFrame])) ∧
    ((reinitResult sampleGrabber accessLostEnv).1 = true → FAILED accessLostEnv.acquireRetry = false →
      grab sampleGrabber accessLostEnv = grabAcquired (reinitResult sampleGrabber accessLostEnv).2.1
        ([ApiCall.AcquireNextFrame, ApiCall.ReleaseDuplication, ApiCall.ReleaseContext,
          ApiCall.ReleaseDevice] ++ (reinitResult sampleGrabber accessLostEnv).2.2 ++ [ApiCall.AcquireNextFrame]) accessLostEnv ∧
      ∀ res, grab sampleGrabber accessLostEnv = some res →
        ∃ tail, res.2.2 = [ApiCall.AcquireNextFrame, ApiCall.ReleaseDuplication,
            ApiCall.ReleaseContext, ApiCall.ReleaseDevice] ++ (reinitResult sampleGrabber accessLostEnv).2.2
            ++ [ApiCall.AcquireNextFrame] ++ tail ∧
          ApiCall.AcquireNextFrame ∉ tail) :=
  ⟨by decide, by decide,
    grab_device_invalidated sampleGrabber accessLostEnv (by decide) (by decide)⟩

/-- C20: with a pool of three 2x1 buffers and every call succeeding except `Map`, which
returns `E_FAIL`, `grab` skips the copy and returns the buffer `pool_[0]` with its old
contents, a non-empty image, and advances the index to 1; the handles are unchanged and
`initialize` is not run. -/
theorem grab_map_failure_returns_frame :
    SessionReady sampleGrabber ∧ FAILED mapFailureEnv.map = true ∧
    ¬ DeviceInvalidated mapFailureEnv.map ∧
    grab sampleGrabber mapFailureEnv
      = some (blankImage 1 2, { sampleGrabber with last_ts_ := 5, pool_idx_ := 1 },
          [ApiCall.AcquireNextFrame, ApiCall.QueryTexture, ApiCall.ReleaseDesktopResource,
            ApiCall.GetTextureDesc, ApiCall.CreateTexture2D, ApiCall.CopyResource, ApiCall.Map,
            ApiCall.ReleaseStagingTexture, ApiCall.ReleaseAcquiredImage, ApiCall.ReleaseFrame]) ∧
    blankImage 1 2 ≠ [] := by
  refine ⟨by decide, by decide, by decide, ?_, by decide⟩
  rfl

/-! ## Landing rows, skipped pairs and placement -/

/-! ## Landing rows -/

theorem canPlace_eq_false_iff (board piece : Mat) (col row : Int) :
    canPlace board piece col row = false ↔
      ∃ y x : Nat, y < matRows piece ∧ x < matCols piece ∧ cellAt piece y x ≠ 0 ∧
        (col + x < 0 ∨ 10 ≤ col + x ∨ 20 ≤ row + y ∨
          (0 ≤ row + y ∧ cellAt board (row + y).toNat (col + x).toNat ≠ 0)) := by
  rw [← Bool.not_eq_true, canPlace_eq_true_iff]
  constructor
  · intro h
    by_contra hne
    apply h
    intro y x hy hx hp
    refine ⟨?_, ?_, ?_, ?_⟩
    · by_contra hc; exact hne ⟨y, x, hy, hx, hp, Or.inl (by omega)⟩
    · by_contra hc; exact hne ⟨y, x, hy, hx, hp, Or.inr (Or.inl (by omega))⟩
    · by_contra hc; exact hne ⟨y, x, hy, hx, hp, Or.inr (Or.inr (Or.inl (by omega)))⟩
    · intro h0
      by_contra hc
      exact hne ⟨y, x, hy, hx, hp, Or.inr (Or.inr (Or.inr ⟨h0, hc⟩))⟩
  · rintro ⟨y, x, hy, hx, hp, hbad⟩ h
    obtain ⟨h1, h2, h3, h4⟩ := h y x hy hx hp
    rcases hbad with hb | hb | hb | ⟨hb, hb'⟩
    · omega
    · omega
    · omega
    · exact hb' (h4 hb)

/-- For a grid with a filled cell, `dropPiece` ends inside its loop: the result `r` lies
in `[-h, 19]`, the piece cannot be placed at `r + 1`, and it can be placed at `r' + 1`
for every earlier loop value `r'`. -/
theorem dropPiece_spec (board piece : Mat) (col : Int)
    (hfill : ∃ y x, y < matRows piece ∧ x < matCols piece ∧ cellAt piece y x ≠ 0) :
    -(matRows piece : Int) ≤ dropPiece board piece col ∧ dropPiece board piece col ≤ 19 ∧
    canPlace board piece col (dropPiece board piece col + 1) = false ∧
    ∀ r' : Int, -(matRows piece : Int) ≤ r' → r' < dropPiece board piece col →
      canPlace board piece col (r' + 1) = true := by
  unfold dropPiece
  rcases dropPieceLoop_spec board piece col (20 + matRows piece) (-(matRows piece : Int)) with
    ⟨_, h2⟩ | ⟨i, hi, h1, h2, h3⟩
  · exfalso
    have h20 := h2 (19 + matRows piece) (by omega)
    rw [canPlace_eq_true_iff] at h20
    obtain ⟨y, x, hy, hx, hp⟩ := hfill
    have := (h20 y x hy hx hp).2.2.1
    push_cast at this
    omega
  · rw [h1]
    refine ⟨by omega, by omega, h2, ?_⟩
    intro r' hlo hhi
    have := h3 (r' + matRows piece).toNat (by omega)
    rw [show -(matRows piece : Int) + ((r' + matRows piece).toNat : Int) + 1 = r' + 1 by omega]
      at this
    exact this

/-- C23: when `dropPiece` returns a row `r >= 0` for a catalog variant and a column `c`,
the variant placed at `(r, c)` is collision-free (`canPlace` holds) with every filled
cell on a board cell of rows 0..19 and columns 0..9 that is empty, and the variant
placed at `(r + 1, c)` is not collision-free: some filled cell is out of bounds or on an
occupied cell. -/
theorem dropPiece_landing (board : Mat) (curPiece : String) (rot c : Nat)
    (h : 0 ≤ dropPiece board (pieceVariant curPiece rot) c) :
    canPlace board (pieceVariant curPiece rot) c
      (dropPiece board (pieceVariant curPiece rot) c) = true ∧
    (∀ y x : Nat, cellAt (pieceVariant curPiece rot) y x ≠ 0 →
      0 ≤ dropPiece board (pieceVariant curPiece rot) c + y ∧
      dropPiece board (pieceVariant curPiece rot) c + y < 20 ∧ c + x < 10 ∧
      cellAt board (dropPiece board (pieceVariant curPiece rot) c + y).toNat (c + x) = 0) ∧
    canPlace board (pieceVariant curPiece rot) c
      (dropPiece board (pieceVariant curPiece rot) c + 1) = false ∧
    ∃ y x : Nat, cellAt (pieceVariant curPiece rot) y x ≠ 0 ∧
      (10 ≤ c + x ∨ 20 ≤ dropPiece board (pieceVariant curPiece rot) c + 1 + y ∨
        cellAt board (dropPiece board (pieceVariant curPiece rot) c + 1 + y).toNat (c + x)
          ≠ 0) := by
  obtain ⟨h1, h2⟩ := dropPiece_nonneg_canPlace h
  refine ⟨h1, ?_, h2, ?_⟩
  · intro y x hcell
    obtain ⟨hy, hx⟩ := pieceVariant_cell_in_range curPiece rot y x hcell
    obtain ⟨a1, a2, a3, a4⟩ := (canPlace_eq_true_iff _ _ _ _).1 h1 y x hy hx hcell
    have hnn : 0 ≤ dropPiece board (pieceVariant curPiece rot) c + y := by omega
    refine ⟨hnn, a3, by omega, ?_⟩
    have := a4 hnn
    rw [show ((c : Int) + (x : Int)).toNat = c + x by omega] at this
    exact this
  · obtain ⟨y, x, hy, hx, hp, hbad⟩ := (canPlace_eq_false_iff _ _ _ _).1 h2
    refine ⟨y, x, hp, ?_⟩
    rcases hbad with hb | hb | hb | ⟨_, hb'⟩
    · omega
    · left; omega
    · right; left; exact hb
    · right; right
      rw [show ((c : Int) + (x : Int)).toNat = c + x by omega] at hb'
      exact hb'

/-- C25: for a grid of height `h` with a filled cell, `dropPiece` returns the smallest
row `r` in `[-h, 19]` such that the piece cannot be placed at `r + 1`; hence the piece
can be placed at every row strictly between `-h` and `r + 1`, so the path down to the
returned row is free and no position below an obstacle is returned. -/
theorem dropPiece_first_blocked (board piece : Mat) (col : Int)
    (hfill : ∃ y x, y < matRows piece ∧ x < matCols piece ∧ cellAt piece y x ≠ 0) :
    -(matRows piece : Int) ≤ dropPiece board piece col ∧ dropPiece board piece col ≤ 19 ∧
    canPlace board piece col (dropPiece board piece col + 1) = false ∧
    (∀ r' : Int, -(matRows piece : Int) ≤ r' → r' ≤ 19 →
      canPlace board piece col (r' + 1) = false → dropPiece board piece col ≤ r') ∧
    ∀ r'' : Int, -(matRows piece : Int) < r'' → r'' < dropPiece board piece col + 1 →
      canPlace board piece col r'' = true := by
  obtain ⟨h1, h2, h3, h4⟩ := dropPiece_spec board piece col hfill
  refine ⟨h1, h2, h3, ?_, ?_⟩
  · intro r' hlo _ hblocked
    by_contra hlt
    have := h4 r' hlo (by omega)
    rw [this] at hblocked
    exact absurd hblocked (by simp)
  · intro r'' hlo hhi
    have := h4 (r'' - 1) (by omega) (by omega)
    rw [show r'' - 1 + 1 = r'' by omega] at this
    exact this

/-- Every grid of the catalog has a filled cell in its first row. -/
theorem pieceVariant_filled (curPiece : String) (rot : Nat)
    (hrot : rot < (getPieceShapes curPiece).length) :
    ∃ y x, y < matRows (pieceVariant curPiece rot) ∧ x < matCols (pieceVariant curPiece rot) ∧
      cellAt (pieceVariant curPiece rot) y x ≠ 0 := by
  have hall : ∀ v ∈ getPieceShapes curPiece, 0 < matRows v ∧ ∃ x < matCols v, cellAt v 0 x ≠ 0 := by
    unfold getPieceShapes
    split_ifs <;> decide
  unfold pieceVariant
  rw [List.getD_eq_getElem _ _ hrot]
  obtain ⟨h0, x, hx, hc⟩ := hall _ (List.getElem_mem hrot)
  exact ⟨0, x, h0, hx, hc⟩

/-- A landing row `>= 0` is droppable. -/
theorem droppable_of_dropPiece_nonneg {board piece : Mat} {col : Int}
    (h : 0 ≤ dropPiece board piece col) :
    Droppable board piece col (dropPiece board piece col) := by
  obtain ⟨h1, h2⟩ := dropPiece_nonneg_canPlace h
  refine ⟨?_, h2⟩
  intro y hy x hx hp
  obtain ⟨a1, a2, a3, a4⟩ := (canPlace_eq_true_iff _ _ _ _).1 h1 y x hy hx hp
  have hnn : 0 ≤ dropPiece board piece col + y := by omega
  exact ⟨hnn, a3, a1, a2, a4 hnn⟩

/-- The pair is skipped exactly when the piece is blocked at some row of `[-h + 1, 0]`. -/
theorem dropPiece_neg_iff (board piece : Mat) (col : Int)
    (hfill : ∃ y x, y < matRows piece ∧ x < matCols piece ∧ cellAt piece y x ≠ 0) :
    dropPiece board piece col < 0 ↔
      ∃ r : Int, -(matRows piece : Int) ≤ r ∧ r < 0 ∧ canPlace board piece col (r + 1) = false := by
  obtain ⟨h1, h2, h3, h4⟩ := dropPiece_spec board piece col hfill
  constructor
  · intro h
    exact ⟨_, h1, h, h3⟩
  · rintro ⟨r, hlo, hneg, hblocked⟩
    by_contra hge
    have := h4 r hlo (by omega)
    rw [this] at hblocked
    exact absurd hblocked (by simp)

/-- The body of the column loop for a pair that is not skipped: the simulated board is
scored and the score is compared with the recorded one. -/
theorem evaluateCandidate_scored {board : Mat} (hb : IsBoard board) (piece : Mat) (rot col : Nat)
    (h : 0 ≤ dropPiece board piece col) :
    ∃ newBoard linesCleared,
      clearLines (placePiece board piece col (dropPiece board piece col))
        = some (newBoard, linesCleared) ∧
      ∀ (w : Weights) (bestPred : Prediction),
        evaluateCandidate w board piece rot bestPred col
          = some (if evaluatePosition w newBoard linesCleared > bestPred.score then
              { bestPred with score := evaluatePosition w newBoard linesCleared,
                              rotation := rot, column := col }
            else bestPred) := by
  have hp := isBoard_placePiece hb piece col (dropPiece board piece col)
  refine ⟨_, _, clearLines_eq hp, ?_⟩
  intro w bestPred
  unfold evaluateCandidate
  simp only [if_neg (not_lt.2 h), clearLines_eq hp]
  split <;> rfl

/-- A pair that is not skipped changes some recorded prediction. -/
theorem evaluateCandidate_not_skipped {board : Mat} (hb : IsBoard board) (piece : Mat)
    (rot col : Nat) (h : 0 ≤ dropPiece board piece col) :
    ∃ (w : Weights) (bestPred : Prediction), WeightsInRange w ∧
      evaluateCandidate w board piece rot bestPred col ≠ some bestPred := by
  have hw : WeightsInRange ⟨0, 0, 0, 0⟩ := by
    unfold WeightsInRange FLT_MAX; norm_num
  obtain ⟨q, hq, hgt, _⟩ := simulatedScore_isSome hw hb piece col
  obtain ⟨nb, n, hcl, heq⟩ := evaluateCandidate_scored hb piece rot col h
  refine ⟨⟨0, 0, 0, 0⟩, ⟨0, -1, F32.fin (-FLT_MAX), ""⟩, hw, ?_⟩
  rw [heq]
  unfold simulatedScore at hq
  rw [hcl, Option.map_some', Option.some.injEq] at hq
  simp only at hq
  rw [hq, if_pos (F32.fin_lt_fin.2 hgt)]
  intro hcontra
  have := congrArg Prediction.column (Option.some.inj hcontra)
  simp only at this
  omega

/-- C24, counterexample: on the board whose only occupied cell is `(0, 0)`, the vertical
"I" in column 0 is skipped (`dropPiece` returns -4), although it is droppable to row 16
in the sense of the claim; so "skipped iff no droppable row" fails. -/
theorem skipped_with_droppable_row :
    IsBoard overhangBoard ∧ pieceVariant "I" 1 = [[1], [1], [1], [1]] ∧
    dropPiece overhangBoard (pieceVariant "I" 1) 0 = -4 ∧
    ¬ Feasible overhangBoard "I" 1 0 ∧
    Droppable overhangBoard (pieceVariant "I" 1) 0 16 ∧
    ¬ (dropPiece overhangBoard (pieceVariant "I" 1) 0 < 0 ↔
        ¬ ∃ r : Int, -4 ≤ r ∧ r ≤ 19 ∧ Droppable overhangBoard (pieceVariant "I" 1) 0 r) := by
  have hd : Droppable overhangBoard (pieceVariant "I" 1) 0 16 := by decide
  have hdrop : dropPiece overhangBoard (pieceVariant "I" 1) 0 = -4 := by decide
  refine ⟨by decide, by decide, hdrop, by decide, hd, ?_⟩
  intro hiff
  have h1 : dropPiece overhangBoard (pieceVariant "I" 1) 0 < 0 := by rw [hdrop]; decide
  exact (hiff.1 h1) ⟨16, by decide, by decide, hd⟩

/-- C24, amended: on a 10x20 board, `evaluate` skips the pair exactly when `dropPiece` is
negative, that is when the piece cannot be placed at some row of `[-h + 1, 0]` on its
way down.  A skipped pair leaves every recorded prediction unchanged, whatever the
weights; a pair that is not skipped is scored: its simulated board goes through
`clearLines` and `evaluatePosition`, and the prediction is replaced when the score is
greater.  A pair that is not skipped lands on a droppable row, and a pair without any
droppable row in `[-h, 19]` is skipped. -/
theorem evaluate_skips_iff_blocked (board : Mat) (curPiece : String) (rot c : Nat)
    (hb : IsBoard board) (hrot : rot < (getPieceShapes curPiece).length) :
    (dropPiece board (pieceVariant curPiece rot) c < 0 ↔
      ∃ r : Int, -(matRows (pieceVariant curPiece rot) : Int) ≤ r ∧ r < 0 ∧
        canPlace board (pieceVariant curPiece rot) c (r + 1) = false) ∧
    (dropPiece board (pieceVariant curPiece rot) c < 0 ↔
      ∀ (w : Weights) (bestPred : Prediction),
        evaluateCandidate w board (pieceVariant curPiece rot) rot bestPred c = some bestPred) ∧
    (0 ≤ dropPiece board (pieceVariant curPiece rot) c →
      ∃ newBoard linesCleared,
        clearLines (placePiece board (pieceVariant curPiece rot) c
            (dropPiece board (pieceVariant curPiece rot) c)) = some (newBoard, linesCleared) ∧
        ∀ (w : Weights) (bestPred : Prediction),
          evaluateCandidate w board (pieceVariant curPiece rot) rot bestPred c
            = some (if evaluatePosition w newBoard linesCleared > bestPred.score then
                { bestPred with score := evaluatePosition w newBoard linesCleared,
                                rotation := rot, column := c }
              else bestPred)) ∧
    (0 ≤ dropPiece board (pieceVariant curPiece rot) c →
      Droppable board (pieceVariant curPiece rot) c
        (dropPiece board (pieceVariant curPiece rot) c)) ∧
    ((¬ ∃ r : Int, -(matRows (pieceVariant curPiece rot) : Int) ≤ r ∧ r ≤ 19 ∧
        Droppable board (pieceVariant curPiece rot) c r) →
      dropPiece board (pieceVariant curPiece rot) c < 0) := by
  have hfill := pieceVariant_filled curPiece rot hrot
  obtain ⟨h1, h2, _, _⟩ := dropPiece_spec board (pieceVariant curPiece rot) c hfill
  refine ⟨dropPiece_neg_iff _ _ _ hfill, ?_, ?_, ?_, ?_⟩
  · constructor
    · intro h w bestPred
      unfold evaluateCandidate
      simp only [h, if_true]
    · intro h
      by_contra hge
      obtain ⟨w, bestPred, _, hne⟩ :=
        evaluateCandidate_not_skipped hb (pieceVariant curPiece rot) rot c (by omega)
      exact hne (h w bestPred)
  · intro h
    exact evaluateCandidate_scored hb (pieceVariant curPiece rot) rot c h
  · intro h
    exact droppable_of_dropPiece_nonneg h
  · intro hno
    by_contra hge
    exact hno ⟨_, h1, h2, droppable_of_dropPiece_nonneg (by omega)⟩

theorem evaluate_skips_iff_blocked_witness :
    IsBoard emptyBoard ∧ 1 < (getPieceShapes "I").length ∧
    (0 ≤ dropPiece emptyBoard (pieceVariant "I" 1) (0 : Nat)) ∧
    ((dropPiece emptyBoard (pieceVariant "I" 1) (0 : Nat) < 0 ↔
      ∃ r : Int, -(matRows (pieceVariant "I" 1) : Int) ≤ r ∧ r < 0 ∧
        canPlace emptyBoard (pieceVariant "I" 1) (0 : Nat) (r + 1) = false) ∧
    (dropPiece emptyBoard (pieceVariant "I" 1) (0 : Nat) < 0 ↔
      ∀ (w : Weights) (bestPred : Prediction),
        evaluateCandidate w emptyBoard (pieceVariant "I" 1) 1 bestPred 0 = some bestPred) ∧
    (0 ≤ dropPiece emptyBoard (pieceVariant "I" 1) (0 : Nat) →
      ∃ newBoard linesCleared,
        clearLines (placePiece emptyBoard (pieceVariant "I" 1) (0 : Nat)
            (dropPiece emptyBoard (pieceVariant "I" 1) (0 : Nat))) = some (newBoard, linesCleared) ∧
        ∀ (w : Weights) (bestPred : Prediction),
          evaluateCandidate w emptyBoard (pieceVariant "I" 1) 1 bestPred 0
            = some (if evaluatePosition w newBoard linesCleared > bestPred.score then
                { bestPred with score := evaluatePosition w newBoard linesCleared,
                                rotation := ((1 : Nat) : Int), column := ((0 : Nat) : Int) }
              else bestPred)) ∧
    (0 ≤ dropPiece emptyBoard (pieceVariant "I" 1) (0 : Nat) →
      Droppable emptyBoard (pieceVariant "I" 1) (0 : Nat)
        (dropPiece emptyBoard (pieceVariant "I" 1) (0 : Nat))) ∧
    ((¬ ∃ r : Int, -(matRows (pieceVariant "I" 1) : Int) ≤ r ∧ r ≤ 19 ∧
        Droppable emptyBoard (pieceVariant "I" 1) (0 : Nat) r) →
      dropPiece emptyBoard (pieceVariant "I" 1) (0 : Nat) < 0)) :=
  ⟨by decide, by decide, by decide,
    evaluate_skips_iff_blocked emptyBoard "I" 1 0 (by decide) (by decide)⟩

/-! ## Placing a piece -/

/-- The body of the inner loop of `placePiece`. -/
theorem cellAt_place_step {nb : Mat} (hb : IsBoard nb) (piece : Mat) (col row : Int)
    (y x : Nat) {Y X : Nat} (hY : Y < 20) (hX : X < 10) :
    cellAt (if cellAt piece y x ≠ 0 then
        (if row + y ≥ 0 ∧ row + y < 20 ∧ col + x ≥ 0 ∧ col + x < 10 then
          setCell nb (row + y).toNat (col + x).toNat 1 else nb) else nb) Y X
      = if cellAt piece y x ≠ 0 ∧ row + y = Y ∧ col + x = X then 1 else cellAt nb Y X := by
  by_cases hp : cellAt piece y x ≠ 0
  · rw [if_pos hp]
    by_cases hin : row + y ≥ 0 ∧ row + y < 20 ∧ col + x ≥ 0 ∧ col + x < 10
    · rw [if_pos hin, cellAt_setCell hb (by omega) (by omega)]
      by_cases hhit : row + y = Y ∧ col + x = X
      · rw [if_pos ⟨by omega, by omega⟩, if_pos ⟨hp, hhit⟩]
      · rw [if_neg (by omega), if_neg (by tauto)]
    · rw [if_neg hin, if_neg]
      rintro ⟨_, h1, h2⟩
      omega
  · rw [if_neg hp, if_neg (by tauto)]

theorem isBoard_place_step {nb : Mat} (hb : IsBoard nb) (piece : Mat) (col row : Int)
    (y x : Nat) :
    IsBoard (if cellAt piece y x ≠ 0 then
        (if row + y ≥ 0 ∧ row + y < 20 ∧ col + x ≥ 0 ∧ col + x < 10 then
          setCell nb (row + y).toNat (col + x).toNat 1 else nb) else nb) := by
  split
  · split
    · exact isBoard_setCell hb _ _ _
    · exact hb
  · exact hb

theorem cellAt_place_row (piece : Mat) (col row : Int) (y : Nat) (xs : List Nat)
    {nb : Mat} (hb : IsBoard nb) {Y X : Nat} (hY : Y < 20) (hX : X < 10) :
    IsBoard (xs.foldl (fun newBoard x =>
        if cellAt piece y x ≠ 0 then
          (if row + y ≥ 0 ∧ row + y < 20 ∧ col + x ≥ 0 ∧ col + x < 10 then
            setCell newBoard (row + y).toNat (col + x).toNat 1 else newBoard)
        else newBoard) nb) ∧
    cellAt (xs.foldl (fun newBoard x =>
        if cellAt piece y x ≠ 0 then
          (if row + y ≥ 0 ∧ row + y < 20 ∧ col + x ≥ 0 ∧ col + x < 10 then
            setCell newBoard (row + y).toNat (col + x).toNat 1 else newBoard)
        else newBoard) nb) Y X
      = if ∃ x ∈ xs, cellAt piece y x ≠ 0 ∧ row + y = Y ∧ col + x = X then 1
        else cellAt nb Y X := by
  induction xs generalizing nb with
  | nil => exact ⟨hb, by simp⟩
  | cons a xs ih =>
    rw [List.foldl_cons]
    obtain ⟨h1, h2⟩ := ih (isBoard_place_step hb piece col row y a)
    refine ⟨h1, ?_⟩
    rw [h2, cellAt_place_step hb piece col row y a hY hX]
    by_cases hxs : ∃ x ∈ xs, cellAt piece y x ≠ 0 ∧ row + y = Y ∧ col + x = X
    · obtain ⟨x, hx, hh⟩ := hxs
      rw [if_pos ⟨x, hx, hh⟩, if_pos ⟨x, List.mem_cons_of_mem _ hx, hh⟩]
    · rw [if_neg hxs]
      by_cases ha : cellAt piece y a ≠ 0 ∧ row + y = Y ∧ col + a = X
      · rw [if_pos ha, if_pos ⟨a, List.mem_cons_self _ _, ha⟩]
      · rw [if_neg ha, if_neg]
        rintro ⟨x, hx, hh⟩
        rcases List.mem_cons.1 hx with rfl | hx'
        · exact ha hh
        · exact hxs ⟨x, hx', hh⟩

theorem cellAt_place_rows (piece : Mat) (col row : Int) (ys xs : List Nat)
    {nb : Mat} (hb : IsBoard nb) {Y X : Nat} (hY : Y < 20) (hX : X < 10) :
    cellAt (ys.foldl (fun newBoard y => xs.foldl (fun newBoard x =>
        if cellAt piece y x ≠ 0 then
          (if row + y ≥ 0 ∧ row + y < 20 ∧ col + x ≥ 0 ∧ col + x < 10 then
            setCell newBoard (row + y).toNat (col + x).toNat 1 else newBoard)
        else newBoard) newBoard) nb) Y X
      = if ∃ y ∈ ys, ∃ x ∈ xs, cellAt piece y x ≠ 0 ∧ row + y = Y ∧ col + x = X then 1
        else cellAt nb Y X := by
  induction ys generalizing nb with
  | nil => simp
  | cons a ys ih =>
    rw [List.foldl_cons]
    obtain ⟨h1, h2⟩ := cellAt_place_row piece col row a xs hb hY hX
    rw [ih h1, h2]
    by_cases hys : ∃ y ∈ ys, ∃ x ∈ xs, cellAt piece y x ≠ 0 ∧ row + y = Y ∧ col + x = X
    · obtain ⟨y, hy, hh⟩ := hys
      rw [if_pos ⟨y, hy, hh⟩, if_pos ⟨y, List.mem_cons_of_mem _ hy, hh⟩]
    · rw [if_neg hys]
      by_cases ha : ∃ x ∈ xs, cellAt piece a x ≠ 0 ∧ row + a = Y ∧ col + x = X
      · rw [if_pos ha, if_pos ⟨a, List.mem_cons_self _ _, ha⟩]
      · rw [if_neg ha, if_neg]
        rintro ⟨y, hy, hh⟩
        rcases List.mem_cons.1 hy with rfl | hy'
        · exact ha hh
        · exact hys ⟨y, hy', hh⟩

/-- The cells of the board returned by `placePiece`. -/
theorem cellAt_placePiece {board : Mat} (hb : IsBoard board) (piece : Mat) (col row : Int)
    {Y X : Nat} (hY : Y < 20) (hX : X < 10) :
    cellAt (placePiece board piece col row) Y X
      = if PieceCovers piece col row Y X then 1 else cellAt board Y X := by
  unfold placePiece
  rw [cellAt_place_rows piece col row _ _ hb hY hX]
  have : (∃ y ∈ List.range (matRows piece), ∃ x ∈ List.range (matCols piece),
        cellAt piece y x ≠ 0 ∧ row + y = Y ∧ col + x = X) ↔ PieceCovers piece col row Y X := by
    unfold PieceCovers
    simp only [List.mem_range]
  by_cases h : PieceCovers piece col row Y X
  · rw [if_pos h, if_pos (this.2 h)]
  · rw [if_neg h, if_neg (fun h' => h (this.1 h'))]

/-! ## Counting occupied cells -/

theorem length_filter_range (p : Nat → Bool) (n : Nat) :
    ((List.range n).filter p).length = ((Finset.range n).filter fun x => p x = true).card := by
  induction n with
  | zero => simp
  | succ n ih =>
    rw [List.range_succ, List.filter_append, List.length_append, ih, Finset.range_succ,
      Finset.filter_insert]
    by_cases h : p n = true
    · rw [if_pos h, Finset.card_insert_of_not_mem (by simp)]
      simp [h]
    · rw [if_neg h]
      simp [h]

theorem sum_map_eq_sum_range {α : Type} (f : α → Nat) (d : α) (l : List α) :
    (l.map f).sum = ∑ i in Finset.range l.length, f (l.getD i d) := by
  induction l with
  | nil => simp
  | cons a l ih =>
    rw [List.map_cons, List.sum_cons, List.length_cons, Finset.sum_range_succ', ih]
    simp [Nat.add_comm]

theorem occupiedCells_eq_card {b : Mat} (hb : IsBoard b) :
    occupiedCells b = (occupiedSet b).card := by
  unfold occupiedCells occupiedSet
  rw [sum_map_eq_sum_range rowOccupied [] b, hb.1, Finset.card_filter, Finset.sum_product]
  apply Finset.sum_congr rfl
  intro y _
  unfold rowOccupied
  rw [length_filter_range, Finset.card_filter]
  apply Finset.sum_congr rfl
  intro x _
  simp [cellAt]

theorem filledSet_card (curPiece : String) (rot : Nat)
    (hrot : rot < (getPieceShapes curPiece).length) :
    (filledSet (pieceVariant curPiece rot)).card = 4 := by
  have hall : ∀ v ∈ getPieceShapes curPiece, (filledSet v).card = 4 := by
    unfold getPieceShapes
    split_ifs <;> decide
  unfold pieceVariant
  rw [List.getD_eq_getElem _ _ hrot]
  exact hall _ (List.getElem_mem hrot)

/-- At a landing row `>= 0` the covered cells are the filled cells shifted by the landing
position, they were empty, and the board gains one occupied cell for each of them. -/
theorem occupiedCells_placePiece {board piece : Mat} (hb : IsBoard board) (c : Nat)
    (h : 0 ≤ dropPiece board piece c) :
    occupiedCells (placePiece board piece c (dropPiece board piece c))
      = occupiedCells board + (filledSet piece).card := by
  obtain ⟨hcan, _⟩ := dropPiece_nonneg_canPlace h
  rw [canPlace_eq_true_iff] at hcan
  generalize dropPiece board piece c = r at h hcan ⊢
  have hb' := isBoard_placePiece hb piece c r
  rw [occupiedCells_eq_card hb', occupiedCells_eq_card hb]
  have himg : (filledSet piece).card
      = ((filledSet piece).image fun q => (r.toNat + q.1, c + q.2)).card := by
    rw [Finset.card_image_of_injective]
    intro q1 q2 heq
    simp only [Prod.mk.injEq] at heq
    exact Prod.ext (by omega) (by omega)
  rw [himg, ← Finset.card_union_of_disjoint]
  · congr 1
    ext ⟨Y, X⟩
    simp only [occupiedSet, filledSet, Finset.mem_filter, Finset.mem_product, Finset.mem_range,
      Finset.mem_union, Finset.mem_image, Prod.exists, Prod.mk.injEq]
    constructor
    · rintro ⟨⟨hY, hX⟩, hocc⟩
      rw [cellAt_placePiece hb piece c r hY hX] at hocc
      by_cases hcov : PieceCovers piece c r Y X
      · right
        obtain ⟨y, hy, x, hx, hp, e1, e2⟩ := hcov
        exact ⟨y, x, ⟨⟨hy, hx⟩, hp⟩, by omega, by omega⟩
      · rw [if_neg hcov] at hocc
        exact Or.inl ⟨⟨hY, hX⟩, hocc⟩
    · rintro (⟨⟨hY, hX⟩, hocc⟩ | ⟨y, x, ⟨⟨hy, hx⟩, hp⟩, e1, e2⟩)
      · refine ⟨⟨hY, hX⟩, ?_⟩
        rw [cellAt_placePiece hb piece c r hY hX]
        split
        · decide
        · exact hocc
      · obtain ⟨a1, a2, a3, a4⟩ := hcan y x hy hx hp
        have hY : Y < 20 := by omega
        have hX : X < 10 := by omega
        refine ⟨⟨hY, hX⟩, ?_⟩
        rw [cellAt_placePiece hb piece c r hY hX, if_pos ⟨y, hy, x, hx, hp, by omega, by omega⟩]
        decide
  · rw [Finset.disjoint_left]
    rintro ⟨Y, X⟩ hocc himg'
    simp only [occupiedSet, filledSet, Finset.mem_filter, Finset.mem_product, Finset.mem_range,
      Finset.mem_image, Prod.exists, Prod.mk.injEq] at hocc himg'
    obtain ⟨y, x, ⟨⟨hy, hx⟩, hp⟩, e1, e2⟩ := himg'
    obtain ⟨a1, a2, a3, a4⟩ := hcan y x hy hx hp
    have hempty := a4 (by omega)
    rw [show (r + (y : Int)).toNat = Y by omega, show ((c : Int) + (x : Int)).toNat = X by omega]
      at hempty
    exact hocc.2 hempty

/-- C27: for each of the seven identifiers and every rotation index below the variant
count, `OverlayRenderer::getPieceShape` returns the grid that is element `r` of
`HeuristicEngine::getPieceShapes`. -/
theorem getPieceShape_eq_getPieceShapes :
    ∀ p ∈ pieceIdentifiers, ∀ r < (getPieceShapes p).length,
      getPieceShape p (r : Nat) = some ((getPieceShapes p).getD r []) ∧
      (getPieceShapes p).get? r = some ((getPieceShapes p).getD r []) := by
  decide

theorem getPieceShape_eq_getPieceShapes_witness :
    "L" ∈ pieceIdentifiers ∧ 3 < (getPieceShapes "L").length ∧
    (getPieceShape "L" ((3 : Nat) : Int) = some ((getPieceShapes "L").getD 3 []) ∧
      (getPieceShapes "L").get? 3 = some ((getPieceShapes "L").getD 3 [])) :=
  ⟨by decide, by decide, getPieceShape_eq_getPieceShapes "L" (by decide) 3 (by decide)⟩

/-! ## Termination and idempotence of `clearLines` -/

theorem countP_rowFull_eraseIdx (b : Mat) (y : Nat) (hy : y < b.length)
    (hfull : rowFull (b.getD y []) = true) :
    (b.eraseIdx y).countP rowFull + 1 = b.countP rowFull := by
  have hsplit : b = b.take y ++ (b.getD y [] :: b.drop (y + 1)) := by
    rw [List.getD_eq_getElem _ _ hy, ← List.drop_eq_getElem_cons hy, List.take_append_drop]
  rw [List.eraseIdx_eq_take_drop_succ]
  conv_rhs => rw [hsplit]
  rw [List.countP_append, List.countP_append, List.countP_cons, if_pos hfull]
  omega

/-- One removal in `clearLines` takes away exactly one fully occupied row. -/
theorem removal_decreases_full_rows {b : Mat} (hb : IsBoard b) {y : Nat} (hy : y < 20)
    (hfull : lineFull b y = true) :
    (clearTop (shiftDown b y)).countP rowFull + 1 = b.countP rowFull := by
  rw [clearTop_shiftDown hb hy, List.countP_cons, rowFull_zeroRow]
  simp only [Bool.false_eq_true, if_false, Nat.add_zero]
  exact countP_rowFull_eraseIdx b y (by rw [hb.1]; exact hy) (by rw [← lineFull_eq_rowFull]; exact hfull)

/-- C28: on every 10x20 board `clearLines` terminates (the loop ends within its fuel and
more fuel does not change the result) with a count between 0 and 20, and a removal at a
full row strictly decreases the number of fully occupied rows. -/
theorem clearLines_terminates (b : Mat) (hb : IsBoard b) :
    (∃ nb n, clearLines b = some (nb, n) ∧ 0 ≤ n ∧ n ≤ 20 ∧
      ∀ fuel, clearLinesFuel ≤ fuel → clearLinesLoop fuel 19 b 0 = some (nb, n)) ∧
    ∀ y, y < 20 → lineFull b y = true →
      (clearTop (shiftDown b y)).countP rowFull < b.countP rowFull := by
  constructor
  · refine ⟨_, _, clearLines_eq hb, Int.natCast_nonneg _, ?_, ?_⟩
    · have : b.countP rowFull ≤ 20 := by rw [← hb.1]; exact List.countP_le_length _
      exact_mod_cast this
    · intro fuel hfuel
      have hc : b.countP rowFull ≤ b.length := List.countP_le_length _
      have hlen := hb.1
      have h := clearLinesLoop_spec fuel b [] 0
        (by unfold clearLinesFuel at hfuel; omega) (by simpa using hb)
      rw [hlen] at h
      simpa using h
  · intro y hy hfull
    have := removal_decreases_full_rows hb hy hfull
    omega

theorem clearLines_terminates_witness :
    IsBoard fullBottomBoard ∧
    ((∃ nb n, clearLines fullBottomBoard = some (nb, n) ∧ 0 ≤ n ∧ n ≤ 20 ∧
      ∀ fuel, clearLinesFuel ≤ fuel → clearLinesLoop fuel 19 fullBottomBoard 0 = some (nb, n)) ∧
    ∀ y, y < 20 → lineFull fullBottomBoard y = true →
      (clearTop (shiftDown fullBottomBoard y)).countP rowFull
        < fullBottomBoard.countP rowFull) :=
  ⟨by decide, clearLines_terminates fullBottomBoard (by decide)⟩

/-- C29: on every 10x20 board the board left by `clearLines` has no fully occupied row,
and `clearLines` applied to it returns 0 and leaves it unchanged. -/
theorem clearLines_idempotent (b : Mat) (hb : IsBoard b) :
    ∃ nb n, clearLines b = some (nb, n) ∧ (∀ r ∈ nb, rowFull r = false) ∧
      (∀ y, y < 20 → lineFull nb y = false) ∧ clearLines nb = some (nb, 0) := by
  have hnb := isBoard_cleared hb
  have hzero := countP_rowFull_cleared b
  have hall : ∀ r ∈ List.replicate (b.countP rowFull) zeroRow
      ++ b.filter (fun r => !rowFull r), rowFull r = false := by
    intro r hr
    have := (List.countP_eq_zero.1 hzero) r hr
    simpa using this
  refine ⟨_, _, clearLines_eq hb, hall, ?_, ?_⟩
  · intro y hy
    rw [lineFull_eq_rowFull]
    apply hall
    rw [List.getD_eq_getElem _ _ (by rw [hnb.1]; exact hy)]
    exact List.getElem_mem _
  · rw [clearLines_eq hnb, hzero]
    congr 2
    simp only [List.replicate_zero, List.nil_append]
    rw [List.filter_eq_self]
    intro r hr
    rw [hall r hr]; rfl

theorem clearLines_idempotent_witness :
    IsBoard fullBottomBoard ∧
    ∃ nb n, clearLines fullBottomBoard = some (nb, n) ∧ (∀ r ∈ nb, rowFull r = false) ∧
      (∀ y, y < 20 → lineFull nb y = false) ∧ clearLines nb = some (nb, 0) :=
  ⟨by decide, clearLines_idempotent fullBottomBoard (by decide)⟩

/-- C30: for every string that is not one of the seven identifiers, `getPieceShapes`
returns the empty list and `evaluate` returns, for every board, a prediction with the
sentinel score `-FLT_MAX` and `piece_type` equal to the input string. -/
theorem evaluate_unknown_piece (curPiece : String) (h : curPiece ∉ pieceIdentifiers) :
    getPieceShapes curPiece = [] ∧
    ∀ (w : Weights) (rotation0 column0 : Int) (board : Mat),
      ∃ p, evaluate w rotation0 column0 board curPiece = some p ∧
        p.score = F32.fin (-FLT_MAX) ∧ p.piece_type = curPiece := by
  have hs : getPieceShapes curPiece = [] := by
    unfold pieceIdentifiers at h
    simp only [List.mem_cons, List.mem_singleton, List.not_mem_nil, or_false, not_or] at h
    obtain ⟨h1, h2, h3, h4, h5, h6, h7⟩ := h
    unfold getPieceShapes
    rw [if_neg h1, if_neg h2, if_neg h3, if_neg h4, if_neg h5, if_neg h6, if_neg h7]
  refine ⟨hs, ?_⟩
  intro w rotation0 column0 board
  refine ⟨{ rotation := rotation0, column := column0, score := F32.fin (-FLT_MAX),
            piece_type := curPiece }, ?_, rfl, rfl⟩
  unfold evaluate
  simp only [hs]
  rfl

theorem evaluate_unknown_piece_witness :
    "i" ∉ pieceIdentifiers ∧ getPieceShapes "i" = [] ∧
    ∀ (w : Weights) (rotation0 column0 : Int) (board : Mat),
      ∃ p, evaluate w rotation0 column0 board "i" = some p ∧
        p.score = F32.fin (-FLT_MAX) ∧ p.piece_type = "i" :=
  ⟨by decide, evaluate_unknown_piece "i" (by decide)⟩

/-! ## Parsing what was written -/

theorem digitChar_facts : ∀ d < 10, (digitChar d).isDigit = true ∧ (digitChar d).toNat - 48 = d ∧
    digitChar d ≠ quoteChar ∧ isspace (digitChar d) = false ∧ digitChar d ≠ '-' ∧
    digitChar d ≠ '+' := by
  decide

/-- The characters of `natDigits n` are decimal digits, at least one, with value `n`. -/
theorem natDigits_spec (n : Nat) :
    natDigits n ≠ [] ∧ (∀ c ∈ natDigits n, ∃ d < 10, c = digitChar d) ∧
    parseDigits (natDigits n) = n := by
  unfold natDigits
  by_cases h0 : n = 0
  · subst h0
    refine ⟨by simp, ?_, by decide⟩
    intro c hc
    exact ⟨0, by omega, by simpa using hc⟩
  · rw [if_neg h0]
    refine ⟨?_, ?_, ?_⟩
    · have := (Nat.digits_ne_nil_iff_ne_zero (b := 10)).2 h0
      simpa using this
    · intro c hc
      simp only [List.mem_map, List.mem_reverse] at hc
      obtain ⟨d, hd, rfl⟩ := hc
      exact ⟨d, Nat.digits_lt_base (by omega) hd, rfl⟩
    · have key : ∀ L : List Nat, (∀ d ∈ L, d < 10) →
          parseDigits (L.reverse.map digitChar) = Nat.ofDigits 10 L := by
        intro L
        induction L with
        | nil => intro _; rfl
        | cons d L ih =>
          intro hL
          have hd := (digitChar_facts d (hL d (List.mem_cons_self _ _))).2.1
          have ih' := ih (fun d' hd' => hL d' (List.mem_cons_of_mem _ hd'))
          unfold parseDigits at ih' ⊢
          rw [List.reverse_cons, List.map_append, List.foldl_append, ih', Nat.ofDigits_cons]
          simp only [List.map_cons, List.map_nil, List.foldl_cons, List.foldl_nil, hd]
          omega
      rw [key _ (fun d hd => Nat.digits_lt_base (by omega) hd), Nat.ofDigits_digits]

theorem takeWhile_digits (ds : List Char) (c : Char) (rest : List Char)
    (hds : ∀ a ∈ ds, a.isDigit = true) (hc : c.isDigit = false) :
    (ds ++ c :: rest).takeWhile Char.isDigit = ds := by
  induction ds with
  | nil => simp [List.takeWhile, hc]
  | cons a ds ih =>
    rw [List.cons_append, List.takeWhile_cons, if_pos (hds a (List.mem_cons_self _ _)),
      ih (fun b hb => hds b (List.mem_cons_of_mem _ hb))]

/-- The value written by `formatInt` is read back by `stoi`, whatever non-digit follows. -/
theorem stoi_formatInt (v : Int) (hlo : INT_MIN ≤ v) (hhi : v ≤ INT_MAX) (c : Char)
    (rest : List Char) (hc : c.isDigit = false) :
    stoi (formatInt v ++ c :: rest) = some v := by
  by_cases hneg : v < 0
  · obtain ⟨hne, hall, hval⟩ := natDigits_spec (-v).toNat
    have hdig : ∀ a ∈ natDigits (-v).toNat, a.isDigit = true := by
      intro a ha
      obtain ⟨d, hd, rfl⟩ := hall a ha
      exact (digitChar_facts d hd).1
    have htw := takeWhile_digits _ c rest hdig hc
    unfold formatInt stoi
    rw [if_pos hneg]
    have hsp : isspace '-' = false := by decide
    simp only [List.cons_append, List.dropWhile_cons, hsp, Bool.false_eq_true, if_false,
      List.head?_cons, true_or, if_true, List.tail_cons, htw, hval]
    rw [if_neg hne, if_neg]
    · congr 1
      omega
    · rw [Int.toNat_of_nonneg (by omega)]
      unfold INT_MIN INT_MAX at *
      omega
  · obtain ⟨hne, hall, hval⟩ := natDigits_spec v.toNat
    have hdig : ∀ a ∈ natDigits v.toNat, a.isDigit = true := by
      intro a ha
      obtain ⟨d, hd, rfl⟩ := hall a ha
      exact (digitChar_facts d hd).1
    have htw := takeWhile_digits _ c rest hdig hc
    unfold formatInt stoi
    rw [if_neg hneg]
    obtain ⟨a, as, has⟩ := List.exists_cons_of_ne_nil hne
    obtain ⟨d, hd, had⟩ := hall a (by rw [has]; exact List.mem_cons_self _ _)
    obtain ⟨_, _, _, hsp, hm, hp⟩ := digitChar_facts d hd
    rw [← had] at hsp hm hp
    rw [has] at htw hval ⊢
    simp only [List.cons_append] at htw
    simp only [List.cons_append, List.dropWhile_cons, hsp, Bool.false_eq_true, if_false,
      List.head?_cons, Option.some.injEq, hm, hp, or_self, htw, hval]
    rw [if_neg (by simp), if_neg]
    · congr 1
      omega
    · rw [Int.toNat_of_nonneg (by omega)]
      unfold INT_MIN INT_MAX at *
      omega


theorem startsWith_iff (t p : List Char) : startsWith t p = true ↔ ∃ post, t = p ++ post := by
  induction p generalizing t with
  | nil => simp [startsWith]
  | cons a p ih =>
    cases t with
    | nil => simp [startsWith]
    | cons c cs =>
      simp only [startsWith, Bool.and_eq_true, decide_eq_true_eq, ih, List.cons_append,
        List.cons.injEq]
      constructor
      · rintro ⟨h1, post, h2⟩; exact ⟨post, h1, h2⟩
      · rintro ⟨post, h1, h2⟩; exact ⟨h1, post, h2⟩

/-- `find` gives `npos` exactly when the pattern does not occur in the text. -/
theorem findSubstr_eq_none_iff (t p : List Char) : findSubstr t p = none ↔ ¬ Contains t p := by
  induction t with
  | nil =>
    unfold findSubstr Contains
    by_cases hp : p = []
    · subst hp
      simp
    · rw [if_neg hp]
      simp only [true_iff]
      rintro ⟨pre, post, h⟩
      have := congrArg List.length h
      simp only [List.length_nil, List.length_append] at this
      exact hp (List.length_eq_zero.1 (by omega))
  | cons c cs ih =>
    unfold findSubstr
    by_cases hs : startsWith (c :: cs) p = true
    · rw [if_pos hs]
      simp only [false_iff, not_not, reduceCtorEq]
      obtain ⟨post, h⟩ := (startsWith_iff _ _).1 hs
      exact ⟨[], post, by simpa using h⟩
    · rw [if_neg hs, Option.map_eq_none', ih]
      constructor
      · rintro hn ⟨pre, post, h⟩
        cases pre with
        | nil => exact hs ((startsWith_iff _ _).2 ⟨post, by simpa using h⟩)
        | cons a pre =>
          simp only [List.cons_append, List.cons.injEq] at h
          exact hn ⟨pre, post, h.2⟩
      · rintro hn ⟨pre, post, h⟩
        exact hn ⟨c :: pre, post, by simp [h]⟩

theorem findSubstr_skip_char (c : Char) (cs : List Char) (k : Char) (hc : c ≠ quoteChar) :
    findSubstr (c :: cs) (keyPattern k) = (findSubstr cs (keyPattern k)).map (· + 1) := by
  rw [findSubstr, if_neg]
  simp [keyPattern, startsWith, hc]

theorem findSubstr_skip_list (pre rest : List Char) (k : Char)
    (hpre : ∀ c ∈ pre, c ≠ quoteChar) :
    findSubstr (pre ++ rest) (keyPattern k)
      = (findSubstr rest (keyPattern k)).map (· + pre.length) := by
  induction pre with
  | nil => simp
  | cons a pre ih =>
    rw [List.cons_append, findSubstr_skip_char _ _ _ (hpre a (List.mem_cons_self _ _)),
      ih (fun c hc => hpre c (List.mem_cons_of_mem _ hc)), Option.map_map]
    congr 1

theorem findSubstr_skip_key (k k' : Char) (rest : List Char) (hk : k ≠ k')
    (hq : k ≠ quoteChar) (hcolon : k' ≠ ':') :
    findSubstr (keyPattern k ++ rest) (keyPattern k')
      = (findSubstr rest (keyPattern k')).map (· + 4) := by
  have hcq : ':' ≠ quoteChar := by decide
  have hcolon' : ¬ (':' = k') := fun h => hcolon h.symm
  show findSubstr (quoteChar :: k :: quoteChar :: ':' :: rest) (keyPattern k') = _
  rw [findSubstr, if_neg (by simp [keyPattern, startsWith, hk]),
    findSubstr_skip_char _ _ _ hq, findSubstr,
    if_neg (by simp [keyPattern, startsWith, hcolon']), findSubstr_skip_char _ _ _ hcq,
    Option.map_map, Option.map_map, Option.map_map]
  rfl

theorem findSubstr_hit (k : Char) (rest : List Char) :
    findSubstr (keyPattern k ++ rest) (keyPattern k) = some 0 := by
  simp [keyPattern, findSubstr, startsWith]

theorem formatInt_no_quote (v : Int) : ∀ c ∈ formatInt v, c ≠ quoteChar := by
  have hd : ∀ n : Nat, ∀ c ∈ natDigits n, c ≠ quoteChar := by
    intro n c hc
    obtain ⟨d, hd, rfl⟩ := (natDigits_spec n).2.1 c hc
    exact (digitChar_facts d hd).2.2.1
  intro c hc
  unfold formatInt at hc
  split at hc
  · rcases List.mem_cons.1 hc with rfl | h
    · decide
    · exact hd _ c h
  · exact hd _ c hc


/-- Reading the text that `saveToFile` writes gives back the four fields. -/
theorem loadFromFile_saveText (roi : Rect) (hr : roi.InRange) (m_roi : Rect) :
    loadFromFile m_roi (some (saveText roi)) = (true, roi) := by
  obtain ⟨⟨hx1, hx2⟩, ⟨hy1, hy2⟩, ⟨hw1, hw2⟩, ⟨hh1, hh2⟩⟩ := hr
  have hlb : Char.ofNat 123 ≠ quoteChar := by decide
  have hcomma : ',' ≠ quoteChar := by decide
  have hcd : (',' : Char).isDigit = false := by decide
  have hrd : (Char.ofNat 125).isDigit = false := by decide
  have hT : saveText roi = Char.ofNat 123 :: (keyPattern 'x' ++ (formatInt roi.x ++ ',' ::
      (keyPattern 'y' ++ (formatInt roi.y ++ ',' :: (keyPattern 'w' ++ (formatInt roi.width
        ++ ',' :: (keyPattern 'h' ++ (formatInt roi.height ++ [Char.ofNat 125])))))))) := by
    simp [saveText]
  have fx : findSubstr (saveText roi) (keyPattern 'x') = some 1 := by
    rw [hT, findSubstr_skip_char _ _ _ hlb, findSubstr_hit]
    rfl
  have fy : findSubstr (saveText roi) (keyPattern 'y')
      = some (0 + 1 + (formatInt roi.x).length + 4 + 1) := by
    rw [hT, findSubstr_skip_char _ _ _ hlb,
      findSubstr_skip_key 'x' 'y' _ (by decide) (by decide) (by decide),
      findSubstr_skip_list _ _ _ (formatInt_no_quote _), findSubstr_skip_char _ _ _ hcomma,
      findSubstr_hit]
    rfl
  have fw : findSubstr (saveText roi) (keyPattern 'w')
      = some (0 + 1 + (formatInt roi.y).length + 4 + 1 + (formatInt roi.x).length + 4 + 1) := by
    rw [hT, findSubstr_skip_char _ _ _ hlb,
      findSubstr_skip_key 'x' 'w' _ (by decide) (by decide) (by decide),
      findSubstr_skip_list _ _ _ (formatInt_no_quote _), findSubstr_skip_char _ _ _ hcomma,
      findSubstr_skip_key 'y' 'w' _ (by decide) (by decide) (by decide),
      findSubstr_skip_list _ _ _ (formatInt_no_quote _), findSubstr_skip_char _ _ _ hcomma,
      findSubstr_hit]
    rfl
  have fh : findSubstr (saveText roi) (keyPattern 'h')
      = some (0 + 1 + (formatInt roi.width).length + 4 + 1 + (formatInt roi.y).length + 4 + 1
          + (formatInt roi.x).length + 4 + 1) := by
    rw [hT, findSubstr_skip_char _ _ _ hlb,
      findSubstr_skip_key 'x' 'h' _ (by decide) (by decide) (by decide),
      findSubstr_skip_list _ _ _ (formatInt_no_quote _), findSubstr_skip_char _ _ _ hcomma,
      findSubstr_skip_key 'y' 'h' _ (by decide) (by decide) (by decide),
      findSubstr_skip_list _ _ _ (formatInt_no_quote _), findSubstr_skip_char _ _ _ hcomma,
      findSubstr_skip_key 'w' 'h' _ (by decide) (by decide) (by decide),
      findSubstr_skip_list _ _ _ (formatInt_no_quote _), findSubstr_skip_char _ _ _ hcomma,
      findSubstr_hit]
    rfl
  have dx : (saveText roi).drop (1 + 4) = formatInt roi.x ++ ',' ::
      (keyPattern 'y' ++ (formatInt roi.y ++ ',' :: (keyPattern 'w' ++ (formatInt roi.width
        ++ ',' :: (keyPattern 'h' ++ (formatInt roi.height ++ [Char.ofNat 125])))))) := by
    rw [hT]
    rfl
  have dy : (saveText roi).drop (0 + 1 + (formatInt roi.x).length + 4 + 1 + 4)
      = formatInt roi.y ++ ',' :: (keyPattern 'w' ++ (formatInt roi.width
        ++ ',' :: (keyPattern 'h' ++ (formatInt roi.height ++ [Char.ofNat 125])))) := by
    have e : saveText roi = (Char.ofNat 123 :: (keyPattern 'x' ++ (formatInt roi.x ++ ',' ::
        keyPattern 'y'))) ++ (formatInt roi.y ++ ',' :: (keyPattern 'w' ++ (formatInt roi.width
        ++ ',' :: (keyPattern 'h' ++ (formatInt roi.height ++ [Char.ofNat 125]))))) := by
      rw [hT]; simp
    rw [e]
    exact List.drop_left' (by simp [keyPattern]; omega)
  have dw : (saveText roi).drop (0 + 1 + (formatInt roi.y).length + 4 + 1
        + (formatInt roi.x).length + 4 + 1 + 4)
      = formatInt roi.width ++ ',' :: (keyPattern 'h' ++ (formatInt roi.height
          ++ [Char.ofNat 125])) := by
    have e : saveText roi = (Char.ofNat 123 :: (keyPattern 'x' ++ (formatInt roi.x ++ ',' ::
        (keyPattern 'y' ++ (formatInt roi.y ++ ',' :: keyPattern 'w'))))) ++
        (formatInt roi.width ++ ',' :: (keyPattern 'h' ++ (formatInt roi.height
          ++ [Char.ofNat 125]))) := by
      rw [hT]; simp
    rw [e]
    exact List.drop_left' (by simp [keyPattern]; omega)
  have dh : (saveText roi).drop (0 + 1 + (formatInt roi.width).length + 4 + 1
        + (formatInt roi.y).length + 4 + 1 + (formatInt roi.x).length + 4 + 1 + 4)
      = formatInt roi.height ++ [Char.ofNat 125] := by
    have e : saveText roi = (Char.ofNat 123 :: (keyPattern 'x' ++ (formatInt roi.x ++ ',' ::
        (keyPattern 'y' ++ (formatInt roi.y ++ ',' :: (keyPattern 'w' ++ (formatInt roi.width
          ++ ',' :: keyPattern 'h'))))))) ++ (formatInt roi.height ++ [Char.ofNat 125]) := by
      rw [hT]; simp
    rw [e]
    exact List.drop_left' (by simp [keyPattern]; omega)
  unfold loadFromFile
  simp only [fx, fy, fw, fh, dx, dy, dw, dh, stoi_formatInt _ hx1 hx2 _ _ hcd,
    stoi_formatInt _ hy1 hy2 _ _ hcd, stoi_formatInt _ hw1 hw2 _ _ hcd,
    stoi_formatInt _ hh1 hh2 _ _ hrd]

/-! ## The buffer pool -/

theorem copyRows_firstRows {dst mapped : Mat} {h w : Nat} (hd : IsImage dst h w)
    (hm : MappedCovers mapped h w) (n : Nat) (hn : n ≤ h) :
    (List.range n).foldlM (fun d y =>
      if y < d.length ∧ 4 * w ≤ (d.getD y []).length ∧
          y < mapped.length ∧ 4 * w ≤ (mapped.getD y []).length then
        some (d.set y ((mapped.getD y []).take (4 * w) ++ (d.getD y []).drop (4 * w)))
      else none) dst
      = some ((List.range n).map (fun y => (mapped.getD y []).take (4 * w)) ++ dst.drop n) := by
  induction n with
  | zero => simp
  | succ n ih =>
    have hlt : n < dst.length := by rw [hd.1]; omega
    have hrow : (dst.getD n []).length = 4 * w := by
      rw [List.getD_eq_getElem _ _ hlt]; exact hd.2 _ (List.getElem_mem _)
    have hlen : ((List.range n).map (fun y => (mapped.getD y []).take (4 * w))).length = n := by
      simp
    have hget : (List.map (fun y => (mapped.getD y []).take (4 * w)) (List.range n)
        ++ dst.drop n).getD n [] = dst.getD n [] := by
      rw [List.getD_eq_getElem?_getD, List.getElem?_append_right (by rw [hlen]), hlen,
        Nat.sub_self, List.getElem?_drop, List.getD_eq_getElem?_getD]
      rfl
    obtain ⟨hm1, hm2⟩ := hm n (by omega)
    rw [List.range_succ, List.foldlM_append, ih (by omega)]
    simp only [Option.bind_eq_bind, Option.some_bind, List.foldlM_cons, List.foldlM_nil, hget,
      hrow, List.length_append, hlen, List.length_drop]
    rw [if_pos ⟨by omega, le_refl _, hm1, hm2⟩]
    simp only [Option.some_bind, Option.pure_def, Option.some.injEq]
    rw [List.set_append_right _ _ (by rw [hlen]), hlen, Nat.sub_self,
      List.drop_eq_getElem_cons hlt, List.set_cons_zero, List.map_append, List.append_assoc]
    congr 1
    simp only [List.map_cons, List.map_nil, List.singleton_append, List.cons.injEq, and_true]
    rw [List.drop_of_length_le (by omega), List.append_nil]

/-- With a buffer of the size of the frame, the copy loop ends and leaves the pixels of
the frame in the buffer. -/
theorem copyRows_eq {dst mapped : Mat} {h w : Nat} (hd : IsImage dst h w)
    (hm : MappedCovers mapped h w) :
    copyRows dst mapped h w = some (capturedImage mapped h w) := by
  unfold copyRows capturedImage
  rw [copyRows_firstRows hd hm h (le_refl _), List.drop_of_length_le (by rw [hd.1]),
    List.append_nil]

theorem isImage_capturedImage {mapped : Mat} {h w : Nat} (hm : MappedCovers mapped h w) :
    IsImage (capturedImage mapped h w) h w := by
  unfold capturedImage
  refine ⟨by simp, ?_⟩
  intro r hr
  simp only [List.mem_map, List.mem_range] at hr
  obtain ⟨y, hy, rfl⟩ := hr
  rw [List.length_take]
  have := (hm y hy).2
  omega

/-- A call in which every step succeeds: the frame is copied into `pool_[pool_idx_]`, the
index advances, and the new contents of the buffer are returned. -/
theorem grabAcquired_success (s : FrameGrabber) (calls : List ApiCall) (e : GrabEnv)
    (hq : FAILED e.queryTexture = false) (hidx : s.pool_idx_ < s.pool_.length)
    (hc : FAILED e.createStaging = false) (hmap : SUCCEEDED e.map = true)
    (hd : IsImage (s.pool_.getD s.pool_idx_ []) e.descHeight e.descWidth)
    (hm : MappedCovers e.mapped e.descHeight e.descWidth) :
    grabAcquired s calls e = some (capturedImage e.mapped e.descHeight e.descWidth,
      { s with pool_idx_ := (s.pool_idx_ + 1) % s.pool_.length,
               pool_ := s.pool_.set s.pool_idx_
                 (capturedImage e.mapped e.descHeight e.descWidth) },
      calls ++ [ApiCall.QueryTexture, ApiCall.ReleaseDesktopResource, ApiCall.GetTextureDesc,
        ApiCall.CreateTexture2D, ApiCall.CopyResource, ApiCall.Map, ApiCall.Unmap,
        ApiCall.ReleaseStagingTexture, ApiCall.ReleaseAcquiredImage, ApiCall.ReleaseFrame]) := by
  unfold grabAcquired
  simp only [hq, hc, hmap, Bool.false_eq_true, if_false, hidx, if_true, copyRows_eq hd hm]


/-- After a device result `grab` continues from the re-initialised state. -/
theorem grab_recovery_eq (s : FrameGrabber) (e : GrabEnv) (hinit : s.initialized_ = true)
    (hdev : DeviceInvalidated e.acquire) :
    grab s e =
      if !(reinitResult s e).1 then
        some ([], (reinitResult s e).2.1, [ApiCall.AcquireNextFrame]
          ++ (releaseCalls (wait_for_next_frame s e.now) ++ (reinitResult s e).2.2))
      else if FAILED e.acquireRetry then
        some ([], (reinitResult s e).2.1, [ApiCall.AcquireNextFrame]
          ++ (releaseCalls (wait_for_next_frame s e.now) ++ (reinitResult s e).2.2)
          ++ [ApiCall.AcquireNextFrame])
      else
        grabAcquired (reinitResult s e).2.1 ([ApiCall.AcquireNextFrame]
          ++ (releaseCalls (wait_for_next_frame s e.now) ++ (reinitResult s e).2.2)
          ++ [ApiCall.AcquireNextFrame]) e := by
  have hf := failed_of_deviceInvalidated hdev
  unfold grab reinitResult
  simp only [hinit, hf, recover_from_error_device _ _ _ hdev]
  rfl

theorem isImage_allocImage (h w : Nat) (bytes : Mat) : IsImage (allocImage h w bytes) h w := by
  unfold IsImage allocImage
  refine ⟨by simp, ?_⟩
  intro r hr
  obtain ⟨y, _, rfl⟩ := List.mem_map.1 hr
  simp

/-- C21, counterexample: with three buffers and index 1, a call whose first acquisition
reports lost access and whose retry times out returns no frame, yet the index is 0 and
the pool has been allocated anew: its three buffers hold what the allocation found
(here the byte 205), not the earlier contents. -/
theorem grab_recovery_resets_pool :
    SessionReady sampleGrabberAtOne ∧ sampleGrabberAtOne.pool_.length = 3 ∧
    sampleGrabberAtOne.pool_idx_ = 1 ∧
    (grab sampleGrabberAtOne accessLostEnv).map (fun r => (r.1, r.2.1.pool_idx_, r.2.1.pool_))
      = some ([], 0, List.replicate 3 [[205, 205, 205, 205, 205, 205, 205, 205]]) ∧
    sampleGrabberAtOne.pool_ ≠ List.replicate 3 [[205, 205, 205, 205, 205, 205, 205, 205]] ∧
    ¬ ∃ s' calls, grab sampleGrabberAtOne accessLostEnv = some ([], s', calls) ∧
        s'.pool_ = sampleGrabberAtOne.pool_ ∧ s'.pool_idx_ = sampleGrabberAtOne.pool_idx_ := by
  have hg : grab sampleGrabberAtOne accessLostEnv
      = some ([], (reinitResult sampleGrabberAtOne accessLostEnv).2.1,
          [ApiCall.AcquireNextFrame]
            ++ (releaseCalls (wait_for_next_frame sampleGrabberAtOne accessLostEnv.now)
              ++ (reinitResult sampleGrabberAtOne accessLostEnv).2.2)
            ++ [ApiCall.AcquireNextFrame]) := by
    rw [grab_recovery_eq _ _ (by decide) (by decide)]
    rfl
  refine ⟨by decide, by decide, by decide, by decide, by decide, ?_⟩
  rintro ⟨s', calls, h1, _, h3⟩
  rw [hg] at h1
  have h4 := congrArg (fun r => r.2.1.pool_idx_) (Option.some.inj h1)
  simp only at h4
  rw [← h4] at h3
  revert h3
  decide

/-- C21, amended: for a ready grabber with index `i` inside the pool, a call without
recovery in which every step succeeds writes the pixels of the frame into slot `i`,
returns an image equal to slot `i` with the dimensions of the buffer, and leaves the
index at `(i + 1) mod n`; a call that returns no frame because the acquisition failed
with a result other than a device result, or because the texture query failed, leaves
the pool and the index unchanged; after a device result, `initialize` allocates the pool
anew (buffers of the desktop size whose bytes are whatever the allocation finds) and
resets the index to 0. -/
theorem grab_pool_contract (s : FrameGrabber) (e : GrabEnv) (hready : SessionReady s)
    (hidx : s.pool_idx_ < s.pool_.length) :
    (FAILED e.acquire = false → FAILED e.queryTexture = false →
      FAILED e.createStaging = false → SUCCEEDED e.map = true →
      IsImage (s.pool_.getD s.pool_idx_ []) e.descHeight e.descWidth →
      MappedCovers e.mapped e.descHeight e.descWidth →
      ∃ s' calls, grab s e
          = some (capturedImage e.mapped e.descHeight e.descWidth, s', calls) ∧
        s'.pool_ = s.pool_.set s.pool_idx_ (capturedImage e.mapped e.descHeight e.descWidth) ∧
        s'.pool_.getD s.pool_idx_ [] = capturedImage e.mapped e.descHeight e.descWidth ∧
        IsImage (capturedImage e.mapped e.descHeight e.descWidth) e.descHeight e.descWidth ∧
        s'.pool_idx_ = (s.pool_idx_ + 1) % s.pool_.length) ∧
    (FAILED e.acquire = true → ¬ DeviceInvalidated e.acquire →
      ∃ s' calls, grab s e = some ([], s', calls) ∧
        s'.pool_ = s.pool_ ∧ s'.pool_idx_ = s.pool_idx_) ∧
    (FAILED e.acquire = false → FAILED e.queryTexture = true →
      ∃ s' calls, grab s e = some ([], s', calls) ∧
        s'.pool_ = s.pool_ ∧ s'.pool_idx_ = s.pool_idx_) ∧
    (DeviceInvalidated e.acquire → (reinitResult s e).1 = true → FAILED e.acquireRetry = true →
      ∃ s' calls, grab s e = some ([], s', calls) ∧ s'.pool_idx_ = 0 ∧
        s'.pool_ = (List.range (e.reinit.poolSize.getD 3).toNat).map
          (fun i => allocImage e.reinit.height e.reinit.width (e.reinit.fresh.getD i [])) ∧
        s'.pool_.length = (e.reinit.poolSize.getD 3).toNat ∧
        ∀ img ∈ s'.pool_, IsImage img e.reinit.height e.reinit.width) := by
  have hinit := hready.1
  have hgrab_ok : FAILED e.acquire = false →
      grab s e = grabAcquired (wait_for_next_frame s e.now) [ApiCall.AcquireNextFrame] e := by
    intro ha
    unfold grab
    simp only [hinit, ha, Bool.not_true, Bool.false_eq_true, if_false]
  refine ⟨?_, ?_, ?_, ?_⟩
  · intro ha hq hc hmap hd hm
    have hidx' : (wait_for_next_frame s e.now).pool_idx_
        < (wait_for_next_frame s e.now).pool_.length := hidx
    refine ⟨_, _, by rw [hgrab_ok ha]; exact grabAcquired_success _ _ e hq hidx' hc hmap hd hm,
      rfl, ?_, isImage_capturedImage hm, rfl⟩
    show (s.pool_.set s.pool_idx_ _).getD s.pool_idx_ [] = _
    rw [List.getD_eq_getElem _ _ (by rw [List.length_set]; exact hidx)]
    exact List.getElem_set_self _
  · intro ha hnd
    exact ⟨wait_for_next_frame s e.now, _, grab_acquire_failure_other s e hinit ha hnd, rfl, rfl⟩
  · intro ha hq
    exact ⟨wait_for_next_frame s e.now, _,
      by rw [hgrab_ok ha]; exact grabAcquired_query_failure _ _ e hq, rfl, rfl⟩
  · intro hdev hok hretry
    obtain ⟨_, h0, hpool⟩ := initSession_ok_state _ _ hok
    refine ⟨(reinitResult s e).2.1, [ApiCall.AcquireNextFrame]
      ++ (releaseCalls (wait_for_next_frame s e.now) ++ (reinitResult s e).2.2)
      ++ [ApiCall.AcquireNextFrame], ?_, h0, hpool, ?_, ?_⟩
    · rw [grab_recovery_eq s e hinit hdev, hok, hretry]
      rfl
    · show (initSession (tornDown (wait_for_next_frame s e.now)) e.reinit).2.1.pool_.length = _
      rw [hpool]; simp
    · show ∀ img ∈ (initSession (tornDown (wait_for_next_frame s e.now)) e.reinit).2.1.pool_, _
      rw [hpool]
      intro img himg
      obtain ⟨i, _, rfl⟩ := List.mem_map.1 himg
      exact isImage_allocImage _ _ _

/-! ## Claims on landing, placement, the calibration file and the pool -/

theorem dropPiece_landing_witness :
    0 ≤ dropPiece emptyBoard (pieceVariant "T" 0) (3 : Nat) ∧
    (canPlace emptyBoard (pieceVariant "T" 0) (3 : Nat)
      (dropPiece emptyBoard (pieceVariant "T" 0) (3 : Nat)) = true ∧
    (∀ y x : Nat, cellAt (pieceVariant "T" 0) y x ≠ 0 →
      0 ≤ dropPiece emptyBoard (pieceVariant "T" 0) (3 : Nat) + y ∧
      dropPiece emptyBoard (pieceVariant "T" 0) (3 : Nat) + y < 20 ∧ 3 + x < 10 ∧
      cellAt emptyBoard (dropPiece emptyBoard (pieceVariant "T" 0) (3 : Nat) + y).toNat (3 + x)
        = 0) ∧
    canPlace emptyBoard (pieceVariant "T" 0) (3 : Nat)
      (dropPiece emptyBoard (pieceVariant "T" 0) (3 : Nat) + 1) = false ∧
    ∃ y x : Nat, cellAt (pieceVariant "T" 0) y x ≠ 0 ∧
      (10 ≤ 3 + x ∨ 20 ≤ dropPiece emptyBoard (pieceVariant "T" 0) (3 : Nat) + 1 + y ∨
        cellAt emptyBoard (dropPiece emptyBoard (pieceVariant "T" 0) (3 : Nat) + 1 + y).toNat
          (3 + x) ≠ 0)) :=
  ⟨by decide, dropPiece_landing emptyBoard "T" 0 3 (by decide)⟩

theorem dropPiece_first_blocked_witness :
    (∃ y x, y < matRows (pieceVariant "I" 1) ∧ x < matCols (pieceVariant "I" 1) ∧
      cellAt (pieceVariant "I" 1) y x ≠ 0) ∧
    (-(matRows (pieceVariant "I" 1) : Int) ≤ dropPiece overhangBoard (pieceVariant "I" 1) 0 ∧
    dropPiece overhangBoard (pieceVariant "I" 1) 0 ≤ 19 ∧
    canPlace overhangBoard (pieceVariant "I" 1) 0
      (dropPiece overhangBoard (pieceVariant "I" 1) 0 + 1) = false ∧
    (∀ r' : Int, -(matRows (pieceVariant "I" 1) : Int) ≤ r' → r' ≤ 19 →
      canPlace overhangBoard (pieceVariant "I" 1) 0 (r' + 1) = false →
      dropPiece overhangBoard (pieceVariant "I" 1) 0 ≤ r') ∧
    ∀ r'' : Int, -(matRows (pieceVariant "I" 1) : Int) < r'' →
      r'' < dropPiece overhangBoard (pieceVariant "I" 1) 0 + 1 →
      canPlace overhangBoard (pieceVariant "I" 1) 0 r'' = true) :=
  ⟨⟨0, 0, by decide, by decide, by decide⟩,
    dropPiece_first_blocked overhangBoard (pieceVariant "I" 1) 0
      ⟨0, 0, by decide, by decide, by decide⟩⟩

/-- C26: on a 10x20 board, for every piece grid, column and row, the board returned by
`placePiece` is a 10x20 board that holds 1 at every cell `(row + y, col + x)` of the
board for which the piece has a filled cell `(y, x)`, and equals the input board at
every other cell; `placePiece` returns a new value and the board passed to `evaluate`
is only read.  When the placement is feasible for a catalog piece, the result has
exactly 4 more occupied cells than the input. -/
theorem placePiece_frame (board : Mat) (hb : IsBoard board) :
    (∀ (piece : Mat) (col row : Int),
      IsBoard (placePiece board piece col row) ∧
      ∀ Y < 20, ∀ X < 10, cellAt (placePiece board piece col row) Y X
        = if PieceCovers piece col row Y X then 1 else cellAt board Y X) ∧
    ∀ (curPiece : String) (rot c : Nat), Feasible board curPiece rot c →
      occupiedCells (placePiece board (pieceVariant curPiece rot) c
          (dropPiece board (pieceVariant curPiece rot) c))
        = occupiedCells board + 4 := by
  constructor
  · intro piece col row
    exact ⟨isBoard_placePiece hb piece col row,
      fun Y hY X hX => cellAt_placePiece hb piece col row hY hX⟩
  · intro curPiece rot c hf
    rw [occupiedCells_placePiece hb c hf.2.2, filledSet_card curPiece rot hf.1]

theorem placePiece_frame_witness :
    IsBoard gapBottomBoard ∧
    ((∀ (piece : Mat) (col row : Int),
      IsBoard (placePiece gapBottomBoard piece col row) ∧
      ∀ Y < 20, ∀ X < 10, cellAt (placePiece gapBottomBoard piece col row) Y X
        = if PieceCovers piece col row Y X then 1 else cellAt gapBottomBoard Y X) ∧
    ∀ (curPiece : String) (rot c : Nat), Feasible gapBottomBoard curPiece rot c →
      occupiedCells (placePiece gapBottomBoard (pieceVariant curPiece rot) c
          (dropPiece gapBottomBoard (pieceVariant curPiece rot) c))
        = occupiedCells gapBottomBoard + 4) :=
  ⟨by decide, placePiece_frame gapBottomBoard (by decide)⟩

theorem contains_quoted_key {content : List Char} {k : Char}
    (h : Contains content (keyPattern k)) : Contains content [quoteChar, k, quoteChar] := by
  obtain ⟨pre, post, h⟩ := h
  exact ⟨pre, ':' :: post, by rw [h]; simp [keyPattern]⟩

/-- C22: for every rectangle whose four fields are `int` values (zero and negative
values included), `loadFromFile` on the text written by `saveToFile` returns true and
the same four values; and on any text in which one of the keys "x", "y", "w", "h" does
not occur, whatever else the text holds and in whatever order, `loadFromFile` returns
false. -/
theorem calibration_roundtrip (roi m_roi : Rect) (hr : roi.InRange) :
    saveToFile roi true = (true, some (saveText roi)) ∧
    loadFromFile m_roi (saveToFile roi true).2 = (true, roi) ∧
    ∀ (content : List Char), ∀ k ∈ ['x', 'y', 'w', 'h'],
      (¬ Contains content [quoteChar, k, quoteChar] ∨ ¬ Contains content (keyPattern k)) →
      loadFromFile m_roi (some content) = (false, m_roi) := by
  refine ⟨rfl, loadFromFile_saveText roi hr m_roi, ?_⟩
  intro content k hk hmiss
  have hnone : findSubstr content (keyPattern k) = none := by
    rw [findSubstr_eq_none_iff]
    rcases hmiss with h | h
    · exact fun hc => h (contains_quoted_key hc)
    · exact h
  simp only [List.mem_cons, List.mem_singleton, List.not_mem_nil, or_false] at hk
  unfold loadFromFile
  rcases hk with rfl | rfl | rfl | rfl <;>
  · simp only []
    split
    · rename_i h1 h2 h3 h4
      simp_all
    · rfl

theorem calibration_roundtrip_witness :
    sampleRect.InRange ∧
    saveToFile sampleRect true = (true, some (saveText sampleRect)) ∧
    loadFromFile { x := 1, y := 2, width := 3, height := 4 } (saveToFile sampleRect true).2
      = (true, sampleRect) ∧
    ∀ (content : List Char), ∀ k ∈ ['x', 'y', 'w', 'h'],
      (¬ Contains content [quoteChar, k, quoteChar] ∨ ¬ Contains content (keyPattern k)) →
      loadFromFile { x := 1, y := 2, width := 3, height := 4 } (some content)
        = (false, { x := 1, y := 2, width := 3, height := 4 }) :=
  ⟨by decide, calibration_roundtrip sampleRect { x := 1, y := 2, width := 3, height := 4 }
    (by decide)⟩

theorem grab_pool_contract_witness :
    SessionReady sampleGrabber ∧ sampleGrabber.pool_idx_ < sampleGrabber.pool_.length ∧
    (FAILED sampleGrabEnv.acquire = false ∧ FAILED sampleGrabEnv.queryTexture = false ∧
      FAILED sampleGrabEnv.createStaging = false ∧ SUCCEEDED sampleGrabEnv.map = true ∧
      IsImage (sampleGrabber.pool_.getD sampleGrabber.pool_idx_ []) sampleGrabEnv.descHeight
        sampleGrabEnv.descWidth ∧
      MappedCovers sampleGrabEnv.mapped sampleGrabEnv.descHeight sampleGrabEnv.descWidth) ∧
    ((FAILED sampleGrabEnv.acquire = false → FAILED sampleGrabEnv.queryTexture = false →
      FAILED sampleGrabEnv.createStaging = false → SUCCEEDED sampleGrabEnv.map = true →
      IsImage (sampleGrabber.pool_.getD sampleGrabber.pool_idx_ []) sampleGrabEnv.descHeight sampleGrabEnv.descWidth →
      MappedCovers sampleGrabEnv.mapped sampleGrabEnv.descHeight sampleGrabEnv.descWidth →
      ∃ s' calls, grab sampleGrabber sampleGrabEnv
          = some (capturedImage sampleGrabEnv.mapped sampleGrabEnv.descHeight sampleGrabEnv.descWidth, s', calls) ∧
        s'.pool_ = sampleGrabber.pool_.set sampleGrabber.pool_idx_ (capturedImage sampleGrabEnv.mapped sampleGrabEnv.descHeight sampleGrabEnv.descWidth) ∧
        s'.pool_.getD sampleGrabber.pool_idx_ [] = capturedImage sampleGrabEnv.mapped sampleGrabEnv.descHeight sampleGrabEnv.descWidth ∧
        IsImage (capturedImage sampleGrabEnv.mapped sampleGrabEnv.descHeight sampleGrabEnv.descWidth) sampleGrabEnv.descHeight sampleGrabEnv.descWidth ∧
        s'.pool_idx_ = (sampleGrabber.pool_idx_ + 1) % sampleGrabber.pool_.length) ∧
    (FAILED sampleGrabEnv.acquire = true → ¬ DeviceInvalidated sampleGrabEnv.acquire →
      ∃ s' calls, grab sampleGrabber sampleGrabEnv = some ([], s', calls) ∧
        s'.pool_ = sampleGrabber.pool_ ∧ s'.pool_idx_ = sampleGrabber.pool_idx_) ∧
    (FAILED sampleGrabEnv.acquire = false → FAILED sampleGrabEnv.queryTexture = true →
      ∃ s' calls, grab sampleGrabber sampleGrabEnv = some ([], s', calls) ∧
        s'.pool_ = sampleGrabber.pool_ ∧ s'.pool_idx_ = sampleGrabber.pool_idx_) ∧
    (DeviceInvalidated sampleGrabEnv.acquire → (reinitResult sampleGrabber sampleGrabEnv).1 = true → FAILED sampleGrabEnv.acquireRetry = true →
      ∃ s' calls, grab sampleGrabber sampleGrabEnv = some ([], s', calls) ∧ s'.pool_idx_ = 0 ∧
        s'.pool_ = (List.range (sampleGrabEnv.reinit.poolSize.getD 3).toNat).map
          (fun i => allocImage sampleGrabEnv.reinit.height sampleGrabEnv.reinit.width
            (sampleGrabEnv.reinit.fresh.getD i [])) ∧
        s'.pool_.length = (sampleGrabEnv.reinit.poolSize.getD 3).toNat ∧
        ∀ img ∈ s'.pool_, IsImage img sampleGrabEnv.reinit.height sampleGrabEnv.reinit.width)) :=
  ⟨by decide, by decide, by decide,
    grab_pool_contract sampleGrabber sampleGrabEnv (by decide) (by decide)⟩

end TetrisOverlay
